import Mathlib

/-!
# Swarm provisioner: deployment and node lifecycle

A shallow embedding of `provision/swarm/provisioner.go`.

The provisioner talks to collaborators that are not part of the file: the
Docker control plane (through a client), the image metadata store, and a few
helpers of the same package.  Every call to a collaborator is recorded, in
program order, in a `Trace`; what a collaborator answers is given by an `Env`,
whose answers may depend on every call made so far.  A function of the
provisioner therefore takes the trace on entry and returns its Go results
together with the trace on exit.
-/

namespace Tsuru

/-! ## Errors -/

/-- Error values of the provisioner and of its collaborators. -/
inductive Err where
  | errNotImplemented
  | errNoSwarmNode
  | ErrNoImagesAvailable
  | ErrNodeNotFound
  | NoSuchService (id : String)
  | New (msg : String)
  | Wrap (cause : Err) (msg : String)
  | failure (what : String)
deriving DecidableEq, Repr

deriving instance DecidableEq for Except

/-- The Go call `errors.Cause`: the innermost wrapped error. -/
def Err.Cause : Err → Err
  | .Wrap c _ => c.Cause
  | e => e

/-- The Go type assertion `err.(*docker.NoSuchService)`. -/
def Err.isNoSuchService : Err → Bool
  | .NoSuchService _ => true
  | _ => false

/-! ## Data model -/

/-- A Go `map[string]string`, as an association list. -/
abbrev StrMap := List (String × String)

/-- Map indexing `m[k]`: the zero value when the key is absent. -/
def StrMap.get (m : StrMap) (k : String) : String :=
  (m.lookup k).getD ""

/-- Map assignment `m[k] = v`. -/
def StrMap.set (m : StrMap) (k v : String) : StrMap :=
  (k, v) :: m.filter (fun e => e.1 != k)

/-- The part of `provision.App` the provisioner reads. -/
structure provision.App where
  name : String
  platform : String
deriving DecidableEq, Repr

inductive provision.Status where
  | StatusStarted
deriving DecidableEq, Repr

/-- The fields of `url.URL` that `Units` fills. -/
structure url.URL where
  Scheme : String
  Host : String
deriving DecidableEq, Repr

structure provision.Unit where
  ID : String
  AppName : String
  ProcessName : String
  Type_ : String
  Ip : String
  Status : provision.Status
  Address : url.URL
deriving DecidableEq, Repr

inductive swarm.NodeAvailability where
  | Active
  | Pause
  | Drain
deriving DecidableEq, Repr

structure swarm.NodeSpec where
  Labels : StrMap
  Availability : swarm.NodeAvailability
deriving DecidableEq, Repr

/-- A cluster node; `Version` is `Version.Index`. -/
structure swarm.Node where
  ID : String
  Version : Nat
  Spec : swarm.NodeSpec
deriving DecidableEq, Repr

inductive swarm.RestartPolicyCondition where
  | None
  | OnFailure
  | Any
deriving DecidableEq, Repr

/-- The fields of `swarm.ServiceSpec` the provisioner reads or writes:
`Annotations.Name`, `Annotations.Labels`, `TaskTemplate.ContainerSpec.Image`,
`TaskTemplate.ContainerSpec.Command`, `TaskTemplate.RestartPolicy.Condition`
and `Mode.Replicated.Replicas`. -/
structure swarm.ServiceSpec where
  Name : String
  Labels : StrMap
  Image : String
  Command : List String
  RestartCondition : swarm.RestartPolicyCondition
  Replicas : Nat
deriving DecidableEq, Repr

/-- A service; `Version` is `Version.Index`, `Ports` lists
`Endpoint.Ports[i].PublishedPort`. -/
structure swarm.Service where
  ID : String
  Version : Nat
  Spec : swarm.ServiceSpec
  Ports : List Nat
deriving DecidableEq, Repr

inductive swarm.TaskState where
  | Running
  | Shutdown
deriving DecidableEq, Repr

/-- A task; `ContainerID` is `Status.ContainerStatus.ContainerID`. -/
structure swarm.Task where
  ID : String
  ServiceID : String
  NodeID : String
  ContainerID : String
deriving DecidableEq, Repr

/-- A handle on a Docker endpoint (`*docker.Client`). -/
structure docker.Client where
  endpoint : String
deriving DecidableEq, Repr

/-- The fields of `docker.Image` read by `ImageDeploy`: `Config.Entrypoint`
and the keys of `Config.ExposedPorts`. -/
structure docker.Image where
  Entrypoint : List String
  ExposedPorts : List String
deriving DecidableEq, Repr

/-- A value stored under a key of image custom data (`interface{}`). -/
inductive CustomValue where
  | str (s : String)
  | table (t : StrMap)
deriving DecidableEq, Repr

/-- A Go `map[string]interface{}`. -/
abbrev CustomData := List (String × CustomValue)

/-- Map assignment on custom data. -/
def CustomData.set (m : CustomData) (k : String) (v : CustomValue) : CustomData :=
  (k, v) :: m.filter (fun e => e.1 != k)

structure image.ImageMetadata where
  Name : String
  CustomData : CustomData
  Processes : StrMap
deriving DecidableEq, Repr

structure tsuruServiceOpts where
  app : provision.App
  process : String := ""
  image : String := ""
  buildImage : String := ""
  baseSpec : Option swarm.ServiceSpec := none
  isDeploy : Bool := false
deriving DecidableEq, Repr

structure provision.AddNodeOptions where
  Address : String
  Metadata : StrMap
deriving DecidableEq, Repr

structure provision.RemoveNodeOptions where
  Address : String
  Rebalance : Bool
deriving DecidableEq, Repr

/-! ## Constants -/

def provisionerName : String := "swarm"

def labelInternalPrefix : String := "tsuru-internal-"

def labelDockerAddr : String := labelInternalPrefix ++ "docker-addr"

/-! ## Calls to collaborators -/

/-- One call made by the provisioner to a collaborator, with its arguments. -/
inductive Call where
  | chooseDBSwarmNode
  | newClient (addr : String)
  | clientForNode (c : docker.Client) (nodeID : String)
  | ListTasks (c : docker.Client) (label : String)
  | InspectNode (c : docker.Client) (id : String)
  | InspectService (c : docker.Client) (id : String)
  | ListNodes (c : docker.Client)
  | Info (c : docker.Client)
  | InspectImage (c : docker.Client) (img : String)
  | initSwarm (c : docker.Client) (addr : String)
  | joinSwarm (existing c : docker.Client) (addr : String)
  | UpdateNode (c : docker.Client) (id : String) (version : Nat) (spec : swarm.NodeSpec)
  | RemoveNode (c : docker.Client) (id : String) (force : Bool)
  | updateDBSwarmNodes (c : docker.Client)
  | CreateService (c : docker.Client) (spec : swarm.ServiceSpec)
  | UpdateService (c : docker.Client) (id : String) (version : Nat) (spec : swarm.ServiceSpec)
  | removeServiceAndLog (c : docker.Client) (id : String)
  | waitForTasks (c : docker.Client) (id : String) (state : swarm.TaskState)
  | safeAttachWaitContainer (c : docker.Client) (container : String)
  | commitPushBuildImage (c : docker.Client) (img container : String) (app : provision.App)
  | TagImage (c : docker.Client) (img repo tag : String) (force : Bool)
  | pushImage (c : docker.Client) (repo tag : String)
  | GetBuildImage (app : provision.App)
  | AppCurrentImageName (app : String)
  | GetImageWebProcessName (img : String)
  | AppNewImageName (app : String)
  | CreateImageMetadata (img : String) (processes : StrMap)
  | SaveImageCustomData (img : String) (data : CustomData)
  | GetImageCustomData (img : String)
  | AppendAppImageName (app img : String)
  | SetUpdatePlatform (app : provision.App) (check : Bool)
  | Fprint (text : String)
deriving DecidableEq, Repr

/-- The calls made so far, oldest first. -/
abbrev Trace := List Call

/-- The answers of the collaborators.  The fields with a `Trace` argument are
answers of stateful collaborators (control plane, metadata store, node cache):
they receive the calls made before the one being answered.  The other fields
are pure helpers; `IsPrintTable` stands for the Unicode tables consulted by Go
for characters above U+00FF.  `waitForTasks` answers with a first task and the
remaining ones: the waiter succeeds only once the service has a task.
`safeAttachWaitContainer` answers with the text copied to the output stream
and the exit code. -/
structure Env where
  chooseDBSwarmNode : Trace → Except Err docker.Client
  newClient : Trace → String → Except Err docker.Client
  clientForNode : Trace → docker.Client → String → Except Err docker.Client
  ListTasks : Trace → docker.Client → String → Except Err (List swarm.Task)
  InspectNode : Trace → docker.Client → String → Except Err swarm.Node
  InspectService : Trace → docker.Client → String → Except Err swarm.Service
  ListNodes : Trace → docker.Client → Except Err (List swarm.Node)
  Info : Trace → docker.Client → Except Err String
  InspectImage : Trace → docker.Client → String → Except Err docker.Image
  initSwarm : Trace → docker.Client → String → Option Err
  joinSwarm : Trace → docker.Client → docker.Client → String → Option Err
  UpdateNode : Trace → docker.Client → String → Nat → swarm.NodeSpec → Option Err
  RemoveNode : Trace → docker.Client → String → Bool → Option Err
  updateDBSwarmNodes : Trace → docker.Client → Option Err
  CreateService : Trace → docker.Client → swarm.ServiceSpec → Except Err swarm.Service
  UpdateService : Trace → docker.Client → String → Nat → swarm.ServiceSpec → Option Err
  waitForTasks : Trace → docker.Client → String → swarm.TaskState →
    Except Err (swarm.Task × List swarm.Task)
  safeAttachWaitContainer : Trace → docker.Client → String → String × Except Err Int
  commitPushBuildImage : Trace → docker.Client → String → String → provision.App →
    Except Err String
  TagImage : Trace → docker.Client → String → String → String → Bool → Option Err
  pushImage : Trace → docker.Client → String → String → Option Err
  GetBuildImage : Trace → provision.App → String
  AppCurrentImageName : Trace → String → String × Option Err
  GetImageWebProcessName : Trace → String → Except Err String
  AppNewImageName : Trace → String → Except Err String
  SaveImageCustomData : Trace → String → CustomData → Option Err
  GetImageCustomData : Trace → String → Except Err image.ImageMetadata
  AppendAppImageName : Trace → String → String → Option Err
  URLToHost : String → String
  ArchiveDeployCmds : provision.App → String → List String
  GetProcessesFromProcfile : String → StrMap
  CreateImageMetadata : String → StrMap → image.ImageMetadata
  serviceNameForApp : provision.App → String → String
  serviceSpecForApp : tsuruServiceOpts → Except Err swarm.ServiceSpec
  IsPrintTable : Char → Bool
  labelAppName : String
  labelAppProcess : String
  labelServiceDeploy : String
  labelServiceBuildImage : String

/-! ## Units -/

/-- A Go map from identifiers to inspected objects. -/
abbrev Cache (α : Type) := List (String × α)

/-- The body of the `for i, t := range tasks` loop of `Units`, from task `t`
on: `nodeMap` and `serviceMap` are the caches, `units` the entries filled so
far.  In `stepNode` and `stepService` the second component is the value read
back by `nodeMap[t.NodeID]` and `serviceMap[t.ServiceID]`. -/
def unitsLoop (env : Env) (client : docker.Client) (app : provision.App) :
    List swarm.Task → Cache swarm.Node → Cache swarm.Service → List provision.Unit → Trace →
    Except Err (List provision.Unit) × Trace
  | [], _, _, units, tr => (.ok units, tr)
  | t :: rest, nodeMap, serviceMap, units, tr =>
    let stepNode : Except Err (Cache swarm.Node × swarm.Node) × Trace :=
      match nodeMap.lookup t.NodeID with
      | some node => (.ok (nodeMap, node), tr)
      | none =>
        match env.InspectNode tr client t.NodeID with
        | .error err => (.error (.Wrap err ""), tr ++ [Call.InspectNode client t.NodeID])
        | .ok node =>
          (.ok ((t.NodeID, node) :: nodeMap, node), tr ++ [Call.InspectNode client t.NodeID])
    match stepNode with
    | (.error err, tr1) => (.error err, tr1)
    | (.ok (nodeMap1, node), tr1) =>
      let stepService : Except Err (Cache swarm.Service × swarm.Service) × Trace :=
        match serviceMap.lookup t.ServiceID with
        | some service => (.ok (serviceMap, service), tr1)
        | none =>
          match env.InspectService tr1 client t.ServiceID with
          | .error err => (.error (.Wrap err ""), tr1 ++ [Call.InspectService client t.ServiceID])
          | .ok service =>
            (.ok ((t.ServiceID, service) :: serviceMap, service),
              tr1 ++ [Call.InspectService client t.ServiceID])
      match stepService with
      | (.error err, tr2) => (.error err, tr2)
      | (.ok (serviceMap1, service), tr2) =>
        let addr := node.Spec.Labels.get labelDockerAddr
        let host := env.URLToHost addr
        let pubPort : Nat :=
          match service.Ports with
          | [] => 0
          | p :: _ => p
        let unit : provision.Unit :=
          { ID := t.ContainerID
            AppName := app.name
            ProcessName := service.Spec.Labels.get env.labelAppProcess
            Type_ := app.platform
            Ip := host
            Status := provision.Status.StatusStarted
            Address := { Scheme := "http", Host := host ++ ":" ++ toString pubPort } }
        unitsLoop env client app rest nodeMap1 serviceMap1 (units ++ [unit]) tr2

/-- The method `swarmProvisioner.Units`. -/
def Units (env : Env) (app : provision.App) (tr : Trace) :
    Except Err (List provision.Unit) × Trace :=
  match env.chooseDBSwarmNode tr with
  | .error err => (.error err, tr ++ [Call.chooseDBSwarmNode])
  | .ok client =>
    let tr1 := tr ++ [Call.chooseDBSwarmNode]
    let label := env.labelAppName ++ "=" ++ app.name
    match env.ListTasks tr1 client label with
    | .error err => (.error (.Wrap err ""), tr1 ++ [Call.ListTasks client label])
    | .ok tasks => unitsLoop env client app tasks [] [] [] (tr1 ++ [Call.ListTasks client label])

/-! ## RoutableUnits -/

/-- The loop `for i := 0; i < len(units); i++` of `RoutableUnits`, entered with
index `i` (a Go `int`).  A unit of another process is deleted in place
(`append(units[:i], units[i+1:]...)`) and the index is stepped back (`i--`)
before the loop's own `i++`; otherwise only the `i++` applies.  The index is
never negative when the loop is entered at 0. -/
def routableLoop (webProcessName : String) (units : List provision.Unit) (i : Int) :
    List provision.Unit :=
  if h : 0 ≤ i ∧ i < units.length then
    if (units.get ⟨i.toNat, by omega⟩).ProcessName != webProcessName then
      routableLoop webProcessName (units.take i.toNat ++ units.drop (i.toNat + 1)) (i - 1 + 1)
    else
      routableLoop webProcessName units (i + 1)
  else units
termination_by (2 * (units.length : Int) - i).toNat
decreasing_by
  · simp only [List.length_append, List.length_take, List.length_drop]
    omega
  · omega

/-- The method `swarmProvisioner.RoutableUnits`. -/
def RoutableUnits (env : Env) (app : provision.App) (tr : Trace) :
    Except Err (List provision.Unit) × Trace :=
  let cur := env.AppCurrentImageName tr app.name
  let tr1 := tr ++ [Call.AppCurrentImageName app.name]
  let imgID := cur.1
  if cur.2 ≠ none ∧ cur.2 ≠ some Err.ErrNoImagesAvailable then
    (.error (cur.2.getD (.failure "")), tr1)
  else
    match env.GetImageWebProcessName tr1 imgID with
    | .error err => (.error err, tr1 ++ [Call.GetImageWebProcessName imgID])
    | .ok webProcessName =>
      match Units env app (tr1 ++ [Call.GetImageWebProcessName imgID]) with
      | (.error err, tr2) => (.error err, tr2)
      | (.ok units, tr2) => (.ok (routableLoop webProcessName units 0), tr2)

/-! ## RegisterUnit -/

/-- The error of line 204 of `RegisterUnit`, for an empty build-image label. -/
def errInvalidBuildImage : Err :=
  .New "invalid build image label for build service"

/-- The method `swarmProvisioner.RegisterUnit`; `customData` is `none` for a
nil map.  The error for an empty build-image label carries the fixed part of
its message; the rendering of the service appended by `%#v` is left out. -/
def RegisterUnit (env : Env) (unit : provision.Unit) (customData : Option CustomData)
    (tr : Trace) : Option Err × Trace :=
  match customData with
  | none => (none, tr)
  | some data =>
    match env.chooseDBSwarmNode tr with
    | .error err => (some err, tr ++ [Call.chooseDBSwarmNode])
    | .ok client =>
      let tr1 := tr ++ [Call.chooseDBSwarmNode]
      let label := env.labelServiceDeploy ++ "=true"
      match env.ListTasks tr1 client label with
      | .error err => (some (.Wrap err ""), tr1 ++ [Call.ListTasks client label])
      | .ok tasks =>
        let tr2 := tr1 ++ [Call.ListTasks client label]
        match tasks.find? (fun t => t.ContainerID == unit.ID) with
        | none => (none, tr2)
        | some foundTask =>
          match env.InspectService tr2 client foundTask.ServiceID with
          | .error err =>
            (some (.Wrap err ""), tr2 ++ [Call.InspectService client foundTask.ServiceID])
          | .ok srv =>
            let tr3 := tr2 ++ [Call.InspectService client foundTask.ServiceID]
            let buildingImage := srv.Spec.Labels.get env.labelServiceBuildImage
            if buildingImage = "" then
              (some errInvalidBuildImage, tr3)
            else
              (env.SaveImageCustomData tr3 buildingImage data,
                tr3 ++ [Call.SaveImageCustomData buildingImage data])

/-! ## Nodes -/

/-- The node as seen by the upper layer: `swarmNodeWrapper` (its second field,
the provisioner, carries no data). -/
structure swarmNodeWrapper where
  Node : swarm.Node
deriving DecidableEq, Repr

/-- Modelled from the spec: `swarmNodeWrapper.Address` is declared in a file of
the package that is not available; the address of a node is its
reachable-address label, the one `Units` reads. -/
def swarmNodeWrapper.Address (n : swarmNodeWrapper) : String :=
  n.Node.Spec.Labels.get labelDockerAddr

/-- The `filterMap` of `ListNodes`: `none` is the nil map, otherwise the set of
hosts of the filter entries. -/
def ListNodes.filterMap (env : Env) (addressFilter : List String) : Option (List String) :=
  if addressFilter.length > 0 then
    some (addressFilter.foldl (fun m addr => env.URLToHost addr :: m) [])
  else none

/-- The loop `for i := range nodes` of `ListNodes`. -/
def ListNodes.loop (env : Env) (filterMap : Option (List String)) :
    List swarm.Node → List swarmNodeWrapper → List swarmNodeWrapper
  | [], nodeList => nodeList
  | node :: rest, nodeList =>
    let wrapped : swarmNodeWrapper := { Node := node }
    let toAdd : Bool :=
      match filterMap with
      | none => true
      | some m => m.contains (env.URLToHost wrapped.Address)
    if toAdd then ListNodes.loop env filterMap rest (nodeList ++ [wrapped])
    else ListNodes.loop env filterMap rest nodeList

/-- The method `swarmProvisioner.ListNodes`. -/
def ListNodes (env : Env) (addressFilter : List String) (tr : Trace) :
    Except Err (List swarmNodeWrapper) × Trace :=
  match env.chooseDBSwarmNode tr with
  | .error err =>
    if err.Cause = Err.errNoSwarmNode then (.ok [], tr ++ [Call.chooseDBSwarmNode])
    else (.error err, tr ++ [Call.chooseDBSwarmNode])
  | .ok client =>
    let tr1 := tr ++ [Call.chooseDBSwarmNode]
    match env.ListNodes tr1 client with
    | .error err => (.error err, tr1 ++ [Call.ListNodes client])
    | .ok nodes =>
      (.ok (ListNodes.loop env (ListNodes.filterMap env addressFilter) nodes []),
        tr1 ++ [Call.ListNodes client])

/-- The method `swarmProvisioner.GetNode`. -/
def GetNode (env : Env) (address : String) (tr : Trace) :
    Except Err swarmNodeWrapper × Trace :=
  match ListNodes env [address] tr with
  | (.error err, tr1) => (.error err, tr1)
  | (.ok [], tr1) => (.error Err.ErrNodeNotFound, tr1)
  | (.ok (node :: _), tr1) => (.ok node, tr1)

/-- The label map built by `AddNode`: the reachable address first, then every
entry of the caller metadata assigned over it. -/
def AddNode.labels (opts : provision.AddNodeOptions) : StrMap :=
  opts.Metadata.foldl (fun m kv => m.set kv.1 kv.2) [(labelDockerAddr, opts.Address)]

/-- The method `swarmProvisioner.AddNode`. -/
def AddNode (env : Env) (opts : provision.AddNodeOptions) (tr : Trace) : Option Err × Trace :=
  let tr1 := tr ++ [Call.chooseDBSwarmNode]
  let chosen : Except Err (Option docker.Client) :=
    match env.chooseDBSwarmNode tr with
    | .ok c => .ok (some c)
    | .error err => if err.Cause ≠ Err.errNoSwarmNode then .error err else .ok none
  match chosen with
  | .error err => (some err, tr1)
  | .ok existingClient =>
    match env.newClient tr1 opts.Address with
    | .error err => (some err, tr1 ++ [Call.newClient opts.Address])
    | .ok newClient =>
      let tr2 := tr1 ++ [Call.newClient opts.Address]
      let formed : Option Err × Trace :=
        match existingClient with
        | none =>
          (env.initSwarm tr2 newClient opts.Address, tr2 ++ [Call.initSwarm newClient opts.Address])
        | some existing =>
          (env.joinSwarm tr2 existing newClient opts.Address,
            tr2 ++ [Call.joinSwarm existing newClient opts.Address])
      match formed with
      | (some err, tr3) => (some err, tr3)
      | (none, tr3) =>
        match env.Info tr3 newClient with
        | .error err => (some (.Wrap err ""), tr3 ++ [Call.Info newClient])
        | .ok nodeID =>
          let tr4 := tr3 ++ [Call.Info newClient]
          match env.InspectNode tr4 newClient nodeID with
          | .error err => (some (.Wrap err ""), tr4 ++ [Call.InspectNode newClient nodeID])
          | .ok nodeData =>
            let tr5 := tr4 ++ [Call.InspectNode newClient nodeID]
            let spec : swarm.NodeSpec := { nodeData.Spec with Labels := AddNode.labels opts }
            let tr6 := tr5 ++ [Call.UpdateNode newClient nodeID nodeData.Version spec]
            match env.UpdateNode tr5 newClient nodeID nodeData.Version spec with
            | some err => (some (.Wrap err ""), tr6)
            | none =>
              (env.updateDBSwarmNodes tr6 newClient, tr6 ++ [Call.updateDBSwarmNodes newClient])

/-- The method `swarmProvisioner.RemoveNode`. -/
def RemoveNode (env : Env) (opts : provision.RemoveNodeOptions) (tr : Trace) :
    Option Err × Trace :=
  match GetNode env opts.Address tr with
  | (.error err, tr1) => (some err, tr1)
  | (.ok node, tr1) =>
    match env.chooseDBSwarmNode tr1 with
    | .error err => (some err, tr1 ++ [Call.chooseDBSwarmNode])
    | .ok client =>
      let tr2 := tr1 ++ [Call.chooseDBSwarmNode]
      let swarmNode := node.Node
      let drained : Option Err × Trace :=
        if opts.Rebalance then
          let spec : swarm.NodeSpec :=
            { swarmNode.Spec with Availability := swarm.NodeAvailability.Drain }
          (env.UpdateNode tr2 client swarmNode.ID swarmNode.Version spec,
            tr2 ++ [Call.UpdateNode client swarmNode.ID swarmNode.Version spec])
        else (none, tr2)
      match drained with
      | (some err, tr3) => (some (.Wrap err ""), tr3)
      | (none, tr3) =>
        let tr4 := tr3 ++ [Call.RemoveNode client swarmNode.ID true]
        match env.RemoveNode tr3 client swarmNode.ID true with
        | some err => (some (.Wrap err ""), tr4)
        | none => (env.updateDBSwarmNodes tr4 client, tr4 ++ [Call.updateDBSwarmNodes client])

/-! ## Service reconciliation -/

/-- The function `deploy`: create the service of one process, or update it in
place when it exists.  `create` is the branch `srv == nil`, taken when the
inspection reported that there is no such service.  The Go parameter `cmd` is
not used by the function. -/
def deploy (env : Env) (client : docker.Client) (a : provision.App)
    (process _cmd imgID : String) (tr : Trace) : Option Err × Trace :=
  let srvName := env.serviceNameForApp a process
  let tr1 := tr ++ [Call.InspectService client srvName]
  let create : Option Err × Trace :=
    match env.serviceSpecForApp { app := a, process := process, image := imgID } with
    | .error err => (some err, tr1)
    | .ok spec =>
      match env.CreateService tr1 client spec with
      | .error err => (some (.Wrap err ""), tr1 ++ [Call.CreateService client spec])
      | .ok _ => (none, tr1 ++ [Call.CreateService client spec])
  match env.InspectService tr client srvName with
  | .error err => if !err.isNoSuchService then (some (.Wrap err ""), tr1) else create
  | .ok srv =>
    match env.serviceSpecForApp
      { app := a, process := process, image := imgID, baseSpec := some srv.Spec } with
    | .error err => (some err, tr1)
    | .ok spec =>
      match env.UpdateService tr1 client srv.ID srv.Version spec with
      | some err => (some (.Wrap err ""), tr1 ++ [Call.UpdateService client srv.ID srv.Version spec])
      | none => (none, tr1 ++ [Call.UpdateService client srv.ID srv.Version spec])

/-- The loop `for processName, cmd := range imageData.Processes` of
`deployProcesses`; the list gives the entries in the order of iteration. -/
def deployProcesses.loop (env : Env) (client : docker.Client) (a : provision.App)
    (imgID : String) : StrMap → Trace → Option Err × Trace
  | [], tr => (none, tr)
  | (processName, cmd) :: rest, tr =>
    match deploy env client a processName cmd imgID tr with
    | (some err, tr1) => (some err, tr1)
    | (none, tr1) => deployProcesses.loop env client a imgID rest tr1

/-- The function `deployProcesses`. -/
def deployProcesses (env : Env) (client : docker.Client) (a : provision.App)
    (imgID : String) (tr : Trace) : Option Err × Trace :=
  match env.GetImageCustomData tr imgID with
  | .error err => (some err, tr ++ [Call.GetImageCustomData imgID])
  | .ok imageData =>
    match deployProcesses.loop env client a imgID imageData.Processes
      (tr ++ [Call.GetImageCustomData imgID]) with
    | (some err, tr1) => (some err, tr1)
    | (none, tr1) =>
      match env.AppendAppImageName tr1 a.name imgID with
      | some err => (some (.Wrap err ""), tr1 ++ [Call.AppendAppImageName a.name imgID])
      | none => (none, tr1 ++ [Call.AppendAppImageName a.name imgID])

/-! ## Build pipeline -/

/-- The function `runOnceBuildCmds`.  The result is the service id, then the
task or the error, then the text copied to the writer `w`. -/
def runOnceBuildCmds (env : Env) (client : docker.Client) (a : provision.App)
    (cmds : List String) (imgID buildingImage : String) (tr : Trace) :
    (String × Except Err swarm.Task × String) × Trace :=
  match env.serviceSpecForApp
    { app := a, image := imgID, isDeploy := true, buildImage := buildingImage } with
  | .error err => (("", .error err, ""), tr)
  | .ok spec0 =>
    let spec : swarm.ServiceSpec :=
      { spec0 with Command := cmds, RestartCondition := swarm.RestartPolicyCondition.None }
    let tr1 := tr ++ [Call.CreateService client spec]
    match env.CreateService tr client spec with
    | .error err => (("", .error (.Wrap err ""), ""), tr1)
    | .ok srv =>
      let createdID := srv.ID
      let tr2 := tr1 ++ [Call.waitForTasks client createdID swarm.TaskState.Shutdown]
      match env.waitForTasks tr1 client createdID swarm.TaskState.Shutdown with
      | .error err => ((createdID, .error err, ""), tr2)
      | .ok (task0, _) =>
        let tr3 := tr2 ++ [Call.clientForNode client task0.NodeID]
        match env.clientForNode tr2 client task0.NodeID with
        | .error err => ((createdID, .error err, ""), tr3)
        | .ok nodeClient =>
          let contID := task0.ContainerID
          let tr4 := tr3 ++ [Call.safeAttachWaitContainer nodeClient contID]
          match env.safeAttachWaitContainer tr3 nodeClient contID with
          | (out, .error err) => ((createdID, .error err, out), tr4)
          | (out, .ok exitCode) =>
            if exitCode ≠ 0 then
              ((createdID,
                .error (.New ("unexpected result code for build container: " ++ toString exitCode)),
                out), tr4)
            else ((createdID, .ok task0, out), tr4)

/-- The deferred call `defer removeServiceAndLog(client, srvID)`, registered
only for a non-empty id and run when the deploy returns. -/
def deferRemoveService (client : docker.Client) (srvID : String)
    (r : (String × Option Err) × Trace) : (String × Option Err) × Trace :=
  if srvID ≠ "" then (r.1, r.2 ++ [Call.removeServiceAndLog client srvID]) else r

/-- The method `swarmProvisioner.ArchiveDeploy`. -/
def ArchiveDeploy (env : Env) (app : provision.App) (archiveURL : String) (tr : Trace) :
    (String × Option Err) × Trace :=
  let baseImage := env.GetBuildImage tr app
  let tr1 := tr ++ [Call.GetBuildImage app]
  let tr2 := tr1 ++ [Call.AppNewImageName app.name]
  match env.AppNewImageName tr1 app.name with
  | .error err => (("", some (.Wrap err "")), tr2)
  | .ok buildingImage =>
    let cmds := env.ArchiveDeployCmds app archiveURL
    let tr3 := tr2 ++ [Call.chooseDBSwarmNode]
    match env.chooseDBSwarmNode tr2 with
    | .error err => (("", some err), tr3)
    | .ok client =>
      match runOnceBuildCmds env client app cmds baseImage buildingImage tr3 with
      | ((srvID, built, _), tr4) =>
        deferRemoveService client srvID <|
          match built with
          | .error err => (("", some err), tr4)
          | .ok task =>
            let tr5 := tr4 ++ [Call.commitPushBuildImage client buildingImage task.ContainerID app]
            match env.commitPushBuildImage tr4 client buildingImage task.ContainerID app with
            | .error err => (("", some err), tr5)
            | .ok _ =>
              match deployProcesses env client app buildingImage tr5 with
              | (some err, tr6) => (("", some (.Wrap err "")), tr6)
              | (none, tr6) => ((buildingImage, none), tr6)

/-! ## Go string helpers used by ImageDeploy -/

/-- The table `lowerhex` of Go. -/
def lowerhex (n : Nat) : Char :=
  "0123456789abcdef".toList.getD (n % 16) '0'

/-- The hexadecimal digits of `r`, `width` of them, most significant first. -/
def hexDigits (r : Nat) : Nat → List Char
  | 0 => []
  | width + 1 => lowerhex (r / 16 ^ width) :: hexDigits r width

/-- The Go predicate `strconv.IsPrint`: exact up to U+00FF, from the tables
above. -/
def IsPrint (table : Char → Bool) (r : Char) : Bool :=
  if r.toNat ≤ 0xFF then
    if 0x20 ≤ r.toNat ∧ r.toNat ≤ 0x7E then true
    else if 0xA1 ≤ r.toNat ∧ r.toNat ≤ 0xFF then r.toNat != 0xAD
    else false
  else table r

/-- One character inside a Go double-quoted literal (`appendEscapedRune`): the
quote and the backslash are backslashed, printable characters stand for
themselves, the others are escaped. -/
def escapedRune (table : Char → Bool) (r : Char) : List Char :=
  let bs := Char.ofNat 92
  if r = Char.ofNat 34 ∨ r = bs then [bs, r]
  else if IsPrint table r then [r]
  else if r.toNat = 7 then [bs, 'a']
  else if r.toNat = 8 then [bs, 'b']
  else if r.toNat = 12 then [bs, 'f']
  else if r.toNat = 10 then [bs, 'n']
  else if r.toNat = 13 then [bs, 'r']
  else if r.toNat = 9 then [bs, 't']
  else if r.toNat = 11 then [bs, 'v']
  else if r.toNat < 0x20 ∨ r.toNat = 0x7F then bs :: 'x' :: hexDigits r.toNat 2
  else if r.toNat < 0x10000 then bs :: 'u' :: hexDigits r.toNat 4
  else bs :: 'U' :: hexDigits r.toNat 8

/-- The verb `%q` of `fmt.Sprintf` on a string (`strconv.Quote`): the string
as a double-quoted Go literal. -/
def strconvQuote (table : Char → Bool) (s : String) : String :=
  String.mk (Char.ofNat 34 :: (s.toList.flatMap (escapedRune table)) ++ [Char.ofNat 34])

/-- The Go call `strings.Split(s, sep)` for a separator of one character. -/
def stringsSplit (s : String) (sep : Char) : List String :=
  (s.toList.splitOn sep).map String.mk

/-- The Go call `strings.Join(elems, sep)`. -/
def stringsJoin (elems : List String) (sep : String) : String :=
  sep.intercalate elems

/-- The Go call `strings.Contains(s, sep)` for a separator of one character. -/
def stringsContains (s : String) (sep : Char) : Bool :=
  s.toList.contains sep

/-! ## ImageDeploy -/

/-- The command run by the build of `ImageDeploy` (line 371). -/
def ImageDeploy.cmds : List String :=
  ["/bin/bash", "-c",
    "cat /home/application/current/Procfile || cat /app/user/Procfile || cat /Procfile"]

/-- Lines 362 to 364 of `ImageDeploy`: `:latest` is appended to a reference
without a colon. -/
def ImageDeploy.imageRef (imgID : String) : String :=
  if !stringsContains imgID ':' then imgID ++ ":latest" else imgID

/-- Lines 403 and 404 of `ImageDeploy`: the new image name is split at every
colon; the repository is the pieces but the last joined again by colons, the
tag is the last piece. -/
def ImageDeploy.repoTag (newImage : String) : String × String :=
  let imageInfo := stringsSplit newImage ':'
  (stringsJoin (imageInfo.take (imageInfo.length - 1)) ":",
    imageInfo.getD (imageInfo.length - 1) "")

/-- Lines 389 to 399 of `ImageDeploy`: when the Procfile gave no process, the
process `web` is built from the entrypoint of the image, the first token as it
is and each later one appended as `" %q"`. -/
def ImageDeploy.procfileOrEntrypoint (env : Env) (procfile : StrMap) (entrypoint : List String)
    (tr : Trace) : Except Err StrMap × Trace :=
  if procfile.length = 0 then
    let tr1 := tr ++ [Call.Fprint "  ---> Procfile not found, trying to get entrypoint\n"]
    match entrypoint with
    | [] => (.error (.New "no procfile or entrypoint found in image"), tr1)
    | first :: others =>
      let webProcess :=
        others.foldl (fun acc c => acc ++ (" " ++ strconvQuote env.IsPrintTable c)) first
      (.ok (procfile.set "web" webProcess), tr1)
  else (.ok procfile, tr)

/-- The loop `for k := range imageInspect.Config.ExposedPorts` of
`ImageDeploy`. -/
def ImageDeploy.exposedPort (ports : List String) (data : CustomData) : CustomData :=
  ports.foldl (fun d k => d.set "exposedPort" (CustomValue.str k)) data

/-- The error of line 415, for an image with more than one exposed port. -/
def errTooManyPorts : Err :=
  .New "Too many ports. You should especify which one you want to."

/-- The part of `ImageDeploy` that follows the build (from line 379): `client`
is the client chosen at the start, `task` the finished build task and
`procfileData` the text of the buffer. -/
def ImageDeploy.afterBuild (env : Env) (a : provision.App) (imgID newImage : String)
    (client0 : docker.Client) (task : swarm.Task) (procfileData : String) (tr : Trace) :
    (String × Option Err) × Trace :=
  let tr1 := tr ++ [Call.clientForNode client0 task.NodeID]
  match env.clientForNode tr client0 task.NodeID with
  | .error err => (("", some err), tr1)
  | .ok client =>
    let procfile0 := env.GetProcessesFromProcfile procfileData
    let tr2 := tr1 ++ [Call.InspectImage client imgID]
    match env.InspectImage tr1 client imgID with
    | .error err => (("", some (.Wrap err "")), tr2)
    | .ok imageInspect =>
      match ImageDeploy.procfileOrEntrypoint env procfile0 imageInspect.Entrypoint tr2 with
      | (.error err, tr3) => (("", some err), tr3)
      | (.ok procfile, tr3) =>
        let tr4 := tr3 ++ procfile.map (fun kv =>
          Call.Fprint ("  ---> Process " ++ kv.1 ++ " found with command: " ++ kv.2 ++ "\n"))
        let imageInfo := stringsSplit newImage ':'
        let repo := stringsJoin (imageInfo.take (imageInfo.length - 1)) ":"
        let tag := imageInfo.getD (imageInfo.length - 1) ""
        let tr5 := tr4 ++ [Call.TagImage client imgID repo tag true]
        match env.TagImage tr4 client imgID repo tag true with
        | some err => (("", some (.Wrap err "")), tr5)
        | none =>
          let tr6 := tr5 ++ [Call.pushImage client repo tag]
          match env.pushImage tr5 client repo tag with
          | some err => (("", some err), tr6)
          | none =>
            let imageData := env.CreateImageMetadata newImage procfile
            let tr7 := tr6 ++ [Call.CreateImageMetadata newImage procfile]
            if imageInspect.ExposedPorts.length > 1 then
              (("", some errTooManyPorts), tr7)
            else
              let customData := ImageDeploy.exposedPort imageInspect.ExposedPorts imageData.CustomData
              let tr8 := tr7 ++ [Call.SaveImageCustomData newImage customData]
              match env.SaveImageCustomData tr7 newImage customData with
              | some err => (("", some (.Wrap err "")), tr8)
              | none =>
                let tr9 := tr8 ++ [Call.SetUpdatePlatform a true]
                match deployProcesses env client a newImage tr9 with
                | (some err, tr10) => (("", some err), tr10)
                | (none, tr10) => ((newImage, none), tr10)

/-- The method `swarmProvisioner.ImageDeploy`. -/
def ImageDeploy (env : Env) (a : provision.App) (imgID : String) (tr : Trace) :
    (String × Option Err) × Trace :=
  let tr1 := tr ++ [Call.chooseDBSwarmNode]
  match env.chooseDBSwarmNode tr with
  | .error err => (("", some err), tr1)
  | .ok client =>
    let imgID := ImageDeploy.imageRef imgID
    let tr2 := tr1 ++ [Call.AppNewImageName a.name]
    match env.AppNewImageName tr1 a.name with
    | .error err => (("", some (.Wrap err "")), tr2)
    | .ok newImage =>
      let tr3 := tr2 ++ [Call.Fprint "---- Pulling image to tsuru ----\n"]
      let cmds := ImageDeploy.cmds
      match runOnceBuildCmds env client a cmds imgID newImage tr3 with
      | ((srvID, built, buf), tr4) =>
        deferRemoveService client srvID <|
          match built with
          | .error err => (("", some err), tr4)
          | .ok task => ImageDeploy.afterBuild env a imgID newImage client task buf tr4

/-! ## When the build service exists -/

/-- In the run of `ArchiveDeploy` from `tr`, the build is reached and the
control plane, asked through `client`, creates the build service `srv`. -/
def ArchiveDeploy.buildCreated (env : Env) (app : provision.App) (archiveURL : String)
    (tr : Trace) (client : docker.Client) (srv : swarm.Service) : Prop :=
  ∃ buildingImage spec0,
    env.AppNewImageName (tr ++ [Call.GetBuildImage app]) app.name = .ok buildingImage ∧
    env.chooseDBSwarmNode (tr ++ [Call.GetBuildImage app] ++ [Call.AppNewImageName app.name])
      = .ok client ∧
    env.serviceSpecForApp { app := app, image := env.GetBuildImage tr app, isDeploy := true,
                            buildImage := buildingImage } = .ok spec0 ∧
    env.CreateService
      (tr ++ [Call.GetBuildImage app] ++ [Call.AppNewImageName app.name] ++
        [Call.chooseDBSwarmNode]) client
      { spec0 with Command := env.ArchiveDeployCmds app archiveURL,
                   RestartCondition := swarm.RestartPolicyCondition.None } = .ok srv

/-- In the run of `ImageDeploy` from `tr`, the build is reached and the
control plane, asked through `client`, creates the build service `srv`. -/
def ImageDeploy.buildCreated (env : Env) (a : provision.App) (imgID : String)
    (tr : Trace) (client : docker.Client) (srv : swarm.Service) : Prop :=
  ∃ newImage spec0,
    env.chooseDBSwarmNode tr = .ok client ∧
    env.AppNewImageName (tr ++ [Call.chooseDBSwarmNode]) a.name = .ok newImage ∧
    env.serviceSpecForApp { app := a, image := ImageDeploy.imageRef imgID, isDeploy := true,
                            buildImage := newImage } = .ok spec0 ∧
    env.CreateService
      (tr ++ [Call.chooseDBSwarmNode] ++ [Call.AppNewImageName a.name] ++
        [Call.Fprint "---- Pulling image to tsuru ----\n"]) client
      { spec0 with Command := ImageDeploy.cmds,
                   RestartCondition := swarm.RestartPolicyCondition.None } = .ok srv

/-! ## The web process of an image without Procfile, as the specification words it -/

/-- The tokens after the first: each one preceded by a single space and
written as a double-quoted literal, in order. -/
def quotedTokens (table : Char → Bool) : List String → String
  | [] => ""
  | token :: more => " " ++ strconvQuote table token ++ quotedTokens table more

/-- The command of the process `web` derived from an entrypoint: the first
token as it is, then the quoted later tokens. -/
def webCommandOfEntrypoint (table : Char → Bool) (first : String) (others : List String) :
    String :=
  first ++ quotedTokens table others

/-! ## Reading a double-quoted literal, after the Go language specification -/

/-- The value of a hexadecimal digit. -/
def hexValue (c : Char) : Option Nat :=
  if 48 ≤ c.toNat ∧ c.toNat ≤ 57 then some (c.toNat - 48)
  else if 97 ≤ c.toNat ∧ c.toNat ≤ 102 then some (c.toNat - 87)
  else if 65 ≤ c.toNat ∧ c.toNat ≤ 70 then some (c.toNat - 55)
  else none

/-- The number written by hexadecimal digits, most significant first, after
the digits already read as `acc`. -/
def hexNumber (acc : Nat) : List Char → Option Nat
  | [] => some acc
  | c :: cs =>
    match hexValue c with
    | none => none
    | some d => hexNumber (acc * 16 + d) cs

/-- The character denoted by a one-letter escape of a string literal. -/
def simpleEscape (c : Char) : Option Char :=
  if c = 'a' then some (Char.ofNat 7)
  else if c = 'b' then some (Char.ofNat 8)
  else if c = 'f' then some (Char.ofNat 12)
  else if c = 'n' then some (Char.ofNat 10)
  else if c = 'r' then some (Char.ofNat 13)
  else if c = 't' then some (Char.ofNat 9)
  else if c = 'v' then some (Char.ofNat 11)
  else if c = Char.ofNat 92 then some (Char.ofNat 92)
  else if c = Char.ofNat 34 then some (Char.ofNat 34)
  else none

/-- The character written by `width` hexadecimal digits at the head of `cs`,
with what follows them; `limit` bounds the value. -/
def hexEscape (width limit : Nat) (cs : List Char) : Option (Char × List Char) :=
  if cs.length < width then none
  else
    match hexNumber 0 (cs.take width) with
    | none => none
    | some n =>
      if n < limit ∧ n.isValidChar then some (Char.ofNat n, cs.drop width) else none

/-- The characters denoted by the text between the quotes of an interpreted
string literal: a character other than the quote, the backslash and the
newline denotes itself; a backslash starts an escape, one letter, `x` and two
hexadecimal digits, `u` and four, or `U` and eight.  One unit of `fuel` is
spent for each character denoted.  Octal escapes and `x` escapes above 7f
denote bytes, not characters, and are not read. -/
def unquoteBody : Nat → List Char → Option (List Char)
  | _, [] => some []
  | 0, _ :: _ => none
  | fuel + 1, c :: cs =>
    if c = Char.ofNat 34 ∨ c = Char.ofNat 10 then none
    else if c = Char.ofNat 92 then
      match cs with
      | [] => none
      | e :: rest =>
        if e = 'x' then
          match hexEscape 2 0x80 rest with
          | none => none
          | some (v, rest2) => (unquoteBody fuel rest2).map (fun l => v :: l)
        else if e = 'u' then
          match hexEscape 4 0x10000 rest with
          | none => none
          | some (v, rest2) => (unquoteBody fuel rest2).map (fun l => v :: l)
        else if e = 'U' then
          match hexEscape 8 0x110000 rest with
          | none => none
          | some (v, rest2) => (unquoteBody fuel rest2).map (fun l => v :: l)
        else
          match simpleEscape e with
          | none => none
          | some v => (unquoteBody fuel rest).map (fun l => v :: l)
    else (unquoteBody fuel cs).map (fun l => c :: l)

/-- The string denoted by `s` read as an interpreted string literal of Go: `s`
opens and closes with a double quote and the text between denotes the
string. -/
def goUnquote (s : String) : Option String :=
  match s.toList with
  | [] => none
  | q :: rest =>
    if q = Char.ofNat 34 ∧ rest.getLast? = some (Char.ofNat 34) then
      (unquoteBody rest.length rest.dropLast).map String.mk
    else none

/-- The literals, each preceded by a single space, in order. -/
def spaceSeparated : List String → String
  | [] => ""
  | q :: more => " " ++ q ++ spaceSeparated more

/-- The command `cmd` is `first` followed, for each token of `others` in
order, by a single space and a double-quoted string literal that denotes the
token. -/
def isEntrypointCommand (cmd first : String) (others : List String) : Prop :=
  ∃ literals : List String,
    List.Forall₂ (fun q token => goUnquote q = some token) literals others ∧
    cmd = first ++ spaceSeparated literals

/-! ## Reading a trace -/

/-- The calls made after the trace `tr` in the later trace `tr1`. -/
def callsSince (tr tr1 : Trace) : Trace :=
  tr1.drop tr.length

/-- The trace `tr1` is `tr` followed by calls that all satisfy `P`. -/
def Extends (P : Call → Bool) (tr tr1 : Trace) : Prop :=
  ∃ ext, tr1 = tr ++ ext ∧ ∀ x ∈ ext, P x = true

/-- The removal of a service. -/
def Call.isRemoveService : Call → Bool
  | .removeServiceAndLog _ _ => true
  | _ => false

/-- Between `tr` and `tr1` the service `id` is removed through `client` as the
very last call, and nothing else is removed. -/
def removedAtExit (tr : Trace) (client : docker.Client) (id : String) (tr1 : Trace) : Prop :=
  tr1.getLast? = some (Call.removeServiceAndLog client id) ∧
    (callsSince tr tr1).filter Call.isRemoveService = [Call.removeServiceAndLog client id]

/-- The calls of the build step `runOnceBuildCmds`. -/
def Call.isBuildStep : Call → Bool
  | .CreateService _ _ => true
  | .waitForTasks _ _ _ => true
  | .clientForNode _ _ => true
  | .safeAttachWaitContainer _ _ => true
  | _ => false

/-- The calls of the build step run with the command `cmds`: the service it
creates carries that command. -/
def Call.isBuildStepWith (cmds : List String) : Call → Bool
  | .CreateService _ spec => spec.Command == cmds
  | .waitForTasks _ _ _ => true
  | .clientForNode _ _ => true
  | .safeAttachWaitContainer _ _ => true
  | _ => false

/-- The calls that follow the check of the exposed ports in `ImageDeploy`,
apart from the creation of a service: the saving of the custom data, and what
`deployProcesses` and `deploy` call (`GetImageCustomData` opens every run of
`deployProcesses`, `InspectService` every run of `deploy`). -/
def Call.isProcessReconciliation : Call → Bool
  | .SaveImageCustomData _ _ => true
  | .SetUpdatePlatform _ _ => true
  | .GetImageCustomData _ => true
  | .InspectService _ _ => true
  | .UpdateService _ _ _ _ => true
  | .AppendAppImageName _ _ => true
  | _ => false

/-- A call that `ImageDeploy` may make up to the check of the exposed ports:
no call of process reconciliation, and no service created but the build
service, recognised by its command. -/
def Call.isBeforeReconciliation : Call → Bool
  | .CreateService _ spec => spec.Command == ImageDeploy.cmds
  | c => !c.isProcessReconciliation

def Call.isCreateImageMetadata : Call → Bool
  | .CreateImageMetadata _ _ => true
  | _ => false

/-- No image but `img` is inspected by the call. -/
def Call.inspectsImage (img : String) : Call → Bool
  | .InspectImage _ i => i == img
  | _ => true

/-- The image `img` declares more than one exposed port: whenever and through
whichever client it is inspected, the image reported has several. -/
def Env.exposesSeveralPorts (env : Env) (img : String) : Prop :=
  ∀ tr c image, env.InspectImage tr c img = .ok image → image.ExposedPorts.length > 1

/-- The calls a deploy makes once its build has succeeded: commit, tag and
push of the image, the image metadata, and process reconciliation. -/
def Call.followsBuild : Call → Bool
  | .commitPushBuildImage _ _ _ _ => true
  | .InspectImage _ _ => true
  | .TagImage _ _ _ _ _ => true
  | .pushImage _ _ _ => true
  | .CreateImageMetadata _ _ => true
  | c => c.isProcessReconciliation

/-- A call of a deploy whose build did not succeed: nothing that follows a
build, and no service created but the build service, recognised by its
command. -/
def Call.isBuildAttempt (cmds : List String) : Call → Bool
  | .CreateService _ spec => spec.Command == cmds
  | c => !c.followsBuild

/-- In the run of `runOnceBuildCmds` from `tr`, every step up to the attach
succeeds and the build container exits with `code`. -/
def runOnceBuildCmds.exitsWith (env : Env) (client : docker.Client) (a : provision.App)
    (cmds : List String) (imgID buildingImage : String) (tr : Trace) (code : Int) : Prop :=
  ∃ spec0 srv task0 others nodeClient out,
    env.serviceSpecForApp
      { app := a, image := imgID, isDeploy := true, buildImage := buildingImage } = .ok spec0 ∧
    env.CreateService tr client
      { spec0 with Command := cmds,
                   RestartCondition := swarm.RestartPolicyCondition.None } = .ok srv ∧
    env.waitForTasks
      (tr ++ [Call.CreateService client
        { spec0 with Command := cmds,
                     RestartCondition := swarm.RestartPolicyCondition.None }])
      client srv.ID swarm.TaskState.Shutdown = .ok (task0, others) ∧
    env.clientForNode
      (tr ++ [Call.CreateService client
        { spec0 with Command := cmds,
                     RestartCondition := swarm.RestartPolicyCondition.None }] ++
        [Call.waitForTasks client srv.ID swarm.TaskState.Shutdown])
      client task0.NodeID = .ok nodeClient ∧
    env.safeAttachWaitContainer
      (tr ++ [Call.CreateService client
        { spec0 with Command := cmds,
                     RestartCondition := swarm.RestartPolicyCondition.None }] ++
        [Call.waitForTasks client srv.ID swarm.TaskState.Shutdown] ++
        [Call.clientForNode client task0.NodeID])
      nodeClient task0.ContainerID = (out, .ok code)

/-- In the run of `ArchiveDeploy` from `tr`, the build is reached and the
container of this build exits with `code`. -/
def ArchiveDeploy.buildExitsWith (env : Env) (app : provision.App) (archiveURL : String)
    (tr : Trace) (code : Int) : Prop :=
  ∃ buildingImage client,
    env.AppNewImageName (tr ++ [Call.GetBuildImage app]) app.name = .ok buildingImage ∧
    env.chooseDBSwarmNode (tr ++ [Call.GetBuildImage app] ++ [Call.AppNewImageName app.name])
      = .ok client ∧
    runOnceBuildCmds.exitsWith env client app (env.ArchiveDeployCmds app archiveURL)
      (env.GetBuildImage tr app) buildingImage
      (tr ++ [Call.GetBuildImage app] ++ [Call.AppNewImageName app.name] ++
        [Call.chooseDBSwarmNode]) code

/-- In the run of `ImageDeploy` from `tr`, the build is reached and the
container of this build exits with `code`. -/
def ImageDeploy.buildExitsWith (env : Env) (a : provision.App) (imgID : String)
    (tr : Trace) (code : Int) : Prop :=
  ∃ client newImage,
    env.chooseDBSwarmNode tr = .ok client ∧
    env.AppNewImageName (tr ++ [Call.chooseDBSwarmNode]) a.name = .ok newImage ∧
    runOnceBuildCmds.exitsWith env client a ImageDeploy.cmds (ImageDeploy.imageRef imgID)
      newImage
      (tr ++ [Call.chooseDBSwarmNode] ++ [Call.AppNewImageName a.name] ++
        [Call.Fprint "---- Pulling image to tsuru ----\n"]) code

/-- The calls of process reconciliation, `deployProcesses` and `deploy`. -/
def Call.isReconcile : Call → Bool
  | .GetImageCustomData _ => true
  | .InspectService _ _ => true
  | .CreateService _ _ => true
  | .UpdateService _ _ _ _ => true
  | .AppendAppImageName _ _ => true
  | _ => false

/-- The calls that change the cluster or its images through the control
plane. -/
def Call.isMutating : Call → Bool
  | .CreateService _ _ => true
  | .UpdateService _ _ _ _ => true
  | .removeServiceAndLog _ _ => true
  | .UpdateNode _ _ _ _ => true
  | .RemoveNode _ _ _ => true
  | .initSwarm _ _ => true
  | .joinSwarm _ _ _ => true
  | .commitPushBuildImage _ _ _ _ => true
  | .TagImage _ _ _ _ _ => true
  | .pushImage _ _ _ => true
  | _ => false

/-! ## A control plane that stores services by name -/

/-- The effect of one call on the services held by a control plane that stores
services by name: the name of a service is its identifier, a creation under a
name in use is refused, an update applies to the named service when it carries
the current version index and keeps the name, and raises the index. -/
def storeStep (services : List swarm.Service) : Call → List swarm.Service
  | .CreateService _ spec =>
    if services.any (fun s => s.ID == spec.Name) then services
    else services ++ [{ ID := spec.Name, Version := 0, Spec := spec, Ports := [] }]
  | .UpdateService _ id version spec =>
    services.map (fun s =>
      if s.ID == id && s.Version == version && spec.Name == s.ID then
        { s with Version := s.Version + 1, Spec := spec }
      else s)
  | .removeServiceAndLog _ id => services.filter (fun s => s.ID != id)
  | _ => services

/-- The services held after the calls of a trace, starting from none. -/
def storeServices (tr : Trace) : List swarm.Service :=
  tr.foldl storeStep []

/-- The environment `env` with the service calls answered by a control plane
that stores services by name. -/
def withStore (env : Env) : Env :=
  { env with
    InspectService := fun tr _ id =>
      match (storeServices tr).find? (fun s => s.ID == id) with
      | some s => .ok s
      | none => .error (.NoSuchService id)
    CreateService := fun tr _ spec =>
      if (storeServices tr).any (fun s => s.ID == spec.Name) then
        .error (.failure "name conflicts with an existing object")
      else .ok { ID := spec.Name, Version := 0, Spec := spec, Ports := [] }
    UpdateService := fun tr _ id version spec =>
      match (storeServices tr).find? (fun s => s.ID == id) with
      | none => some (.NoSuchService id)
      | some s =>
        if s.Version == version && spec.Name == s.ID then none
        else some (.failure "update out of sequence") }

/-- What holds of the services of such a control plane: identifiers are
pairwise distinct and each service is identified by its name. -/
def StoreInv (services : List swarm.Service) : Prop :=
  (services.map (fun s => s.ID)).Nodup ∧ ∀ s ∈ services, s.Spec.Name = s.ID

/-- The stored services whose name is `name`. -/
def servicesNamed (name : String) (services : List swarm.Service) : List swarm.Service :=
  services.filter (fun s => s.Spec.Name == name)

/-- The helper `serviceSpecForApp` names the specification of the service of a
process (not of a build) after `serviceNameForApp`. -/
def Env.namesServices (env : Env) : Prop :=
  ∀ opts spec, opts.isDeploy = false → env.serviceSpecForApp opts = .ok spec →
    spec.Name = env.serviceNameForApp opts.app opts.process

def Call.isCreateService : Call → Bool
  | .CreateService _ _ => true
  | _ => false

/-! ## The unit of a task, as the specification words it -/

/-- The unit projected from a task, its node and its service: the container
id, the name and platform of the app, the process-name label of the service,
the host of the reachable-address label of the node, and the address
`http://host:port` with the first published port of the service, or 0 when it
publishes none. -/
def unitOfTask (env : Env) (app : provision.App) (node : swarm.Node) (service : swarm.Service)
    (t : swarm.Task) : provision.Unit :=
  { ID := t.ContainerID
    AppName := app.name
    ProcessName := service.Spec.Labels.get env.labelAppProcess
    Type_ := app.platform
    Ip := env.URLToHost (node.Spec.Labels.get labelDockerAddr)
    Status := provision.Status.StatusStarted
    Address :=
      { Scheme := "http"
        Host := env.URLToHost (node.Spec.Labels.get labelDockerAddr) ++ ":" ++
          toString (service.Ports.headD 0) } }

/-! ## Tagging and pushing the new image -/

/-- A call that tags or pushes an image does so under the repository and the
tag split from `newImage`; any other call passes. -/
def Call.carriesRepoTag (newImage : String) : Call → Bool
  | .TagImage _ _ repo tag _ =>
    decide (repo = (ImageDeploy.repoTag newImage).1 ∧ tag = (ImageDeploy.repoTag newImage).2)
  | .pushImage _ repo tag =>
    decide (repo = (ImageDeploy.repoTag newImage).1 ∧ tag = (ImageDeploy.repoTag newImage).2)
  | _ => true

/-! ## Persisting custom data -/

def Call.isSaveImageCustomData : Call → Bool
  | .SaveImageCustomData _ _ => true
  | _ => false

/-! ## The address filter, as the specification words it -/

/-- The reachable address of the node, reduced to its host, is the host of
some entry of the filter. -/
def hostMatches (env : Env) (addressFilter : List String) (node : swarm.Node) : Bool :=
  addressFilter.any (fun entry =>
    env.URLToHost entry == env.URLToHost (swarmNodeWrapper.Address { Node := node }))

/-- The nodes that `ListNodes` is to return for a filter: all of them for an
empty filter, otherwise those whose host matches, in listing order. -/
def nodesForFilter (env : Env) (addressFilter : List String) (nodes : List swarm.Node) :
    List swarmNodeWrapper :=
  if addressFilter = [] then nodes.map (fun n => { Node := n })
  else (nodes.filter (hostMatches env addressFilter)).map (fun n => { Node := n })

/-! ## Reconciling every process, as the specification words it -/

/-- Every process of the list is reconciled with success, one after the other
from the trace `tr`: the trace then reached, or `none` when the `deploy` of
some process fails. -/
def reconciledAll (env : Env) (client : docker.Client) (a : provision.App) (imgID : String) :
    StrMap → Trace → Option Trace
  | [], tr => some tr
  | (processName, cmd) :: rest, tr =>
    match deploy env client a processName cmd imgID tr with
    | (none, tr1) => reconciledAll env client a imgID rest tr1
    | (some _, _) => none

/-- The calls that `deploy` makes. -/
def Call.isDeployCall : Call → Bool
  | .InspectService _ _ => true
  | .CreateService _ _ => true
  | .UpdateService _ _ _ _ => true
  | _ => false

def Call.isInspectService : Call → Bool
  | .InspectService _ _ => true
  | _ => false

/-! ## A sample cluster

A small cluster used to exercise the definitions: one application with a
`web` and a `worker` process, two nodes, four tasks. -/

def sampleClient : docker.Client := { endpoint := "tcp://10.0.0.1:2375" }

def sampleApp : provision.App := { name := "myapp", platform := "python" }

def sampleTasks : List swarm.Task :=
  [ { ID := "t1", ServiceID := "s-web", NodeID := "n1", ContainerID := "c1" },
    { ID := "t2", ServiceID := "s-worker", NodeID := "n1", ContainerID := "c2" },
    { ID := "t3", ServiceID := "s-worker", NodeID := "n2", ContainerID := "c3" },
    { ID := "t4", ServiceID := "s-web", NodeID := "n2", ContainerID := "c4" } ]

def sampleNode (id addr : String) : swarm.Node :=
  { ID := id, Version := 7,
    Spec := { Labels := [(labelDockerAddr, addr)],
              Availability := swarm.NodeAvailability.Active } }

def sampleSpec (name process image : String) : swarm.ServiceSpec :=
  { Name := name, Labels := [("tsuru.app.process", process)], Image := image, Command := [],
    RestartCondition := swarm.RestartPolicyCondition.Any, Replicas := 1 }

def sampleService (id process : String) (ports : List Nat) : swarm.Service :=
  { ID := id, Version := 3, Spec := sampleSpec ("myapp-" ++ process) process "img:v1",
    Ports := ports }

/-- An environment in which every collaborator succeeds. -/
def sampleEnv : Env where
  chooseDBSwarmNode := fun _ => .ok sampleClient
  newClient := fun _ addr => .ok { endpoint := addr }
  clientForNode := fun _ _ nodeID => .ok { endpoint := nodeID }
  ListTasks := fun _ _ _ => .ok sampleTasks
  InspectNode := fun _ _ id =>
    if id = "n1" then .ok (sampleNode "n1" "10.0.0.1")
    else if id = "n2" then .ok (sampleNode "n2" "10.0.0.2")
    else .error (.failure "no such node")
  InspectService := fun _ _ id =>
    if id = "s-web" then .ok (sampleService "s-web" "web" [30001, 30002])
    else if id = "s-worker" then .ok (sampleService "s-worker" "worker" [])
    else .error (.NoSuchService id)
  ListNodes := fun _ _ => .ok [sampleNode "n1" "10.0.0.1", sampleNode "n2" "10.0.0.2"]
  Info := fun _ _ => .ok "n3"
  InspectImage := fun _ _ _ => .ok { Entrypoint := ["python", "app.py"], ExposedPorts := ["8080/tcp"] }
  initSwarm := fun _ _ _ => none
  joinSwarm := fun _ _ _ _ => none
  UpdateNode := fun _ _ _ _ _ => none
  RemoveNode := fun _ _ _ _ => none
  updateDBSwarmNodes := fun _ _ => none
  CreateService := fun _ _ spec => .ok { ID := "id-" ++ spec.Name, Version := 1, Spec := spec, Ports := [] }
  UpdateService := fun _ _ _ _ _ => none
  waitForTasks := fun _ _ id _ =>
    .ok ({ ID := "bt", ServiceID := id, NodeID := "n1", ContainerID := "bc" }, [])
  safeAttachWaitContainer := fun _ _ _ => ("", .ok 0)
  commitPushBuildImage := fun _ _ img _ _ => .ok img
  TagImage := fun _ _ _ _ _ _ => none
  pushImage := fun _ _ _ _ => none
  GetBuildImage := fun _ _ => "tsuru/python"
  AppCurrentImageName := fun _ _ => ("tsuru/app-myapp:v1", none)
  GetImageWebProcessName := fun _ _ => .ok "web"
  AppNewImageName := fun _ _ => .ok "tsuru/app-myapp:v2"
  SaveImageCustomData := fun _ _ _ => none
  GetImageCustomData := fun _ img =>
    .ok { Name := img, CustomData := [], Processes := [("web", "python app.py"), ("worker", "python w.py")] }
  AppendAppImageName := fun _ _ _ => none
  URLToHost := fun addr => addr
  ArchiveDeployCmds := fun _ archiveURL => ["deploy", "archive", archiveURL]
  GetProcessesFromProcfile := fun _ => []
  CreateImageMetadata := fun img procs =>
    { Name := img, CustomData := [("processes", CustomValue.table procs)], Processes := procs }
  serviceNameForApp := fun a process => a.name ++ "-" ++ process
  serviceSpecForApp := fun opts =>
    .ok { (opts.baseSpec.getD (sampleSpec "" "" "")) with
          Name := if opts.isDeploy then opts.app.name ++ "-build" else opts.app.name ++ "-" ++ opts.process
          Labels := [("tsuru.app.process", opts.process), ("tsuru.build.image", opts.buildImage)]
          Image := opts.image }
  IsPrintTable := fun _ => false
  labelAppName := "tsuru.app.name"
  labelAppProcess := "tsuru.app.process"
  labelServiceDeploy := "tsuru.service.deploy"
  labelServiceBuildImage := "tsuru.build.image"

/-- The sample environment with one image that declares two exposed ports,
`registry/myimage:latest`, next to images that declare one. -/
def severalPortsEnv : Env :=
  { sampleEnv with
    InspectImage := fun _ _ img =>
      if img = "registry/myimage:latest" then
        .ok { Entrypoint := ["python", "app.py"], ExposedPorts := ["8080/tcp", "9090/tcp"] }
      else .ok { Entrypoint := ["python", "app.py"], ExposedPorts := ["8080/tcp"] } }

/-- The sample environment in which `serviceSpecForApp` returns an error; the
service of the process `worker` exists and the service of `web` does not. -/
def noSpecEnv : Env :=
  { sampleEnv with
    InspectService := fun _ _ id =>
      if id = "myapp-worker" then .ok (sampleService "myapp-worker" "worker" [])
      else .error (.NoSuchService id)
    serviceSpecForApp := fun _ => .error (.failure "invalid service options") }

/-- The sample environment with an image whose entrypoint holds a token with
double quotes and a token with a backslash. -/
def quotedEntrypointEnv : Env :=
  { sampleEnv with
    InspectImage := fun _ _ _ =>
      .ok { Entrypoint := ["sh", "-c", "echo \"hi\"", "C:\\dir"],
            ExposedPorts := ["8080/tcp"] } }

def otherApp : provision.App := { name := "otherapp", platform := "python" }

/-- The sample environment in which the build container of `myapp` exits with
code 2 and the build container of every other application exits with code 0. -/
def mixedBuildEnv : Env :=
  { sampleEnv with
    waitForTasks := fun _ _ id _ =>
      .ok ({ ID := "bt", ServiceID := id, NodeID := "n1", ContainerID := "c-" ++ id }, [])
    safeAttachWaitContainer := fun _ _ container =>
      if container = "c-id-myapp-build" then ("build failed", .ok 2) else ("", .ok 0) }

/-- The sample environment in which the service of the process `worker` cannot
be inspected. -/
def workerFailsEnv : Env :=
  { sampleEnv with
    InspectService := fun _ _ id =>
      if id = "myapp-worker" then .error (.failure "connection refused")
      else .error (.NoSuchService id) }

/-- The sample environment in which the node that joins can be inspected. -/
def newNodeEnv : Env :=
  { sampleEnv with InspectNode := fun _ _ id => .ok (sampleNode id "") }

/-- The same environment before any cluster exists: no swarm node is known. -/
def emptyClusterEnv : Env :=
  { newNodeEnv with chooseDBSwarmNode := fun _ => .error (.Wrap .errNoSwarmNode "") }

/-- A request to add a node whose metadata uses the key of the
reachable-address label. -/
def overridingOpts : provision.AddNodeOptions :=
  { Address := "http://10.0.0.3:2375",
    Metadata := [("pool", "dev"), ("tsuru-internal-docker-addr", "http://10.9.9.9:2375")] }

/-- The sample environment in which every service carries a build-image
label. -/
def buildServiceEnv : Env :=
  { sampleEnv with
    InspectService := fun _ _ id =>
      .ok { ID := id, Version := 1,
            Spec := { sampleSpec "myapp-build" "" "tsuru/python" with
                      Labels := [("tsuru.build.image", "tsuru/app-myapp:v2")] },
            Ports := [] } }

def sampleUnit (id process ip : String) (port : String) : provision.Unit :=
  { ID := id, AppName := "myapp", ProcessName := process, Type_ := "python", Ip := ip,
    Status := provision.Status.StatusStarted,
    Address := { Scheme := "http", Host := ip ++ ":" ++ port } }

/-- The units of the sample application, in task order. -/
def sampleUnits : List provision.Unit :=
  [ sampleUnit "c1" "web" "10.0.0.1" "30001", sampleUnit "c2" "worker" "10.0.0.1" "0",
    sampleUnit "c3" "worker" "10.0.0.2" "0", sampleUnit "c4" "web" "10.0.0.2" "30001" ]

/-! ## Properties of RoutableUnits -/

theorem routableLoop_from (w : String) (n : Nat) (units : List provision.Unit) :
    routableLoop w units (n : Int) =
      units.take n ++ (units.drop n).filter (fun u => u.ProcessName == w) := by
  generalize hm : 2 * units.length - n = m
  induction m using Nat.strong_induction_on generalizing units n with
  | _ m ih =>
    rw [routableLoop]
    by_cases hlt : n < units.length
    · have hcond : 0 ≤ (n : Int) ∧ (n : Int) < units.length := by omega
      rw [dif_pos hcond]
      have hdrop : units.drop n = units[n] :: units.drop (n + 1) :=
        List.drop_eq_getElem_cons hlt
      simp only [Int.toNat_ofNat, List.get_eq_getElem]
      by_cases hp : units[n].ProcessName = w
      · have hne : (units[n].ProcessName != w) = false := by
          rw [bne_eq_false_iff_eq]; exact hp
        rw [if_neg (by rw [hne]; exact Bool.false_ne_true)]
        have h1 := ih (2 * units.length - (n + 1)) (by omega) (n + 1) units rfl
        rw [show ((n : Int) + 1) = ((n + 1 : Nat) : Int) by rfl, h1, hdrop]
        have hbeq : (units[n].ProcessName == w) = true := by
          rw [beq_iff_eq]; exact hp
        rw [List.take_succ, List.getElem?_eq_getElem hlt]
        simp only [List.filter_cons, hbeq, if_true, Option.toList, List.append_assoc,
          List.singleton_append]
      · have hne : (units[n].ProcessName != w) = true := by
          rw [bne_iff_ne]; exact hp
        rw [if_pos hne]
        have hlen : (units.take n ++ units.drop (n + 1)).length = units.length - 1 := by
          simp only [List.length_append, List.length_take, List.length_drop]
          omega
        have h1 := ih (2 * (units.take n ++ units.drop (n + 1)).length - n) (by omega) n
          (units.take n ++ units.drop (n + 1)) rfl
        rw [show ((n : Int) - 1 + 1) = (n : Int) by omega, h1, hdrop]
        have hn : (units.take n).length = n := by
          simp only [List.length_take]
          omega
        have hbeq : ¬ (units[n].ProcessName == w) = true := by
          rw [beq_iff_eq]; exact hp
        rw [List.take_append_eq_append_take, List.drop_append_eq_append_drop, hn]
        simp only [List.filter_cons, hbeq, if_false, List.take_take, min_self, Nat.sub_self,
          List.take_zero, List.append_nil, List.drop_take, List.drop_zero, List.nil_append,
          Bool.false_eq_true]
    · have hcond : ¬ (0 ≤ (n : Int) ∧ (n : Int) < units.length) := by omega
      rw [dif_neg hcond]
      have h1 : units.length ≤ n := by omega
      simp [List.take_of_length_le h1, List.drop_of_length_le h1]

/-! ## Traces only grow -/

theorem callsSince_append (tr ext : Trace) : callsSince tr (tr ++ ext) = ext := by
  simp [callsSince]

theorem Extends.refl (P : Call → Bool) (tr : Trace) : Extends P tr tr :=
  ⟨[], by simp, by simp⟩

theorem Extends.snoc {P : Call → Bool} {tr tr1 : Trace} {c : Call}
    (h : Extends P tr tr1) (hc : P c = true) : Extends P tr (tr1 ++ [c]) := by
  obtain ⟨ext, rfl, hall⟩ := h
  refine ⟨ext ++ [c], by simp, ?_⟩
  intro x hx
  rcases List.mem_append.1 hx with hx | hx
  · exact hall x hx
  · rw [List.mem_singleton.1 hx]; exact hc

theorem Extends.trans {P : Call → Bool} {tr tr1 tr2 : Trace}
    (h1 : Extends P tr tr1) (h2 : Extends P tr1 tr2) : Extends P tr tr2 := by
  obtain ⟨e1, rfl, ha1⟩ := h1
  obtain ⟨e2, rfl, ha2⟩ := h2
  refine ⟨e1 ++ e2, by simp, ?_⟩
  intro x hx
  rcases List.mem_append.1 hx with hx | hx
  · exact ha1 x hx
  · exact ha2 x hx

theorem Extends.mono {P Q : Call → Bool} {tr tr1 : Trace}
    (h : Extends P tr tr1) (hPQ : ∀ x, P x = true → Q x = true) : Extends Q tr tr1 := by
  obtain ⟨e, rfl, ha⟩ := h
  exact ⟨e, rfl, fun x hx => hPQ x (ha x hx)⟩

theorem Extends.filter_eq_nil {P Q : Call → Bool} {tr tr1 : Trace}
    (h : Extends P tr tr1) (hPQ : ∀ x, P x = true → Q x = false) :
    (callsSince tr tr1).filter Q = [] := by
  obtain ⟨e, rfl, ha⟩ := h
  rw [callsSince_append, List.filter_eq_nil_iff]
  intro x hx
  rw [hPQ x (ha x hx)]
  exact Bool.false_ne_true

theorem deploy_extends (env : Env) (client : docker.Client) (a : provision.App)
    (process cmd imgID : String) (tr : Trace) :
    Extends Call.isReconcile tr (deploy env client a process cmd imgID tr).2 := by
  unfold deploy
  dsimp only
  repeat' split
  all_goals repeat (first | exact Extends.refl _ _ | refine Extends.snoc ?_ rfl)

theorem deployProcesses_loop_extends (env : Env) (client : docker.Client) (a : provision.App)
    (imgID : String) (procs : StrMap) (tr : Trace) :
    Extends Call.isReconcile tr (deployProcesses.loop env client a imgID procs tr).2 := by
  induction procs generalizing tr with
  | nil => exact Extends.refl _ _
  | cons p rest ih =>
    obtain ⟨processName, cmd⟩ := p
    have h1 := deploy_extends env client a processName cmd imgID tr
    unfold deployProcesses.loop
    split
    · rename_i err tr1 heq
      rw [heq] at h1
      exact h1
    · rename_i tr1 heq
      rw [heq] at h1
      exact h1.trans (ih tr1)

theorem deployProcesses_extends (env : Env) (client : docker.Client) (a : provision.App)
    (imgID : String) (tr : Trace) :
    Extends Call.isReconcile tr (deployProcesses env client a imgID tr).2 := by
  unfold deployProcesses
  split
  · exact (Extends.refl _ _).snoc rfl
  · rename_i imageData _
    have h1 := deployProcesses_loop_extends env client a imgID imageData.Processes
      (tr ++ [Call.GetImageCustomData imgID])
    have h0 : Extends Call.isReconcile tr (tr ++ [Call.GetImageCustomData imgID]) :=
      (Extends.refl _ _).snoc rfl
    split
    · rename_i err tr1 heq
      rw [heq] at h1
      exact h0.trans h1
    · rename_i tr1 heq
      rw [heq] at h1
      split
      · exact (h0.trans h1).snoc rfl
      · exact (h0.trans h1).snoc rfl

theorem runOnceBuildCmds_extends_with (env : Env) (client : docker.Client)
    (a : provision.App) (cmds : List String) (imgID buildingImage : String) (tr : Trace) :
    Extends (Call.isBuildStepWith cmds) tr
      (runOnceBuildCmds env client a cmds imgID buildingImage tr).2 := by
  unfold runOnceBuildCmds
  dsimp only
  repeat' split
  all_goals repeat
    (first | exact Extends.refl _ _
           | refine Extends.snoc ?_ rfl
           | refine Extends.snoc ?_ (by simp [Call.isBuildStepWith]))

theorem runOnceBuildCmds_extends (env : Env) (client : docker.Client) (a : provision.App)
    (cmds : List String) (imgID buildingImage : String) (tr : Trace) :
    Extends Call.isBuildStep tr
      (runOnceBuildCmds env client a cmds imgID buildingImage tr).2 :=
  (runOnceBuildCmds_extends_with env client a cmds imgID buildingImage tr).mono
    (by intro x; cases x <;> simp [Call.isBuildStepWith, Call.isBuildStep])

/-- C1: when the current image resolves (or the app has no image yet), the
web process name is `w` and `Units` yields `units`, `RoutableUnits` returns
exactly the units whose process name is `w`, in their original order, each
kept once: the delete-and-step-back loop is the filter on `ProcessName = w`. -/
theorem RoutableUnits_eq_filter (env : Env) (app : provision.App) (tr tr2 : Trace)
    (w : String) (units : List provision.Unit)
    (himg : (env.AppCurrentImageName tr app.name).2 = none ∨
      (env.AppCurrentImageName tr app.name).2 = some Err.ErrNoImagesAvailable)
    (hweb : env.GetImageWebProcessName (tr ++ [Call.AppCurrentImageName app.name])
      (env.AppCurrentImageName tr app.name).1 = .ok w)
    (hunits : Units env app (tr ++ [Call.AppCurrentImageName app.name] ++
      [Call.GetImageWebProcessName (env.AppCurrentImageName tr app.name).1]) = (.ok units, tr2)) :
    RoutableUnits env app tr = (.ok (units.filter (fun u => u.ProcessName == w)), tr2) := by
  have hguard : ¬ ((env.AppCurrentImageName tr app.name).2 ≠ none ∧
      (env.AppCurrentImageName tr app.name).2 ≠ some Err.ErrNoImagesAvailable) := by
    rcases himg with h | h
    · exact fun hc => hc.1 h
    · exact fun hc => hc.2 h
  have hloop := routableLoop_from w 0 units
  simp only [List.take_zero, List.drop_zero, List.nil_append] at hloop
  unfold RoutableUnits
  simp only [if_neg hguard, hweb, hunits]
  exact congrArg (fun l => (Except.ok l, tr2)) hloop

theorem RoutableUnits_eq_filter_witness :
    RoutableUnits sampleEnv sampleApp [] =
      (.ok [sampleUnit "c1" "web" "10.0.0.1" "30001", sampleUnit "c4" "web" "10.0.0.2" "30001"],
       [Call.AppCurrentImageName "myapp", Call.GetImageWebProcessName "tsuru/app-myapp:v1",
        Call.chooseDBSwarmNode, Call.ListTasks sampleClient "tsuru.app.name=myapp",
        Call.InspectNode sampleClient "n1", Call.InspectService sampleClient "s-web",
        Call.InspectService sampleClient "s-worker", Call.InspectNode sampleClient "n2"]) :=
  RoutableUnits_eq_filter sampleEnv sampleApp [] _ "web" sampleUnits (Or.inl rfl) rfl (by decide)

/-! ## The build service is removed -/

theorem Extends.append {P : Call → Bool} {tr tr1 : Trace} {l : List Call}
    (h : Extends P tr tr1) (hl : ∀ x ∈ l, P x = true) : Extends P tr (tr1 ++ l) :=
  h.trans ⟨l, rfl, hl⟩

theorem runOnceBuildCmds_id (env : Env) (client : docker.Client) (a : provision.App)
    (cmds : List String) (imgID buildingImage : String) (tr : Trace)
    (spec0 : swarm.ServiceSpec) (srv : swarm.Service)
    (hspec : env.serviceSpecForApp
      { app := a, image := imgID, isDeploy := true, buildImage := buildingImage } = .ok spec0)
    (hcreate : env.CreateService tr client
      { spec0 with Command := cmds, RestartCondition := swarm.RestartPolicyCondition.None }
      = .ok srv) :
    (runOnceBuildCmds env client a cmds imgID buildingImage tr).1.1 = srv.ID := by
  unfold runOnceBuildCmds
  simp only [hspec, hcreate]
  repeat' split
  all_goals rfl

theorem procfileOrEntrypoint_extends (env : Env) (procfile : StrMap) (entrypoint : List String)
    (tr : Trace) (P : Call → Bool) (hP : ∀ text, P (Call.Fprint text) = true) :
    Extends P tr (ImageDeploy.procfileOrEntrypoint env procfile entrypoint tr).2 := by
  unfold ImageDeploy.procfileOrEntrypoint
  dsimp only
  repeat' split
  all_goals repeat (first | exact Extends.refl _ _ | refine Extends.snoc ?_ (hP _))

theorem deployProcesses_calls {env : Env} {client : docker.Client} {a : provision.App}
    {imgID : String} {tr tr1 : Trace} {r : Option Err}
    (heq : deployProcesses env client a imgID tr = (r, tr1)) :
    ∃ ext, tr1 = tr ++ ext ∧ ∀ x ∈ ext, x.isReconcile = true := by
  have h := deployProcesses_extends env client a imgID tr
  rw [heq] at h
  exact h

theorem deployProcesses_keeps_services {env : Env} {client : docker.Client}
    {a : provision.App} {imgID : String} {tr0 tr tr1 : Trace} {r : Option Err}
    (h : Extends (fun c => !c.isRemoveService) tr0 tr)
    (heq : deployProcesses env client a imgID tr = (r, tr1)) :
    Extends (fun c => !c.isRemoveService) tr0 tr1 := by
  have h1 := (deployProcesses_extends env client a imgID tr).mono
    (Q := fun c => !c.isRemoveService)
    (by intro x; cases x <;> simp [Call.isReconcile, Call.isRemoveService])
  rw [heq] at h1
  exact h.trans h1

theorem afterBuild_extends (env : Env) (a : provision.App) (imgID newImage : String)
    (client0 : docker.Client) (task : swarm.Task) (procfileData : String) (tr : Trace) :
    Extends (fun c => !c.isRemoveService) tr
      (ImageDeploy.afterBuild env a imgID newImage client0 task procfileData tr).2 := by
  unfold ImageDeploy.afterBuild
  dsimp only
  split
  · exact (Extends.refl _ _).snoc rfl
  rename_i client _
  split
  · exact ((Extends.refl _ _).snoc rfl).snoc rfl
  rename_i imageInspect _
  have h2 : Extends (fun c => !c.isRemoveService) tr
      (tr ++ [Call.clientForNode client0 task.NodeID] ++ [Call.InspectImage client imgID]) :=
    ((Extends.refl _ _).snoc rfl).snoc rfl
  have h3 := procfileOrEntrypoint_extends env (env.GetProcessesFromProcfile procfileData)
    imageInspect.Entrypoint
    (tr ++ [Call.clientForNode client0 task.NodeID] ++ [Call.InspectImage client imgID])
    (fun c => !c.isRemoveService) (fun _ => rfl)
  split
  · rename_i err tr3 heq
    rw [heq] at h3
    exact h2.trans h3
  rename_i procfile tr3 heq
  rw [heq] at h3
  have h4 : Extends (fun c => !c.isRemoveService) tr
      (tr3 ++ procfile.map (fun kv =>
        Call.Fprint ("  ---> Process " ++ kv.1 ++ " found with command: " ++ kv.2 ++ "\n"))) := by
    refine (h2.trans h3).append ?_
    intro x hx
    obtain ⟨kv, _, rfl⟩ := List.mem_map.1 hx
    rfl
  split
  · repeat (first | exact h4 | refine Extends.snoc ?_ rfl)
  split
  · repeat (first | exact h4 | refine Extends.snoc ?_ rfl)
  split
  · repeat (first | exact h4 | refine Extends.snoc ?_ rfl)
  split
  · repeat (first | exact h4 | refine Extends.snoc ?_ rfl)
  split
  · rename_i err tr10 heq2
    exact deployProcesses_keeps_services
      (by repeat (first | exact h4 | refine Extends.snoc ?_ rfl)) heq2
  · rename_i tr10 heq2
    exact deployProcesses_keeps_services
      (by repeat (first | exact h4 | refine Extends.snoc ?_ rfl)) heq2

theorem deferRemoveService_removes (client : docker.Client) (srvID : String)
    (body : (String × Option Err) × Trace) (tr : Trace) (hid : srvID ≠ "")
    (hb : Extends (fun c => !c.isRemoveService) tr body.2) :
    removedAtExit tr client srvID (deferRemoveService client srvID body).2 := by
  obtain ⟨ext, hext, hall⟩ := hb
  unfold deferRemoveService removedAtExit
  rw [if_pos hid]
  dsimp only
  constructor
  · simp
  · rw [hext, List.append_assoc, callsSince_append, List.filter_append]
    have hnil : ext.filter Call.isRemoveService = [] := by
      rw [List.filter_eq_nil_iff]
      intro x hx
      have := hall x hx
      simpa using this
    rw [hnil]
    rfl

theorem ArchiveDeploy_removes (env : Env) (client : docker.Client) (srv : swarm.Service)
    (hid : srv.ID ≠ "") (app : provision.App) (archiveURL : String) (tr : Trace)
    (h : ArchiveDeploy.buildCreated env app archiveURL tr client srv) :
    removedAtExit tr client srv.ID (ArchiveDeploy env app archiveURL tr).2 := by
  obtain ⟨buildingImage, spec0, hnew, hclient, hspec, hcreate⟩ := h
  have hidr := runOnceBuildCmds_id env client app (env.ArchiveDeployCmds app archiveURL)
    (env.GetBuildImage tr app) buildingImage _ spec0 srv hspec hcreate
  have hext := (runOnceBuildCmds_extends env client app (env.ArchiveDeployCmds app archiveURL)
    (env.GetBuildImage tr app) buildingImage
    (tr ++ [Call.GetBuildImage app] ++ [Call.AppNewImageName app.name] ++
      [Call.chooseDBSwarmNode])).mono (Q := fun c => !c.isRemoveService)
    (by intro x; cases x <;> simp [Call.isBuildStep, Call.isRemoveService])
  have h3 : Extends (fun c => !c.isRemoveService) tr
      (tr ++ [Call.GetBuildImage app] ++ [Call.AppNewImageName app.name] ++
        [Call.chooseDBSwarmNode]) := by
    repeat (first | exact Extends.refl _ _ | refine Extends.snoc ?_ rfl)
  unfold ArchiveDeploy
  simp only [hnew, hclient]
  generalize runOnceBuildCmds env client app (env.ArchiveDeployCmds app archiveURL)
    (env.GetBuildImage tr app) buildingImage
    (tr ++ [Call.GetBuildImage app] ++ [Call.AppNewImageName app.name] ++
      [Call.chooseDBSwarmNode]) = r at hidr hext
  obtain ⟨⟨srvID, built, out⟩, tr4⟩ := r
  dsimp only at hidr hext ⊢
  subst hidr
  apply deferRemoveService_removes _ _ _ _ hid
  have h4 := h3.trans hext
  cases built with
  | error err => exact h4
  | ok task =>
    dsimp only
    split
    · exact h4.snoc rfl
    · split
      · rename_i err tr6 heq
        exact deployProcesses_keeps_services
          (h4.snoc (c := Call.commitPushBuildImage client buildingImage task.ContainerID app) rfl)
          heq
      · rename_i tr6 heq
        exact deployProcesses_keeps_services
          (h4.snoc (c := Call.commitPushBuildImage client buildingImage task.ContainerID app) rfl)
          heq

theorem ImageDeploy_removes (env : Env) (client : docker.Client) (srv : swarm.Service)
    (hid : srv.ID ≠ "") (a : provision.App) (imgID : String) (tr : Trace)
    (h : ImageDeploy.buildCreated env a imgID tr client srv) :
    removedAtExit tr client srv.ID (ImageDeploy env a imgID tr).2 := by
  obtain ⟨newImage, spec0, hclient, hnew, hspec, hcreate⟩ := h
  have hidr := runOnceBuildCmds_id env client a ImageDeploy.cmds
    (ImageDeploy.imageRef imgID) newImage _ spec0 srv hspec hcreate
  have hext := (runOnceBuildCmds_extends env client a ImageDeploy.cmds
    (ImageDeploy.imageRef imgID) newImage
    (tr ++ [Call.chooseDBSwarmNode] ++ [Call.AppNewImageName a.name] ++
      [Call.Fprint "---- Pulling image to tsuru ----\n"])).mono
    (Q := fun c => !c.isRemoveService)
    (by intro x; cases x <;> simp [Call.isBuildStep, Call.isRemoveService])
  have h3 : Extends (fun c => !c.isRemoveService) tr
      (tr ++ [Call.chooseDBSwarmNode] ++ [Call.AppNewImageName a.name] ++
        [Call.Fprint "---- Pulling image to tsuru ----\n"]) := by
    repeat (first | exact Extends.refl _ _ | refine Extends.snoc ?_ rfl)
  unfold ImageDeploy
  simp only [hnew, hclient]
  generalize runOnceBuildCmds env client a ImageDeploy.cmds
    (ImageDeploy.imageRef imgID) newImage
    (tr ++ [Call.chooseDBSwarmNode] ++ [Call.AppNewImageName a.name] ++
      [Call.Fprint "---- Pulling image to tsuru ----\n"]) = r at hidr hext
  obtain ⟨⟨srvID, built, out⟩, tr4⟩ := r
  dsimp only at hidr hext ⊢
  subst hidr
  apply deferRemoveService_removes _ _ _ _ hid
  have h4 := h3.trans hext
  cases built with
  | error err => exact h4
  | ok task =>
    exact h4.trans (afterBuild_extends env a (ImageDeploy.imageRef imgID) newImage client task out tr4)

/-- C2: when the control plane creates the build service `srv` (with a
non-empty id, as every id it assigns), `runOnceBuildCmds` returns the id of
`srv` on every return path, and both `ArchiveDeploy` and `ImageDeploy` end, on
every exit path, with the removal of exactly that id through the client chosen
at the start, and remove nothing else. -/
theorem build_service_removed_on_every_exit (env : Env) (client : docker.Client)
    (srv : swarm.Service) (hid : srv.ID ≠ "") :
    (∀ (a : provision.App) (cmds : List String) (imgID buildingImage : String) (tr : Trace)
        (spec0 : swarm.ServiceSpec),
        env.serviceSpecForApp
          { app := a, image := imgID, isDeploy := true, buildImage := buildingImage }
            = .ok spec0 →
        env.CreateService tr client
          { spec0 with Command := cmds,
                       RestartCondition := swarm.RestartPolicyCondition.None } = .ok srv →
        (runOnceBuildCmds env client a cmds imgID buildingImage tr).1.1 = srv.ID) ∧
    (∀ (app : provision.App) (archiveURL : String) (tr : Trace),
        ArchiveDeploy.buildCreated env app archiveURL tr client srv →
        removedAtExit tr client srv.ID (ArchiveDeploy env app archiveURL tr).2) ∧
    (∀ (a : provision.App) (imgID : String) (tr : Trace),
        ImageDeploy.buildCreated env a imgID tr client srv →
        removedAtExit tr client srv.ID (ImageDeploy env a imgID tr).2) :=
  ⟨fun a cmds imgID buildingImage tr spec0 hspec hcreate =>
      runOnceBuildCmds_id env client a cmds imgID buildingImage tr spec0 srv hspec hcreate,
   fun app archiveURL tr h => ArchiveDeploy_removes env client srv hid app archiveURL tr h,
   fun a imgID tr h => ImageDeploy_removes env client srv hid a imgID tr h⟩

theorem build_service_removed_on_every_exit_witness :
    removedAtExit [] sampleClient "id-myapp-build"
      (ArchiveDeploy sampleEnv sampleApp "http://repo/myapp.tar.gz" []).2 :=
  (build_service_removed_on_every_exit sampleEnv sampleClient
    { ID := "id-myapp-build", Version := 1,
      Spec := { Name := "myapp-build",
                Labels := [("tsuru.app.process", ""), ("tsuru.build.image", "tsuru/app-myapp:v2")],
                Image := "tsuru/python",
                Command := ["deploy", "archive", "http://repo/myapp.tar.gz"],
                RestartCondition := swarm.RestartPolicyCondition.None, Replicas := 1 },
      Ports := [] }
    (by decide)).2.1 sampleApp "http://repo/myapp.tar.gz" []
    ⟨"tsuru/app-myapp:v2", _, rfl, rfl, rfl, by decide⟩

/-! ## The process table of an image without Procfile -/

theorem foldl_quoted (table : Char → Bool) (others : List String) (first : String) :
    others.foldl (fun acc c => acc ++ (" " ++ strconvQuote table c)) first =
      first ++ quotedTokens table others := by
  induction others generalizing first with
  | nil => simp [quotedTokens]
  | cons c more ih =>
    rw [List.foldl_cons, ih, quotedTokens]
    simp only [String.append_assoc]

theorem procfileOrEntrypoint_web (env : Env) (procfile : StrMap) (e0 : String)
    (rest : List String) (tr : Trace) (hproc : procfile.length = 0) :
    ImageDeploy.procfileOrEntrypoint env procfile (e0 :: rest) tr =
      (.ok [("web", webCommandOfEntrypoint env.IsPrintTable e0 rest)],
        tr ++ [Call.Fprint "  ---> Procfile not found, trying to get entrypoint\n"]) := by
  have hnil : procfile = [] := List.length_eq_zero.1 hproc
  subst hnil
  unfold ImageDeploy.procfileOrEntrypoint
  simp only [List.length_nil, if_true, foldl_quoted]
  rfl

theorem afterBuild_entrypoint_table (env : Env) (a : provision.App) (imgID newImage : String)
    (client0 client : docker.Client) (task : swarm.Task) (procfileData : String) (tr : Trace)
    (image : docker.Image) (e0 : String) (rest : List String)
    (hnode : env.clientForNode tr client0 task.NodeID = .ok client)
    (himg : env.InspectImage (tr ++ [Call.clientForNode client0 task.NodeID]) client imgID
      = .ok image)
    (hproc : (env.GetProcessesFromProcfile procfileData).length = 0)
    (hentry : image.Entrypoint = e0 :: rest) :
    Call.Fprint ("  ---> Process web found with command: " ++
        webCommandOfEntrypoint env.IsPrintTable e0 rest ++ "\n") ∈
      callsSince tr (ImageDeploy.afterBuild env a imgID newImage client0 task procfileData tr).2 ∧
    ∀ img table, Call.CreateImageMetadata img table ∈
      callsSince tr (ImageDeploy.afterBuild env a imgID newImage client0 task procfileData tr).2 →
      img = newImage ∧ table = [("web", webCommandOfEntrypoint env.IsPrintTable e0 rest)] := by
  unfold ImageDeploy.afterBuild
  simp only [hnode, himg, hentry, procfileOrEntrypoint_web env _ e0 rest _ hproc]
  repeat' split
  all_goals first
    | (simp only [List.append_assoc, callsSince_append]
       simp)
    | (rename_i heq
       obtain ⟨ext, rfl, hall⟩ := deployProcesses_calls heq
       simp only [List.append_assoc, callsSince_append]
       simp
       intro img table hmem
       rcases hmem with hmem | hmem
       · exact hmem
       · have := hall _ hmem
         simp [Call.isReconcile] at this)

/-! ## The quoted tokens read back as string literals -/

theorem hexValue_lowerhex (k : Nat) : hexValue (lowerhex k) = some (k % 16) := by
  unfold lowerhex
  have h : k % 16 < 16 := Nat.mod_lt _ (by decide)
  generalize k % 16 = m at h
  interval_cases m <;> rfl

theorem hexDigits_length (n w : Nat) : (hexDigits n w).length = w := by
  induction w with
  | zero => rfl
  | succ w ih => simp [hexDigits, ih]

theorem hexNumber_hexDigits (n w acc : Nat) :
    hexNumber acc (hexDigits n w) = some (acc * 16 ^ w + n % 16 ^ w) := by
  induction w generalizing acc with
  | zero => simp [hexDigits, hexNumber, Nat.mod_one]
  | succ w ih =>
    simp only [hexDigits, hexNumber, hexValue_lowerhex, ih]
    congr 1
    rw [Nat.mod_pow_succ, pow_succ]
    ring

theorem hexEscape_hexDigits (w limit : Nat) (r : Char) (rest : List Char)
    (hw : r.toNat < 16 ^ w) (hl : r.toNat < limit) :
    hexEscape w limit (hexDigits r.toNat w ++ rest) = some (r, rest) := by
  unfold hexEscape
  have hlen := hexDigits_length r.toNat w
  rw [if_neg (by simp [hlen])]
  rw [List.take_left' hlen, List.drop_left' hlen, hexNumber_hexDigits]
  simp only [Nat.zero_mul, Nat.zero_add, Nat.mod_eq_of_lt hw]
  rw [if_pos ⟨hl, r.valid⟩]
  simp [Char.ofNat_toNat]


theorem unquoteBody_plain (c : Char) (rest : List Char) (fuel : Nat)
    (h34 : c ≠ Char.ofNat 34) (h10 : c ≠ Char.ofNat 10) (h92 : c ≠ Char.ofNat 92) :
    unquoteBody (fuel + 1) (c :: rest) = (unquoteBody fuel rest).map (fun l => c :: l) := by
  rw [unquoteBody.eq_def]
  dsimp only
  rw [if_neg (fun h => h.elim h34 h10), if_neg h92]

theorem unquoteBody_letter (r e : Char) (rest : List Char) (fuel : Nat)
    (hx : e ≠ 'x') (hu : e ≠ 'u') (hU : e ≠ 'U') (he : simpleEscape e = some r) :
    unquoteBody (fuel + 1) (Char.ofNat 92 :: e :: rest) =
      (unquoteBody fuel rest).map (fun l => r :: l) := by
  rw [unquoteBody, if_neg (by decide), if_pos rfl]
  rw [if_neg hx, if_neg hu, if_neg hU, he]

theorem unquoteBody_escapedRune (table : Char → Bool) (r : Char) (rest : List Char)
    (fuel : Nat) :
    unquoteBody (fuel + 1) (escapedRune table r ++ rest) =
      (unquoteBody fuel rest).map (fun l => r :: l) := by
  have hr : Char.ofNat r.toNat = r := Char.ofNat_toNat r
  unfold escapedRune
  dsimp only
  by_cases hq : r = Char.ofNat 34 ∨ r = Char.ofNat 92
  · rw [if_pos hq]
    rcases hq with h | h <;> subst h <;>
      exact unquoteBody_letter _ _ rest fuel (by decide) (by decide) (by decide) rfl
  rw [if_neg hq]
  by_cases hp : IsPrint table r = true
  · rw [if_pos hp]
    have h10 : r ≠ Char.ofNat 10 := by
      intro h
      subst h
      have hnp : IsPrint table (Char.ofNat 10) = false := rfl
      rw [hnp] at hp
      exact absurd hp (by decide)
    have h34 : r ≠ Char.ofNat 34 := fun h => hq (Or.inl h)
    have h92 : r ≠ Char.ofNat 92 := fun h => hq (Or.inr h)
    exact unquoteBody_plain r rest fuel h34 h10 h92
  rw [if_neg hp]
  by_cases h7 : r.toNat = 7
  · rw [if_pos h7]; rw [h7] at hr; subst hr
    exact unquoteBody_letter _ _ rest fuel (by decide) (by decide) (by decide) rfl
  rw [if_neg h7]
  by_cases h8 : r.toNat = 8
  · rw [if_pos h8]; rw [h8] at hr; subst hr
    exact unquoteBody_letter _ _ rest fuel (by decide) (by decide) (by decide) rfl
  rw [if_neg h8]
  by_cases h12 : r.toNat = 12
  · rw [if_pos h12]; rw [h12] at hr; subst hr
    exact unquoteBody_letter _ _ rest fuel (by decide) (by decide) (by decide) rfl
  rw [if_neg h12]
  by_cases h10 : r.toNat = 10
  · rw [if_pos h10]; rw [h10] at hr; subst hr
    exact unquoteBody_letter _ _ rest fuel (by decide) (by decide) (by decide) rfl
  rw [if_neg h10]
  by_cases h13 : r.toNat = 13
  · rw [if_pos h13]; rw [h13] at hr; subst hr
    exact unquoteBody_letter _ _ rest fuel (by decide) (by decide) (by decide) rfl
  rw [if_neg h13]
  by_cases h9 : r.toNat = 9
  · rw [if_pos h9]; rw [h9] at hr; subst hr
    exact unquoteBody_letter _ _ rest fuel (by decide) (by decide) (by decide) rfl
  rw [if_neg h9]
  by_cases h11 : r.toNat = 11
  · rw [if_pos h11]; rw [h11] at hr; subst hr
    exact unquoteBody_letter _ _ rest fuel (by decide) (by decide) (by decide) rfl
  rw [if_neg h11]
  by_cases hc : r.toNat < 0x20 ∨ r.toNat = 0x7F
  · rw [if_pos hc]
    have hlt : r.toNat < 0x80 := by omega
    have hesc := hexEscape_hexDigits 2 0x80 r rest (by norm_num; omega) hlt
    show unquoteBody (fuel + 1) (Char.ofNat 92 :: 'x' :: (hexDigits r.toNat 2 ++ rest)) = _
    rw [unquoteBody, if_neg (by decide), if_pos rfl]
    rw [if_pos rfl, hesc]
  rw [if_neg hc]
  by_cases hs : r.toNat < 0x10000
  · rw [if_pos hs]
    have hesc := hexEscape_hexDigits 4 0x10000 r rest (by norm_num; omega) hs
    show unquoteBody (fuel + 1) (Char.ofNat 92 :: 'u' :: (hexDigits r.toNat 4 ++ rest)) = _
    rw [unquoteBody, if_neg (by decide), if_pos rfl]
    rw [if_neg (by decide), if_pos rfl, hesc]
  · rw [if_neg hs]
    have hv : r.toNat < 0x110000 := by
      rcases r.valid with h | h
      · exact lt_trans h (by decide)
      · exact h.2
    have hesc := hexEscape_hexDigits 8 0x110000 r rest (by norm_num; omega) hv
    show unquoteBody (fuel + 1) (Char.ofNat 92 :: 'U' :: (hexDigits r.toNat 8 ++ rest)) = _
    rw [unquoteBody, if_neg (by decide), if_pos rfl]
    rw [if_neg (by decide), if_neg (by decide), if_pos rfl, hesc]

theorem escapedRune_ne_nil (table : Char → Bool) (r : Char) : escapedRune table r ≠ [] := by
  intro h
  have hstep := unquoteBody_escapedRune table r [] 0
  rw [List.append_nil, h] at hstep
  exact absurd hstep (by simp [unquoteBody])

theorem unquoteBody_flatMap (table : Char → Bool) (cs : List Char) (fuel : Nat)
    (h : cs.length ≤ fuel) :
    unquoteBody fuel (cs.flatMap (escapedRune table)) = some cs := by
  induction cs generalizing fuel with
  | nil => cases fuel <;> rfl
  | cons c cs ih =>
    cases fuel with
    | zero => simp at h
    | succ fuel =>
      rw [List.flatMap_cons, unquoteBody_escapedRune, ih fuel (by simpa using h)]
      rfl

theorem length_le_flatMap (table : Char → Bool) (cs : List Char) :
    cs.length ≤ (cs.flatMap (escapedRune table)).length := by
  induction cs with
  | nil => simp
  | cons c cs ih =>
    rw [List.flatMap_cons, List.length_append, List.length_cons]
    have := List.length_pos.2 (escapedRune_ne_nil table c)
    omega

theorem goUnquote_strconvQuote (table : Char → Bool) (s : String) :
    goUnquote (strconvQuote table s) = some s := by
  have hlast : (s.toList.flatMap (escapedRune table) ++ [Char.ofNat 34]).getLast? =
      some (Char.ofNat 34) := by simp
  have hbody := unquoteBody_flatMap table s.toList
    (s.toList.flatMap (escapedRune table) ++ [Char.ofNat 34]).length (by
      have := length_le_flatMap table s.toList
      rw [List.length_append, List.length_singleton]
      omega)
  show (if Char.ofNat 34 = Char.ofNat 34 ∧
      (s.toList.flatMap (escapedRune table) ++ [Char.ofNat 34]).getLast? =
        some (Char.ofNat 34) then
      (unquoteBody (s.toList.flatMap (escapedRune table) ++ [Char.ofNat 34]).length
        (s.toList.flatMap (escapedRune table) ++ [Char.ofNat 34]).dropLast).map String.mk
    else none) = some s
  rw [if_pos ⟨rfl, hlast⟩, List.dropLast_concat, hbody]
  rfl

theorem quotedTokens_spaceSeparated (table : Char → Bool) (others : List String) :
    quotedTokens table others = spaceSeparated (others.map (strconvQuote table)) := by
  induction others with
  | nil => rfl
  | cons token more ih => rw [quotedTokens, List.map_cons, spaceSeparated, ih]

theorem webCommand_isEntrypointCommand (table : Char → Bool) (first : String)
    (others : List String) :
    isEntrypointCommand (webCommandOfEntrypoint table first others) first others := by
  refine ⟨others.map (strconvQuote table), ?_, ?_⟩
  · induction others with
    | nil => exact List.Forall₂.nil
    | cons token more ih =>
      exact List.Forall₂.cons (goUnquote_strconvQuote table token) ih
  · rw [webCommandOfEntrypoint, quotedTokens_spaceSeparated]

/-- C3: when the Procfile read from the image yields no process and the
entrypoint is `e0 :: rest`, `ImageDeploy` derives the process table with the
single entry `web`, whose command is `e0` followed, for each later token in
order, by one space and the token as a double-quoted literal; the table is the
one announced on the event and the only one handed to the image metadata; for
`["python", "app.py"]` the command is `python "app.py"`.  The quoting is
pinned apart from the function that writes it: read as an interpreted string
literal of Go, each quoted token denotes the token it was written from, so
the command is `e0` followed by one space and one such literal for each later
token; a text with a bare double quote inside is not such a literal; and
tokens with a double quote, a backslash, a newline, a tab, a control
character and a character that does not print come out escaped. -/
theorem entrypoint_gives_web_process (env : Env) (e0 : String) (rest : List String) :
    (∀ (procfile : StrMap) (tr : Trace), procfile.length = 0 →
      ImageDeploy.procfileOrEntrypoint env procfile (e0 :: rest) tr =
        (.ok [("web", webCommandOfEntrypoint env.IsPrintTable e0 rest)],
          tr ++ [Call.Fprint "  ---> Procfile not found, trying to get entrypoint\n"])) ∧
    (∀ (a : provision.App) (imgID newImage : String) (client0 client : docker.Client)
        (task : swarm.Task) (procfileData : String) (tr : Trace) (image : docker.Image),
      env.clientForNode tr client0 task.NodeID = .ok client →
      env.InspectImage (tr ++ [Call.clientForNode client0 task.NodeID]) client imgID
        = .ok image →
      (env.GetProcessesFromProcfile procfileData).length = 0 →
      image.Entrypoint = e0 :: rest →
      Call.Fprint ("  ---> Process web found with command: " ++
          webCommandOfEntrypoint env.IsPrintTable e0 rest ++ "\n") ∈
        callsSince tr
          (ImageDeploy.afterBuild env a imgID newImage client0 task procfileData tr).2 ∧
      ∀ img table, Call.CreateImageMetadata img table ∈
        callsSince tr
          (ImageDeploy.afterBuild env a imgID newImage client0 task procfileData tr).2 →
        img = newImage ∧
          table = [("web", webCommandOfEntrypoint env.IsPrintTable e0 rest)]) ∧
    webCommandOfEntrypoint env.IsPrintTable "python" ["app.py"] = "python \"app.py\"" ∧
    (∀ (procfile : StrMap) (tr : Trace), procfile.length = 0 →
      ∃ cmd,
        (ImageDeploy.procfileOrEntrypoint env procfile (e0 :: rest) tr).1 =
          .ok [("web", cmd)] ∧
        isEntrypointCommand cmd e0 rest) ∧
    (∀ token, goUnquote (strconvQuote env.IsPrintTable token) = some token) ∧
    (goUnquote "\"a\"b\"" = none ∧ goUnquote "a" = none ∧
      goUnquote "\"a\\\"b\"" = some "a\"b") ∧
    (∀ tr,
      ImageDeploy.procfileOrEntrypoint env []
          ["sh", "-c", "echo \"hi\"", "C:\\dir", "a\nb\tc", "\x01\x7f", "caf\u00e9\u00ad"] tr =
        (.ok [("web",
            "sh \"-c\" \"echo \\\"hi\\\"\" \"C:\\\\dir\" \"a\\nb\\tc\" " ++
              "\"\\x01\\x7f\" \"caf\u00e9\\u00ad\"")],
          tr ++ [Call.Fprint "  ---> Procfile not found, trying to get entrypoint\n"])) :=
  ⟨fun procfile tr hproc => procfileOrEntrypoint_web env procfile e0 rest tr hproc,
   fun a imgID newImage client0 client task procfileData tr image hnode himg hproc hentry =>
     afterBuild_entrypoint_table env a imgID newImage client0 client task procfileData tr image
       e0 rest hnode himg hproc hentry,
   rfl,
   fun procfile tr hproc =>
     ⟨webCommandOfEntrypoint env.IsPrintTable e0 rest,
      by rw [procfileOrEntrypoint_web env procfile e0 rest tr hproc],
      webCommand_isEntrypointCommand env.IsPrintTable e0 rest⟩,
   fun token => goUnquote_strconvQuote env.IsPrintTable token,
   ⟨by decide, by decide, by decide⟩,
   fun tr => by
     rw [procfileOrEntrypoint_web env [] _ _ tr rfl]
     rfl⟩

theorem entrypoint_gives_web_process_witness :
    ImageDeploy.procfileOrEntrypoint sampleEnv [] ["python", "app.py"] [] =
      (.ok [("web", "python \"app.py\"")],
        [Call.Fprint "  ---> Procfile not found, trying to get entrypoint\n"]) ∧
    ImageDeploy.procfileOrEntrypoint sampleEnv [] ["sh", "-c", "echo \"hi\"", "C:\\dir"] [] =
      (.ok [("web", "sh \"-c\" \"echo \\\"hi\\\"\" \"C:\\\\dir\"")],
        [Call.Fprint "  ---> Procfile not found, trying to get entrypoint\n"]) ∧
    Call.CreateImageMetadata "tsuru/app-myapp:v2"
        [("web", "sh \"-c\" \"echo \\\"hi\\\"\" \"C:\\\\dir\"")] ∈
      (ImageDeploy quotedEntrypointEnv sampleApp "registry/myimage" []).2 :=
  ⟨(entrypoint_gives_web_process sampleEnv "python" ["app.py"]).1 [] [] rfl,
   (entrypoint_gives_web_process sampleEnv "sh" ["-c", "echo \"hi\"", "C:\\dir"]).1 [] [] rfl,
   by decide⟩

/-! ## An image with several exposed ports -/

theorem afterBuild_too_many_ports (env : Env) (a : provision.App) (imgID newImage : String)
    (hports : env.exposesSeveralPorts imgID) (client0 : docker.Client)
    (task : swarm.Task) (procfileData : String) (tr : Trace) :
    (ImageDeploy.afterBuild env a imgID newImage client0 task procfileData tr).1.1 = "" ∧
    (((ImageDeploy.afterBuild env a imgID newImage client0 task procfileData tr).1.2
          = some errTooManyPorts ∧
        Extends Call.isBeforeReconciliation tr
          (ImageDeploy.afterBuild env a imgID newImage client0 task procfileData tr).2) ∨
      ((ImageDeploy.afterBuild env a imgID newImage client0 task procfileData tr).1.2 ≠ none ∧
        Extends (fun c => c.isBeforeReconciliation && !c.isCreateImageMetadata) tr
          (ImageDeploy.afterBuild env a imgID newImage client0 task procfileData tr).2)) := by
  unfold ImageDeploy.afterBuild
  dsimp only
  split
  · exact ⟨rfl, Or.inr ⟨by simp, (Extends.refl _ _).snoc rfl⟩⟩
  rename_i client _
  split
  · exact ⟨rfl, Or.inr ⟨by simp, by
      repeat (first | exact Extends.refl _ _ | refine Extends.snoc ?_ rfl)⟩⟩
  rename_i imageInspect himg
  have hp := hports _ _ _ himg
  have h2 : Extends (fun c => c.isBeforeReconciliation && !c.isCreateImageMetadata) tr
      (tr ++ [Call.clientForNode client0 task.NodeID] ++ [Call.InspectImage client imgID]) := by
    repeat (first | exact Extends.refl _ _ | refine Extends.snoc ?_ rfl)
  have h3 := procfileOrEntrypoint_extends env (env.GetProcessesFromProcfile procfileData)
    imageInspect.Entrypoint
    (tr ++ [Call.clientForNode client0 task.NodeID] ++ [Call.InspectImage client imgID])
    (fun c => c.isBeforeReconciliation && !c.isCreateImageMetadata) (fun _ => rfl)
  split
  · rename_i err tr3 heq
    rw [heq] at h3
    exact ⟨rfl, Or.inr ⟨by simp, h2.trans h3⟩⟩
  rename_i procfile tr3 heq
  rw [heq] at h3
  have h4 : Extends (fun c => c.isBeforeReconciliation && !c.isCreateImageMetadata) tr
      (tr3 ++ procfile.map (fun kv =>
        Call.Fprint ("  ---> Process " ++ kv.1 ++ " found with command: " ++ kv.2 ++ "\n"))) := by
    refine (h2.trans h3).append ?_
    intro x hx
    obtain ⟨kv, _, rfl⟩ := List.mem_map.1 hx
    rfl
  split
  · exact ⟨rfl, Or.inr ⟨by simp, by
      repeat (first | exact h4 | refine Extends.snoc ?_ rfl)⟩⟩
  split
  · exact ⟨rfl, Or.inr ⟨by simp, by
      repeat (first | exact h4 | refine Extends.snoc ?_ rfl)⟩⟩
  rw [if_pos hp]
  refine ⟨rfl, Or.inl ⟨rfl, ?_⟩⟩
  have h5 := h4.mono (Q := Call.isBeforeReconciliation)
    (by intro x hx; simp only [Bool.and_eq_true] at hx; exact hx.1)
  repeat (first | exact h5 | refine Extends.snoc ?_ rfl)

theorem deferRemoveService_fst (client : docker.Client) (srvID : String)
    (body : (String × Option Err) × Trace) :
    (deferRemoveService client srvID body).1 = body.1 := by
  unfold deferRemoveService
  split <;> rfl

theorem deferRemoveService_extends (client : docker.Client) (srvID : String)
    (body : (String × Option Err) × Trace) (tr : Trace) (P : Call → Bool)
    (hP : P (Call.removeServiceAndLog client srvID) = true) (hb : Extends P tr body.2) :
    Extends P tr (deferRemoveService client srvID body).2 := by
  unfold deferRemoveService
  split
  · exact hb.snoc hP
  · exact hb

theorem ImageDeploy_too_many_ports (env : Env) (a : provision.App) (imgID : String)
    (hports : env.exposesSeveralPorts (ImageDeploy.imageRef imgID)) (tr : Trace) :
    (ImageDeploy env a imgID tr).1.1 = "" ∧
    (((ImageDeploy env a imgID tr).1.2 = some errTooManyPorts ∧
        Extends Call.isBeforeReconciliation tr (ImageDeploy env a imgID tr).2) ∨
      ((ImageDeploy env a imgID tr).1.2 ≠ none ∧
        Extends (fun c => c.isBeforeReconciliation && !c.isCreateImageMetadata) tr
          (ImageDeploy env a imgID tr).2)) := by
  unfold ImageDeploy
  dsimp only
  split
  · exact ⟨rfl, Or.inr ⟨by simp, (Extends.refl _ _).snoc rfl⟩⟩
  rename_i client _
  split
  · exact ⟨rfl, Or.inr ⟨by simp, by
      repeat (first | exact Extends.refl _ _ | refine Extends.snoc ?_ rfl)⟩⟩
  rename_i newImage _
  have h3 : Extends (fun c => c.isBeforeReconciliation && !c.isCreateImageMetadata) tr
      (tr ++ [Call.chooseDBSwarmNode] ++ [Call.AppNewImageName a.name] ++
        [Call.Fprint "---- Pulling image to tsuru ----\n"]) := by
    repeat (first | exact Extends.refl _ _ | refine Extends.snoc ?_ rfl)
  have hext := (runOnceBuildCmds_extends_with env client a ImageDeploy.cmds
    (ImageDeploy.imageRef imgID) newImage
    (tr ++ [Call.chooseDBSwarmNode] ++ [Call.AppNewImageName a.name] ++
      [Call.Fprint "---- Pulling image to tsuru ----\n"])).mono
    (Q := fun c => c.isBeforeReconciliation && !c.isCreateImageMetadata)
    (by intro x; cases x <;>
          simp [Call.isBuildStepWith, Call.isBeforeReconciliation, Call.isCreateImageMetadata,
            Call.isProcessReconciliation])
  generalize runOnceBuildCmds env client a ImageDeploy.cmds
    (ImageDeploy.imageRef imgID) newImage
    (tr ++ [Call.chooseDBSwarmNode] ++ [Call.AppNewImageName a.name] ++
      [Call.Fprint "---- Pulling image to tsuru ----\n"]) = r at hext
  obtain ⟨⟨srvID, built, out⟩, tr4⟩ := r
  dsimp only at hext ⊢
  have h4 := h3.trans hext
  rw [deferRemoveService_fst]
  cases built with
  | error err =>
    exact ⟨rfl, Or.inr ⟨by simp, deferRemoveService_extends _ _ _ _ _ rfl h4⟩⟩
  | ok task =>
    dsimp only
    obtain ⟨h1, hcase⟩ := afterBuild_too_many_ports env a
      (ImageDeploy.imageRef imgID) newImage hports client task out tr4
    refine ⟨h1, ?_⟩
    rcases hcase with ⟨herr, hx⟩ | ⟨herr, hx⟩
    · refine Or.inl ⟨herr, deferRemoveService_extends _ _ _ _ _ rfl ?_⟩
      exact (h4.mono (by intro x hx; simp only [Bool.and_eq_true] at hx; exact hx.1)).trans hx
    · exact Or.inr ⟨herr, deferRemoveService_extends _ _ _ _ _ rfl (h4.trans hx)⟩

theorem Extends.mem {P : Call → Bool} {tr tr1 : Trace} (h : Extends P tr tr1) (x : Call)
    (hx : x ∈ callsSince tr tr1) : P x = true := by
  obtain ⟨e, rfl, ha⟩ := h
  rw [callsSince_append] at hx
  exact ha x hx

theorem deployProcesses_inspects {env : Env} {client : docker.Client}
    {a : provision.App} {imgID img : String} {tr0 tr tr1 : Trace} {r : Option Err}
    (h : Extends (Call.inspectsImage img) tr0 tr)
    (heq : deployProcesses env client a imgID tr = (r, tr1)) :
    Extends (Call.inspectsImage img) tr0 tr1 := by
  have h1 := (deployProcesses_extends env client a imgID tr).mono
    (Q := Call.inspectsImage img)
    (by intro x; cases x <;> simp [Call.isReconcile, Call.inspectsImage])
  rw [heq] at h1
  exact h.trans h1

theorem afterBuild_inspects (env : Env) (a : provision.App) (imgID newImage : String)
    (client0 : docker.Client) (task : swarm.Task) (procfileData : String) (tr : Trace) :
    Extends (Call.inspectsImage imgID) tr
      (ImageDeploy.afterBuild env a imgID newImage client0 task procfileData tr).2 := by
  have hself : ∀ c, Call.inspectsImage imgID (Call.InspectImage c imgID) = true := by
    intro c
    simp [Call.inspectsImage]
  unfold ImageDeploy.afterBuild
  dsimp only
  split
  · exact (Extends.refl _ _).snoc rfl
  rename_i client _
  have h2 : Extends (Call.inspectsImage imgID) tr
      (tr ++ [Call.clientForNode client0 task.NodeID] ++ [Call.InspectImage client imgID]) :=
    ((Extends.refl _ _).snoc rfl).snoc (hself client)
  split
  · exact h2
  rename_i imageInspect _
  have h3 := procfileOrEntrypoint_extends env (env.GetProcessesFromProcfile procfileData)
    imageInspect.Entrypoint
    (tr ++ [Call.clientForNode client0 task.NodeID] ++ [Call.InspectImage client imgID])
    (Call.inspectsImage imgID) (fun _ => rfl)
  split
  · rename_i err tr3 heq
    rw [heq] at h3
    exact h2.trans h3
  rename_i procfile tr3 heq
  rw [heq] at h3
  have h4 : Extends (Call.inspectsImage imgID) tr
      (tr3 ++ procfile.map (fun kv =>
        Call.Fprint ("  ---> Process " ++ kv.1 ++ " found with command: " ++ kv.2 ++ "\n"))) := by
    refine (h2.trans h3).append ?_
    intro x hx
    obtain ⟨kv, _, rfl⟩ := List.mem_map.1 hx
    rfl
  split
  · repeat (first | exact h4 | refine Extends.snoc ?_ rfl)
  split
  · repeat (first | exact h4 | refine Extends.snoc ?_ rfl)
  split
  · repeat (first | exact h4 | refine Extends.snoc ?_ rfl)
  split
  · repeat (first | exact h4 | refine Extends.snoc ?_ rfl)
  split
  · rename_i err tr10 heq2
    exact deployProcesses_inspects
      (by repeat (first | exact h4 | refine Extends.snoc ?_ rfl)) heq2
  · rename_i tr10 heq2
    exact deployProcesses_inspects
      (by repeat (first | exact h4 | refine Extends.snoc ?_ rfl)) heq2

theorem ImageDeploy_inspects (env : Env) (a : provision.App) (imgID : String) (tr : Trace) :
    Extends (Call.inspectsImage (ImageDeploy.imageRef imgID)) tr
      (ImageDeploy env a imgID tr).2 := by
  unfold ImageDeploy
  dsimp only
  split
  · exact (Extends.refl _ _).snoc rfl
  rename_i client _
  split
  · repeat (first | exact Extends.refl _ _ | refine Extends.snoc ?_ rfl)
  rename_i newImage _
  have h3 : Extends (Call.inspectsImage (ImageDeploy.imageRef imgID)) tr
      (tr ++ [Call.chooseDBSwarmNode] ++ [Call.AppNewImageName a.name] ++
        [Call.Fprint "---- Pulling image to tsuru ----\n"]) := by
    repeat (first | exact Extends.refl _ _ | refine Extends.snoc ?_ rfl)
  have hext := (runOnceBuildCmds_extends env client a ImageDeploy.cmds
    (ImageDeploy.imageRef imgID) newImage
    (tr ++ [Call.chooseDBSwarmNode] ++ [Call.AppNewImageName a.name] ++
      [Call.Fprint "---- Pulling image to tsuru ----\n"])).mono
    (Q := Call.inspectsImage (ImageDeploy.imageRef imgID))
    (by intro x; cases x <;> simp [Call.isBuildStep, Call.inspectsImage])
  generalize runOnceBuildCmds env client a ImageDeploy.cmds
    (ImageDeploy.imageRef imgID) newImage
    (tr ++ [Call.chooseDBSwarmNode] ++ [Call.AppNewImageName a.name] ++
      [Call.Fprint "---- Pulling image to tsuru ----\n"]) = r at hext
  obtain ⟨⟨srvID, built, out⟩, tr4⟩ := r
  dsimp only at hext ⊢
  have h4 := h3.trans hext
  cases built with
  | error err => exact deferRemoveService_extends _ _ _ _ _ rfl h4
  | ok task =>
    exact deferRemoveService_extends _ _ _ _ _ rfl
      (h4.trans (afterBuild_inspects env a (ImageDeploy.imageRef imgID) newImage client task
        out tr4))

/-- C4: when the image that is deployed (the reference `imgID`, with `:latest`
appended when it has no colon) declares more than one exposed port,
`ImageDeploy` returns an empty image id and an error, which is the
too-many-ports error whenever the run got as far as the image metadata; it
makes no call of process reconciliation (no custom data saved,
`deployProcesses` and `deploy` never entered, no service updated, no image
name appended) and creates no service but the one-shot build service; the
deployed image is the only image it inspects.  Nothing is assumed of the other
images of the environment. -/
theorem ImageDeploy_rejects_several_ports (env : Env) (a : provision.App) (imgID : String)
    (hports : env.exposesSeveralPorts (ImageDeploy.imageRef imgID)) (tr : Trace) :
    (ImageDeploy env a imgID tr).1.1 = "" ∧
    (ImageDeploy env a imgID tr).1.2 ≠ none ∧
    (callsSince tr (ImageDeploy env a imgID tr).2).filter Call.isProcessReconciliation = [] ∧
    (∀ c spec, Call.CreateService c spec ∈ callsSince tr (ImageDeploy env a imgID tr).2 →
      spec.Command = ImageDeploy.cmds) ∧
    ((∃ img table,
        Call.CreateImageMetadata img table ∈ callsSince tr (ImageDeploy env a imgID tr).2) →
      (ImageDeploy env a imgID tr).1.2 = some errTooManyPorts) ∧
    (∀ c img, Call.InspectImage c img ∈ callsSince tr (ImageDeploy env a imgID tr).2 →
      img = ImageDeploy.imageRef imgID) := by
  obtain ⟨h1, hcase⟩ := ImageDeploy_too_many_ports env a imgID hports tr
  have hext : Extends Call.isBeforeReconciliation tr (ImageDeploy env a imgID tr).2 := by
    rcases hcase with ⟨_, hx⟩ | ⟨_, hx⟩
    · exact hx
    · exact hx.mono (by intro x hx; simp only [Bool.and_eq_true] at hx; exact hx.1)
  refine ⟨h1, ?_, ?_, ?_, ?_, ?_⟩
  · rcases hcase with ⟨herr, _⟩ | ⟨herr, _⟩
    · rw [herr]; simp
    · exact herr
  · exact hext.filter_eq_nil (by
      intro x hx
      cases x <;> simp_all [Call.isBeforeReconciliation, Call.isProcessReconciliation])
  · intro c spec hmem
    have := hext.mem _ hmem
    simpa [Call.isBeforeReconciliation] using this
  · rintro ⟨img, table, hmem⟩
    rcases hcase with ⟨herr, _⟩ | ⟨_, hx⟩
    · exact herr
    · have := hx.mem _ hmem
      simp [Call.isCreateImageMetadata] at this
  · intro c img hmem
    have := (ImageDeploy_inspects env a imgID tr).mem _ hmem
    simpa [Call.inspectsImage] using this

theorem ImageDeploy_rejects_several_ports_witness :
    (ImageDeploy severalPortsEnv sampleApp "registry/myimage" []).1 =
      ("", some errTooManyPorts) ∧
    Call.InspectImage { endpoint := "n1" } "registry/myimage:latest" ∈
      (ImageDeploy severalPortsEnv sampleApp "registry/myimage" []).2 ∧
    (ImageDeploy severalPortsEnv sampleApp "registry/other" []).1 =
      ("tsuru/app-myapp:v2", none) :=
  have h := ImageDeploy_rejects_several_ports severalPortsEnv sampleApp "registry/myimage"
    (by
      intro tr c image himg
      have himage : image =
          { Entrypoint := ["python", "app.py"], ExposedPorts := ["8080/tcp", "9090/tcp"] } := by
        have hsome : severalPortsEnv.InspectImage tr c "registry/myimage:latest" =
            .ok { Entrypoint := ["python", "app.py"],
                  ExposedPorts := ["8080/tcp", "9090/tcp"] } := rfl
        have href : ImageDeploy.imageRef "registry/myimage" = "registry/myimage:latest" := by
          decide
        rw [href, hsome] at himg
        exact (Except.ok.inj himg).symm
      rw [himage]
      decide)
    []
  ⟨Prod.ext h.1
      (h.2.2.2.2.1 ⟨"tsuru/app-myapp:v2", [("web", "python \"app.py\"")], by decide⟩),
   by decide, by decide⟩

/-! ## A build that exits with a non-zero code -/

theorem runOnceBuildCmds_exit_code (env : Env) (client : docker.Client) (a : provision.App)
    (cmds : List String) (imgID buildingImage : String) (tr : Trace) (code : Int)
    (hcode : code ≠ 0)
    (h : runOnceBuildCmds.exitsWith env client a cmds imgID buildingImage tr code) :
    (runOnceBuildCmds env client a cmds imgID buildingImage tr).1.2.1 =
      .error (.New ("unexpected result code for build container: " ++ toString code)) := by
  obtain ⟨spec0, srv, task0, others, nodeClient, out, hspec, hcreate, hwait, hnode, hattach⟩ := h
  unfold runOnceBuildCmds
  simp only [hspec, hcreate, hwait, hnode, hattach, if_pos hcode]

theorem ArchiveDeploy_failed_build (env : Env) (app : provision.App) (archiveURL : String)
    (tr : Trace) (code : Int) (hcode : code ≠ 0)
    (h : ArchiveDeploy.buildExitsWith env app archiveURL tr code) :
    (ArchiveDeploy env app archiveURL tr).1 =
      ("", some (.New ("unexpected result code for build container: " ++ toString code))) ∧
    Extends (Call.isBuildAttempt (env.ArchiveDeployCmds app archiveURL)) tr
      (ArchiveDeploy env app archiveURL tr).2 := by
  obtain ⟨buildingImage, client, hnew, hchoose, hexit⟩ := h
  have h3 : Extends (Call.isBuildAttempt (env.ArchiveDeployCmds app archiveURL)) tr
      (tr ++ [Call.GetBuildImage app] ++ [Call.AppNewImageName app.name] ++
        [Call.chooseDBSwarmNode]) := by
    repeat (first | exact Extends.refl _ _ | refine Extends.snoc ?_ rfl)
  have hext := (runOnceBuildCmds_extends_with env client app
    (env.ArchiveDeployCmds app archiveURL) (env.GetBuildImage tr app) buildingImage
    (tr ++ [Call.GetBuildImage app] ++ [Call.AppNewImageName app.name] ++
      [Call.chooseDBSwarmNode])).mono
    (Q := Call.isBuildAttempt (env.ArchiveDeployCmds app archiveURL))
    (by intro x; cases x <;>
          simp [Call.isBuildStepWith, Call.isBuildAttempt, Call.followsBuild,
            Call.isProcessReconciliation])
  have hfail := runOnceBuildCmds_exit_code env client app
    (env.ArchiveDeployCmds app archiveURL) (env.GetBuildImage tr app) buildingImage
    (tr ++ [Call.GetBuildImage app] ++ [Call.AppNewImageName app.name] ++
      [Call.chooseDBSwarmNode]) code hcode hexit
  unfold ArchiveDeploy
  dsimp only
  rw [hnew]
  dsimp only
  rw [hchoose]
  dsimp only
  generalize runOnceBuildCmds env client app (env.ArchiveDeployCmds app archiveURL)
    (env.GetBuildImage tr app) buildingImage
    (tr ++ [Call.GetBuildImage app] ++ [Call.AppNewImageName app.name] ++
      [Call.chooseDBSwarmNode]) = r at hext hfail
  obtain ⟨⟨srvID, built, out⟩, tr4⟩ := r
  dsimp only at hext hfail ⊢
  subst hfail
  rw [deferRemoveService_fst]
  exact ⟨rfl, deferRemoveService_extends _ _ _ _ _ rfl (h3.trans hext)⟩

theorem ImageDeploy_failed_build (env : Env) (a : provision.App) (imgID : String)
    (tr : Trace) (code : Int) (hcode : code ≠ 0)
    (h : ImageDeploy.buildExitsWith env a imgID tr code) :
    (ImageDeploy env a imgID tr).1 =
      ("", some (.New ("unexpected result code for build container: " ++ toString code))) ∧
    Extends (Call.isBuildAttempt ImageDeploy.cmds) tr (ImageDeploy env a imgID tr).2 := by
  obtain ⟨client, newImage, hchoose, hnew, hexit⟩ := h
  have h3 : Extends (Call.isBuildAttempt ImageDeploy.cmds) tr
      (tr ++ [Call.chooseDBSwarmNode] ++ [Call.AppNewImageName a.name] ++
        [Call.Fprint "---- Pulling image to tsuru ----\n"]) := by
    repeat (first | exact Extends.refl _ _ | refine Extends.snoc ?_ rfl)
  have hext := (runOnceBuildCmds_extends_with env client a ImageDeploy.cmds
    (ImageDeploy.imageRef imgID) newImage
    (tr ++ [Call.chooseDBSwarmNode] ++ [Call.AppNewImageName a.name] ++
      [Call.Fprint "---- Pulling image to tsuru ----\n"])).mono
    (Q := Call.isBuildAttempt ImageDeploy.cmds)
    (by intro x; cases x <;>
          simp [Call.isBuildStepWith, Call.isBuildAttempt, Call.followsBuild,
            Call.isProcessReconciliation])
  have hfail := runOnceBuildCmds_exit_code env client a ImageDeploy.cmds
    (ImageDeploy.imageRef imgID) newImage
    (tr ++ [Call.chooseDBSwarmNode] ++ [Call.AppNewImageName a.name] ++
      [Call.Fprint "---- Pulling image to tsuru ----\n"]) code hcode hexit
  unfold ImageDeploy
  dsimp only
  rw [hchoose]
  dsimp only
  rw [hnew]
  dsimp only
  generalize runOnceBuildCmds env client a ImageDeploy.cmds
    (ImageDeploy.imageRef imgID) newImage
    (tr ++ [Call.chooseDBSwarmNode] ++ [Call.AppNewImageName a.name] ++
      [Call.Fprint "---- Pulling image to tsuru ----\n"]) = r at hext hfail
  obtain ⟨⟨srvID, built, out⟩, tr4⟩ := r
  dsimp only at hext hfail ⊢
  subst hfail
  rw [deferRemoveService_fst]
  exact ⟨rfl, deferRemoveService_extends _ _ _ _ _ rfl (h3.trans hext)⟩

theorem isBuildAttempt_calls {cmds : List String} {tr tr1 : Trace}
    (h : Extends (Call.isBuildAttempt cmds) tr tr1) :
    (callsSince tr tr1).filter Call.followsBuild = [] ∧
    ∀ c spec, Call.CreateService c spec ∈ callsSince tr tr1 → spec.Command = cmds := by
  constructor
  · exact h.filter_eq_nil (by
      intro x hx
      cases x <;> simp_all [Call.isBuildAttempt, Call.followsBuild,
        Call.isProcessReconciliation])
  · intro c spec hmem
    have := h.mem _ hmem
    simpa [Call.isBuildAttempt] using this

/-- C5: for a build whose container exits with the non-zero code `code`
(the hypothesis is on the build that this run performs, through the steps
that lead to its container; other builds of the environment may succeed),
`runOnceBuildCmds` returns the error reporting `code` and no task; `ArchiveDeploy`
and `ImageDeploy` return an empty image id and that error, make none of the
calls that follow a build (commit, tag, push, image metadata,
`deployProcesses`, `deploy`, service update, image history) and create no
service but the one-shot build service. -/
theorem failed_build_deploys_nothing (env : Env) (code : Int) (hcode : code ≠ 0) :
    (∀ (client : docker.Client) (a : provision.App) (cmds : List String)
        (imgID buildingImage : String) (tr : Trace),
      runOnceBuildCmds.exitsWith env client a cmds imgID buildingImage tr code →
      (runOnceBuildCmds env client a cmds imgID buildingImage tr).1.2.1 =
        .error (.New ("unexpected result code for build container: " ++ toString code))) ∧
    (∀ (app : provision.App) (archiveURL : String) (tr : Trace),
      ArchiveDeploy.buildExitsWith env app archiveURL tr code →
      (ArchiveDeploy env app archiveURL tr).1 =
        ("", some (.New ("unexpected result code for build container: " ++ toString code))) ∧
      (callsSince tr (ArchiveDeploy env app archiveURL tr).2).filter Call.followsBuild = [] ∧
      ∀ c spec, Call.CreateService c spec ∈
          callsSince tr (ArchiveDeploy env app archiveURL tr).2 →
        spec.Command = env.ArchiveDeployCmds app archiveURL) ∧
    (∀ (a : provision.App) (imgID : String) (tr : Trace),
      ImageDeploy.buildExitsWith env a imgID tr code →
      (ImageDeploy env a imgID tr).1 =
        ("", some (.New ("unexpected result code for build container: " ++ toString code))) ∧
      (callsSince tr (ImageDeploy env a imgID tr).2).filter Call.followsBuild = [] ∧
      ∀ c spec, Call.CreateService c spec ∈ callsSince tr (ImageDeploy env a imgID tr).2 →
        spec.Command = ImageDeploy.cmds) := by
  refine ⟨?_, ?_, ?_⟩
  · intro client a cmds imgID buildingImage tr h
    exact runOnceBuildCmds_exit_code env client a cmds imgID buildingImage tr code hcode h
  · intro app archiveURL tr h
    obtain ⟨h1, h3⟩ := ArchiveDeploy_failed_build env app archiveURL tr code hcode h
    exact ⟨h1, isBuildAttempt_calls h3⟩
  · intro a imgID tr h
    obtain ⟨h1, h3⟩ := ImageDeploy_failed_build env a imgID tr code hcode h
    exact ⟨h1, isBuildAttempt_calls h3⟩

theorem failed_build_deploys_nothing_witness :
    ((2 : Int) ≠ 0 ∧
      ArchiveDeploy.buildExitsWith mixedBuildEnv sampleApp "http://repo/myapp.tgz" [] 2 ∧
      ImageDeploy.buildExitsWith mixedBuildEnv sampleApp "registry/myimage" [] 2) ∧
    ((runOnceBuildCmds mixedBuildEnv sampleClient sampleApp ["make"] "tsuru/python"
        "tsuru/app-myapp:v2" []).1.2.1 =
      .error (.New "unexpected result code for build container: 2") ∧
     (ArchiveDeploy mixedBuildEnv sampleApp "http://repo/myapp.tgz" []).1 =
      ("", some (.New "unexpected result code for build container: 2")) ∧
     (ImageDeploy mixedBuildEnv sampleApp "registry/myimage" []).1 =
      ("", some (.New "unexpected result code for build container: 2"))) ∧
    ((ArchiveDeploy mixedBuildEnv otherApp "http://repo/otherapp.tgz" []).1 =
      ("tsuru/app-myapp:v2", none) ∧
     (ImageDeploy mixedBuildEnv otherApp "registry/myimage" []).1 =
      ("tsuru/app-myapp:v2", none)) :=
  have harch : ArchiveDeploy.buildExitsWith mixedBuildEnv sampleApp "http://repo/myapp.tgz" []
      2 := ⟨_, _, rfl, rfl, _, _, _, _, _, _, rfl, rfl, rfl, rfl, rfl⟩
  have himg : ImageDeploy.buildExitsWith mixedBuildEnv sampleApp "registry/myimage" [] 2 :=
    ⟨_, _, rfl, rfl, _, _, _, _, _, _, rfl, rfl, rfl, rfl, rfl⟩
  ⟨⟨by decide, harch, himg⟩,
   ⟨(failed_build_deploys_nothing mixedBuildEnv 2 (by decide)).1 sampleClient sampleApp
      ["make"] "tsuru/python" "tsuru/app-myapp:v2" []
      ⟨_, _, _, _, _, _, rfl, rfl, rfl, rfl, rfl⟩,
    ((failed_build_deploys_nothing mixedBuildEnv 2 (by decide)).2.1 sampleApp
      "http://repo/myapp.tgz" [] harch).1,
    ((failed_build_deploys_nothing mixedBuildEnv 2 (by decide)).2.2 sampleApp
      "registry/myimage" [] himg).1⟩,
   ⟨by decide, by decide⟩⟩

/-! ## Reconciling one process -/

theorem deploy_creates (env : Env) (client : docker.Client) (a : provision.App)
    (process cmd imgID : String) (tr : Trace) (e : Err) (spec : swarm.ServiceSpec)
    (hinspect : env.InspectService tr client (env.serviceNameForApp a process) = .error e)
    (hmissing : e.isNoSuchService = true)
    (hspec : env.serviceSpecForApp { app := a, process := process, image := imgID } = .ok spec) :
    (callsSince tr (deploy env client a process cmd imgID tr).2).filter Call.isMutating =
      [Call.CreateService client spec] := by
  unfold deploy
  simp only [hinspect, hmissing, hspec, Bool.not_true, Bool.false_eq_true, if_false]
  split <;> simp [callsSince, Call.isMutating]

theorem deploy_updates (env : Env) (client : docker.Client) (a : provision.App)
    (process cmd imgID : String) (tr : Trace) (srv : swarm.Service) (spec : swarm.ServiceSpec)
    (hinspect : env.InspectService tr client (env.serviceNameForApp a process) = .ok srv)
    (hspec : env.serviceSpecForApp
      { app := a, process := process, image := imgID, baseSpec := some srv.Spec } = .ok spec) :
    (callsSince tr (deploy env client a process cmd imgID tr).2).filter Call.isMutating =
      [Call.UpdateService client srv.ID srv.Version spec] := by
  unfold deploy
  simp only [hinspect, hspec]
  split <;> simp [callsSince, Call.isMutating]

theorem deploy_inspect_fails (env : Env) (client : docker.Client) (a : provision.App)
    (process cmd imgID : String) (tr : Trace) (e : Err)
    (hinspect : env.InspectService tr client (env.serviceNameForApp a process) = .error e)
    (hother : e.isNoSuchService = false) :
    deploy env client a process cmd imgID tr =
      (some (.Wrap e ""), tr ++ [Call.InspectService client (env.serviceNameForApp a process)]) := by
  unfold deploy
  simp only [hinspect, hother]
  rfl

theorem deploy_spec_fails_new (env : Env) (client : docker.Client) (a : provision.App)
    (process cmd imgID : String) (tr : Trace) (e err : Err)
    (hinspect : env.InspectService tr client (env.serviceNameForApp a process) = .error e)
    (hmissing : e.isNoSuchService = true)
    (hspec : env.serviceSpecForApp { app := a, process := process, image := imgID } =
      .error err) :
    deploy env client a process cmd imgID tr =
      (some err, tr ++ [Call.InspectService client (env.serviceNameForApp a process)]) := by
  unfold deploy
  simp only [hinspect, hmissing, hspec, Bool.not_true, Bool.false_eq_true, if_false]

theorem deploy_spec_fails_existing (env : Env) (client : docker.Client) (a : provision.App)
    (process cmd imgID : String) (tr : Trace) (srv : swarm.Service) (err : Err)
    (hinspect : env.InspectService tr client (env.serviceNameForApp a process) = .ok srv)
    (hspec : env.serviceSpecForApp
      { app := a, process := process, image := imgID, baseSpec := some srv.Spec } =
      .error err) :
    deploy env client a process cmd imgID tr =
      (some err, tr ++ [Call.InspectService client (env.serviceNameForApp a process)]) := by
  unfold deploy
  simp only [hinspect, hspec]

theorem deploy_mutates_at_most_once (env : Env) (client : docker.Client) (a : provision.App)
    (process cmd imgID : String) (tr : Trace) :
    ((callsSince tr (deploy env client a process cmd imgID tr).2).filter
      Call.isMutating).length ≤ 1 := by
  unfold deploy
  dsimp only
  repeat' split
  all_goals simp [callsSince, Call.isMutating]

/-! ## Deploying twice over a control plane that stores services by name -/

theorem storeServices_snoc (tr : Trace) (c : Call) :
    storeServices (tr ++ [c]) = storeStep (storeServices tr) c := by
  simp [storeServices, List.foldl_append]

theorem storeStep_inv (services : List swarm.Service) (c : Call) (h : StoreInv services) :
    StoreInv (storeStep services c) := by
  obtain ⟨hnd, hname⟩ := h
  cases c
  case CreateService cl spec =>
    simp only [storeStep]
    split
    · exact ⟨hnd, hname⟩
    · rename_i hfree
      constructor
      · rw [List.map_append, List.nodup_append]
        refine ⟨hnd, by simp, ?_⟩
        intro x hx hx2
        simp only [List.map_cons, List.map_nil, List.mem_singleton] at hx2
        obtain ⟨s, hs, rfl⟩ := List.mem_map.1 hx
        apply hfree
        rw [List.any_eq_true]
        exact ⟨s, hs, by simp [hx2]⟩
      · intro s hs
        rcases List.mem_append.1 hs with hs | hs
        · exact hname s hs
        · rw [List.mem_singleton.1 hs]
  case UpdateService cl id version spec =>
    simp only [storeStep]
    constructor
    · rw [List.map_map]
      have hfun : ((fun s : swarm.Service => s.ID) ∘ fun s : swarm.Service =>
          if s.ID == id && s.Version == version && spec.Name == s.ID then
            { s with Version := s.Version + 1, Spec := spec }
          else s) = fun s => s.ID := by
        funext s
        simp only [Function.comp]
        split <;> rfl
      rw [hfun]
      exact hnd
    · intro s hs
      obtain ⟨s0, hs0, rfl⟩ := List.mem_map.1 hs
      split
      · rename_i hcond
        simp only [Bool.and_eq_true, beq_iff_eq] at hcond
        exact hcond.2
      · exact hname s0 hs0
  case removeServiceAndLog cl id =>
    simp only [storeStep]
    constructor
    · exact hnd.sublist ((List.filter_sublist _).map _)
    · intro s hs
      exact hname s (List.mem_of_mem_filter hs)
  all_goals exact ⟨hnd, hname⟩

theorem storeServices_inv (tr : Trace) : StoreInv (storeServices tr) := by
  induction tr using List.reverseRecOn with
  | nil => exact ⟨by simp [storeServices], by simp [storeServices]⟩
  | append_singleton tr c ih =>
    rw [storeServices_snoc]
    exact storeStep_inv _ c ih

theorem servicesNamed_length (name : String) (services : List swarm.Service)
    (h : StoreInv services) :
    (servicesNamed name services).length = (services.map (fun s => s.ID)).count name := by
  unfold servicesNamed
  rw [← List.countP_eq_length_filter, List.count, List.countP_map]
  apply List.countP_congr
  intro s hs
  simp only [Function.comp, beq_iff_eq]
  rw [h.2 s hs]

theorem servicesNamed_update (name : String) (services : List swarm.Service)
    (c : docker.Client) (id : String) (version : Nat) (spec : swarm.ServiceSpec)
    (h : StoreInv services) :
    (servicesNamed name (storeStep services (Call.UpdateService c id version spec))).length =
      (servicesNamed name services).length := by
  rw [servicesNamed_length name _ (storeStep_inv _ _ h), servicesNamed_length name _ h]
  simp only [storeStep, List.map_map]
  congr 1
  apply List.map_congr_left
  intro s _
  simp only [Function.comp]
  split <;> rfl

theorem servicesNamed_of_find (name : String) (services : List swarm.Service)
    (h : StoreInv services) (s : swarm.Service)
    (hfind : services.find? (fun s => s.ID == name) = some s) :
    (servicesNamed name services).length = 1 := by
  rw [servicesNamed_length name _ h]
  apply List.count_eq_one_of_mem h.1
  have hmem := List.mem_of_find?_eq_some hfind
  have hid := List.find?_some hfind
  simp only [beq_iff_eq] at hid
  rw [← hid]
  exact List.mem_map_of_mem _ hmem

theorem find_of_servicesNamed (name : String) (services : List swarm.Service)
    (h : StoreInv services) (hone : (servicesNamed name services).length = 1) :
    ∃ s, services.find? (fun s => s.ID == name) = some s := by
  cases hfind : services.find? (fun s => s.ID == name) with
  | some s => exact ⟨s, rfl⟩
  | none =>
    exfalso
    rw [servicesNamed_length name _ h] at hone
    have hnot : name ∉ services.map (fun s => s.ID) := by
      intro hmem
      obtain ⟨s, hs, hid⟩ := List.mem_map.1 hmem
      have := List.find?_eq_none.1 hfind s hs
      simp [hid] at this
    rw [List.count_eq_zero_of_not_mem hnot] at hone
    exact absurd hone (by decide)

theorem storeStep_inspect (services : List swarm.Service) (c : docker.Client) (id : String) :
    storeStep services (Call.InspectService c id) = services := rfl

theorem deploy_store_existing (env : Env)
    (client : docker.Client) (a : provision.App) (process cmd imgID : String) (tr : Trace)
    (hone : (servicesNamed (env.serviceNameForApp a process) (storeServices tr)).length = 1) :
    (servicesNamed (env.serviceNameForApp a process)
      (storeServices (deploy (withStore env) client a process cmd imgID tr).2)).length = 1 ∧
    (callsSince tr (deploy (withStore env) client a process cmd imgID tr).2).filter
      Call.isCreateService = [] := by
  have hinv := storeServices_inv tr
  obtain ⟨s, hfind⟩ := find_of_servicesNamed _ _ hinv hone
  unfold deploy
  simp only [withStore, hfind]
  split
  · simp [storeServices_snoc, storeStep_inspect, hone, callsSince, Call.isCreateService]
  · split
    all_goals
      simp only [storeServices_snoc, storeStep_inspect, servicesNamed_update _ _ _ _ _ _ hinv]
      simp [hone, callsSince, Call.isCreateService]

theorem servicesNamed_of_not_find (name : String) (services : List swarm.Service)
    (h : StoreInv services)
    (hfind : services.find? (fun s => s.ID == name) = none) :
    servicesNamed name services = [] ∧ services.any (fun s => s.ID == name) = false := by
  have hnone := List.find?_eq_none.1 hfind
  constructor
  · unfold servicesNamed
    rw [List.filter_eq_nil_iff]
    intro s hs
    rw [h.2 s hs]
    exact hnone s hs
  · rw [Bool.eq_false_iff]
    intro hany
    obtain ⟨s, hs, hid⟩ := List.any_eq_true.1 hany
    exact hnone s hs hid

theorem deploy_store_first (env : Env) (hnames : env.namesServices)
    (client : docker.Client) (a : provision.App) (process cmd imgID : String) (tr : Trace)
    (hok : (deploy (withStore env) client a process cmd imgID tr).1 = none) :
    (servicesNamed (env.serviceNameForApp a process)
      (storeServices (deploy (withStore env) client a process cmd imgID tr).2)).length = 1 := by
  have hinv := storeServices_inv tr
  cases hfind : (storeServices tr).find?
      (fun s => s.ID == env.serviceNameForApp a process) with
  | some s =>
    exact (deploy_store_existing env client a process cmd imgID tr
      (servicesNamed_of_find _ _ hinv s hfind)).1
  | none =>
    obtain ⟨hnil, hfree⟩ := servicesNamed_of_not_find _ _ hinv hfind
    revert hok
    unfold deploy
    simp only [withStore, hfind, Err.isNoSuchService, Bool.not_true, Bool.false_eq_true,
      if_false]
    split
    · intro hok
      simp at hok
    · rename_i spec hspec
      have hname : spec.Name = env.serviceNameForApp a process := hnames _ _ rfl hspec
      intro _
      simp only [storeServices_snoc, storeStep_inspect, hname, hfree, Bool.false_eq_true,
        if_false]
      simp only [storeStep, hname, hfree, Bool.false_eq_true, if_false]
      unfold servicesNamed at hnil ⊢
      rw [List.filter_append, hnil]
      simp [hname]

theorem deploy_store_succeeds (env : Env) (hnames : env.namesServices)
    (client : docker.Client) (a : provision.App) (process cmd imgID : String) (tr : Trace)
    (hbuilt : ∀ base, ∃ spec, env.serviceSpecForApp
      { app := a, process := process, image := imgID, baseSpec := base } = .ok spec) :
    (deploy (withStore env) client a process cmd imgID tr).1 = none := by
  have hinv := storeServices_inv tr
  cases hfind : (storeServices tr).find?
      (fun s => s.ID == env.serviceNameForApp a process) with
  | some s =>
    obtain ⟨spec, hspec⟩ := hbuilt (some s.Spec)
    have hname : spec.Name = env.serviceNameForApp a process := hnames _ _ rfl hspec
    have hid : s.ID = env.serviceNameForApp a process := by
      have := List.find?_some hfind
      simpa using this
    unfold deploy
    simp only [withStore, hfind, hspec, storeServices_snoc, storeStep_inspect, hid, hname]
    simp
  | none =>
    obtain ⟨hnil, hfree⟩ := servicesNamed_of_not_find _ _ hinv hfind
    obtain ⟨spec, hspec⟩ := hbuilt none
    have hname : spec.Name = env.serviceNameForApp a process := hnames _ _ rfl hspec
    unfold deploy
    simp only [withStore, hfind, Err.isNoSuchService, Bool.not_true, Bool.false_eq_true,
      if_false, hspec, storeServices_snoc, storeStep_inspect, hname, hfree]

/-- C6, amended: `deploy` makes at most one mutating call, chosen by the
inspection of the service named after the app and the process, and exactly one
whenever `serviceSpecForApp` returns a specification.  Not found and the new
specification built: one `CreateService` with it and nothing else.  Found and
the specification rebuilt over the existing one: one `UpdateService` on the id
of the inspected service, with its version index and that specification, and
nothing else.  Any other inspection error: no mutating call, and the error is
returned wrapped.  When `serviceSpecForApp` returns an error, on either branch:
no mutating call, and that error is returned.  Over a control plane that stores
services by name, a first `deploy` of a pair returns no error whenever
`serviceSpecForApp` returns a specification, and after a first `deploy` that
returns no error a second `deploy` of the same pair creates nothing and exactly
one service bears the name. -/
theorem deploy_creates_or_updates_once (env : Env) (client : docker.Client)
    (a : provision.App) (process cmd imgID : String) (tr : Trace) :
    (∀ e spec,
      env.InspectService tr client (env.serviceNameForApp a process) = .error e →
      e.isNoSuchService = true →
      env.serviceSpecForApp { app := a, process := process, image := imgID } = .ok spec →
      (callsSince tr (deploy env client a process cmd imgID tr).2).filter Call.isMutating =
        [Call.CreateService client spec]) ∧
    (∀ srv spec,
      env.InspectService tr client (env.serviceNameForApp a process) = .ok srv →
      env.serviceSpecForApp
        { app := a, process := process, image := imgID, baseSpec := some srv.Spec } = .ok spec →
      (callsSince tr (deploy env client a process cmd imgID tr).2).filter Call.isMutating =
        [Call.UpdateService client srv.ID srv.Version spec]) ∧
    (∀ e,
      env.InspectService tr client (env.serviceNameForApp a process) = .error e →
      e.isNoSuchService = false →
      (deploy env client a process cmd imgID tr).1 = some (.Wrap e "") ∧
      (callsSince tr (deploy env client a process cmd imgID tr).2).filter Call.isMutating = []) ∧
    (∀ e err,
      env.InspectService tr client (env.serviceNameForApp a process) = .error e →
      e.isNoSuchService = true →
      env.serviceSpecForApp { app := a, process := process, image := imgID } = .error err →
      (deploy env client a process cmd imgID tr).1 = some err ∧
      (callsSince tr (deploy env client a process cmd imgID tr).2).filter Call.isMutating = []) ∧
    (∀ srv err,
      env.InspectService tr client (env.serviceNameForApp a process) = .ok srv →
      env.serviceSpecForApp
        { app := a, process := process, image := imgID, baseSpec := some srv.Spec } =
        .error err →
      (deploy env client a process cmd imgID tr).1 = some err ∧
      (callsSince tr (deploy env client a process cmd imgID tr).2).filter Call.isMutating = []) ∧
    ((callsSince tr (deploy env client a process cmd imgID tr).2).filter
      Call.isMutating).length ≤ 1 ∧
    (env.namesServices →
      (∀ base, ∃ spec, env.serviceSpecForApp
        { app := a, process := process, image := imgID, baseSpec := base } = .ok spec) →
      (deploy (withStore env) client a process cmd imgID tr).1 = none) ∧
    (env.namesServices → ∀ cmd2 imgID2 : String,
      (deploy (withStore env) client a process cmd imgID tr).1 = none →
      (servicesNamed (env.serviceNameForApp a process)
        (storeServices
          (deploy (withStore env) client a process cmd2 imgID2
            (deploy (withStore env) client a process cmd imgID tr).2).2)).length = 1 ∧
      (callsSince (deploy (withStore env) client a process cmd imgID tr).2
        (deploy (withStore env) client a process cmd2 imgID2
          (deploy (withStore env) client a process cmd imgID tr).2).2).filter
        Call.isCreateService = []) := by
  refine ⟨?_, ?_, ?_, ?_, ?_, ?_, ?_, ?_⟩
  · intro e spec hinspect hmissing hspec
    exact deploy_creates env client a process cmd imgID tr e spec hinspect hmissing hspec
  · intro srv spec hinspect hspec
    exact deploy_updates env client a process cmd imgID tr srv spec hinspect hspec
  · intro e hinspect hother
    rw [deploy_inspect_fails env client a process cmd imgID tr e hinspect hother]
    simp [callsSince, Call.isMutating]
  · intro e err hinspect hmissing hspec
    rw [deploy_spec_fails_new env client a process cmd imgID tr e err hinspect hmissing hspec]
    simp [callsSince, Call.isMutating]
  · intro srv err hinspect hspec
    rw [deploy_spec_fails_existing env client a process cmd imgID tr srv err hinspect hspec]
    simp [callsSince, Call.isMutating]
  · exact deploy_mutates_at_most_once env client a process cmd imgID tr
  · intro hnames hbuilt
    exact deploy_store_succeeds env hnames client a process cmd imgID tr hbuilt
  · intro hnames cmd2 imgID2 hok
    exact deploy_store_existing env client a process cmd2 imgID2 _
      (deploy_store_first env hnames client a process cmd imgID tr hok)

theorem deploy_creates_or_updates_once_witness :
    (sampleEnv.namesServices ∧
      (deploy (withStore sampleEnv) sampleClient sampleApp "web" "python app.py" "img:v1"
        []).1 = none) ∧
    (servicesNamed "myapp-web"
      (storeServices
        (deploy (withStore sampleEnv) sampleClient sampleApp "web" "python app.py" "img:v2"
          (deploy (withStore sampleEnv) sampleClient sampleApp "web" "python app.py" "img:v1"
            []).2).2)).length = 1 ∧
    (callsSince
      (deploy (withStore sampleEnv) sampleClient sampleApp "web" "python app.py" "img:v1" []).2
      (deploy (withStore sampleEnv) sampleClient sampleApp "web" "python app.py" "img:v2"
        (deploy (withStore sampleEnv) sampleClient sampleApp "web" "python app.py" "img:v1"
          []).2).2).filter Call.isCreateService = [] :=
  have hnames : sampleEnv.namesServices := by
    intro opts spec hd hspec
    simp only [sampleEnv, hd, Except.ok.injEq] at hspec
    rw [← hspec]
    rfl
  have hok : (deploy (withStore sampleEnv) sampleClient sampleApp "web" "python app.py"
      "img:v1" []).1 = none :=
    (deploy_creates_or_updates_once sampleEnv sampleClient sampleApp "web" "python app.py"
      "img:v1" []).2.2.2.2.2.2.1 hnames (fun _ => ⟨_, rfl⟩)
  ⟨⟨hnames, hok⟩,
    (deploy_creates_or_updates_once sampleEnv sampleClient sampleApp "web" "python app.py"
      "img:v1" []).2.2.2.2.2.2.2 hnames "python app.py" "img:v2" hok⟩

/-- With `serviceSpecForApp` returning an error, the service of `web` is
reported not found and `deploy` issues no `CreateService`; the service of
`worker` is found and `deploy` issues no `UpdateService`; each time the error
is returned and no mutating call is made.  Over a control plane that stores
services by name, two deploys of `web` then leave no service for the pair. -/
theorem deploy_without_spec_mutates_nothing :
    (noSpecEnv.InspectService [] sampleClient (noSpecEnv.serviceNameForApp sampleApp "web") =
        .error (.NoSuchService "myapp-web") ∧
      (Err.NoSuchService "myapp-web").isNoSuchService = true ∧
      (deploy noSpecEnv sampleClient sampleApp "web" "python app.py" "img:v1" []).1 =
        some (.failure "invalid service options") ∧
      (callsSince [] (deploy noSpecEnv sampleClient sampleApp "web" "python app.py" "img:v1"
        []).2).filter Call.isMutating = []) ∧
    (noSpecEnv.InspectService [] sampleClient (noSpecEnv.serviceNameForApp sampleApp "worker") =
        .ok (sampleService "myapp-worker" "worker" []) ∧
      (deploy noSpecEnv sampleClient sampleApp "worker" "python w.py" "img:v1" []).1 =
        some (.failure "invalid service options") ∧
      (callsSince [] (deploy noSpecEnv sampleClient sampleApp "worker" "python w.py" "img:v1"
        []).2).filter Call.isMutating = []) ∧
    servicesNamed "myapp-web"
      (storeServices
        (deploy (withStore noSpecEnv) sampleClient sampleApp "web" "python app.py" "img:v1"
          (deploy (withStore noSpecEnv) sampleClient sampleApp "web" "python app.py" "img:v1"
            []).2).2) = [] := by
  refine ⟨⟨?_, ?_, ?_, ?_⟩, ⟨?_, ?_, ?_⟩, ?_⟩ <;> decide

/-! ## Reconciling the process table -/

theorem deploy_extends_calls (env : Env) (client : docker.Client) (a : provision.App)
    (process cmd imgID : String) (tr : Trace) :
    Extends Call.isDeployCall tr (deploy env client a process cmd imgID tr).2 := by
  unfold deploy
  dsimp only
  repeat' split
  all_goals repeat (first | exact Extends.refl _ _ | refine Extends.snoc ?_ rfl)

theorem deploy_inspects_once (env : Env) (client : docker.Client) (a : provision.App)
    (process cmd imgID : String) (tr : Trace) :
    (callsSince tr (deploy env client a process cmd imgID tr).2).filter Call.isInspectService =
      [Call.InspectService client (env.serviceNameForApp a process)] := by
  unfold deploy
  dsimp only
  repeat' split
  all_goals simp [callsSince, Call.isInspectService]

theorem reconciledAll_extends (env : Env) (client : docker.Client) (a : provision.App)
    (imgID : String) (procs : StrMap) (tr tr1 : Trace)
    (h : reconciledAll env client a imgID procs tr = some tr1) :
    Extends Call.isDeployCall tr tr1 ∧
    (callsSince tr tr1).filter Call.isInspectService =
      procs.map (fun p => Call.InspectService client (env.serviceNameForApp a p.1)) := by
  induction procs generalizing tr with
  | nil =>
    simp only [reconciledAll, Option.some.injEq] at h
    subst h
    exact ⟨Extends.refl _ _, by simp [callsSince]⟩
  | cons p rest ih =>
    obtain ⟨processName, cmd⟩ := p
    have hd := deploy_extends_calls env client a processName cmd imgID tr
    have hi := deploy_inspects_once env client a processName cmd imgID tr
    unfold reconciledAll at h
    split at h
    · rename_i tr2 heq
      rw [heq] at hd hi
      obtain ⟨hrest, hcount⟩ := ih tr2 h
      refine ⟨hd.trans hrest, ?_⟩
      obtain ⟨e1, rfl, _⟩ := hd
      obtain ⟨e2, rfl, _⟩ := hrest
      rw [callsSince_append] at hi hcount
      rw [List.append_assoc, callsSince_append, List.filter_append, hi, hcount]
      rfl
    · exact absurd h (by simp)

theorem loop_of_reconciledAll (env : Env) (client : docker.Client) (a : provision.App)
    (imgID : String) (procs : StrMap) (tr tr1 : Trace)
    (h : reconciledAll env client a imgID procs tr = some tr1) :
    deployProcesses.loop env client a imgID procs tr = (none, tr1) := by
  induction procs generalizing tr with
  | nil =>
    simp only [reconciledAll, Option.some.injEq] at h
    subst h
    rfl
  | cons p rest ih =>
    obtain ⟨processName, cmd⟩ := p
    unfold reconciledAll at h
    unfold deployProcesses.loop
    split at h
    · rename_i tr2 heq
      rw [heq]
      exact ih tr2 h
    · exact absurd h (by simp)

theorem loop_of_first_failure (env : Env) (client : docker.Client) (a : provision.App)
    (imgID : String) (done : StrMap) (processName cmd : String) (later : StrMap)
    (tr tr1 tr2 : Trace) (e : Err)
    (hdone : reconciledAll env client a imgID done tr = some tr1)
    (hfail : deploy env client a processName cmd imgID tr1 = (some e, tr2)) :
    deployProcesses.loop env client a imgID (done ++ (processName, cmd) :: later) tr =
      (some e, tr2) := by
  induction done generalizing tr with
  | nil =>
    simp only [reconciledAll, Option.some.injEq] at hdone
    subst hdone
    simp only [List.nil_append, deployProcesses.loop, hfail]
  | cons p rest ih =>
    obtain ⟨processName0, cmd0⟩ := p
    unfold reconciledAll at hdone
    rw [List.cons_append]
    unfold deployProcesses.loop
    split at hdone
    · rename_i tr3 heq
      rw [heq]
      exact ih tr3 hdone
    · exact absurd hdone (by simp)

theorem first_failure_of_not_reconciledAll (env : Env) (client : docker.Client)
    (a : provision.App) (imgID : String) (procs : StrMap) (tr : Trace)
    (h : reconciledAll env client a imgID procs tr = none) :
    ∃ done processName cmd later tr1 tr2 e,
      procs = done ++ (processName, cmd) :: later ∧
      reconciledAll env client a imgID done tr = some tr1 ∧
      deploy env client a processName cmd imgID tr1 = (some e, tr2) := by
  induction procs generalizing tr with
  | nil => simp [reconciledAll] at h
  | cons p rest ih =>
    obtain ⟨processName, cmd⟩ := p
    unfold reconciledAll at h
    split at h
    · rename_i tr2 heq
      obtain ⟨done, pn, c, later, tr1, tr3, e, hp, hd, hf⟩ := ih tr2 h
      refine ⟨(processName, cmd) :: done, pn, c, later, tr1, tr3, e, ?_, ?_, hf⟩
      · rw [hp]; rfl
      · unfold reconciledAll
        rw [heq]
        exact hd
    · rename_i e tr2 heq
      exact ⟨[], processName, cmd, rest, tr, tr2, e, rfl, rfl, heq⟩

theorem deployProcesses_all_reconciled (env : Env) (client : docker.Client)
    (a : provision.App) (imgID : String) (tr tr1 : Trace) (imageData : image.ImageMetadata)
    (hdata : env.GetImageCustomData tr imgID = .ok imageData)
    (hall : reconciledAll env client a imgID imageData.Processes
      (tr ++ [Call.GetImageCustomData imgID]) = some tr1) :
    deployProcesses env client a imgID tr =
      ((env.AppendAppImageName tr1 a.name imgID).map (fun e => Err.Wrap e ""),
        tr1 ++ [Call.AppendAppImageName a.name imgID]) := by
  unfold deployProcesses
  simp only [hdata, loop_of_reconciledAll env client a imgID _ _ _ hall]
  cases env.AppendAppImageName tr1 a.name imgID <;> rfl

theorem deployProcesses_first_failure (env : Env) (client : docker.Client)
    (a : provision.App) (imgID : String) (tr tr1 tr2 : Trace) (imageData : image.ImageMetadata)
    (done : StrMap) (processName cmd : String) (later : StrMap) (e : Err)
    (hdata : env.GetImageCustomData tr imgID = .ok imageData)
    (hprocs : imageData.Processes = done ++ (processName, cmd) :: later)
    (hdone : reconciledAll env client a imgID done (tr ++ [Call.GetImageCustomData imgID])
      = some tr1)
    (hfail : deploy env client a processName cmd imgID tr1 = (some e, tr2)) :
    deployProcesses env client a imgID tr = (some e, tr2) ∧
    (callsSince tr tr2).filter Call.isInspectService =
      (done ++ [(processName, cmd)]).map
        (fun p => Call.InspectService client (env.serviceNameForApp a p.1)) ∧
    Call.AppendAppImageName a.name imgID ∉ callsSince tr tr2 := by
  have hloop := loop_of_first_failure env client a imgID done processName cmd later
    (tr ++ [Call.GetImageCustomData imgID]) tr1 tr2 e hdone hfail
  obtain ⟨hext1, hcount1⟩ := reconciledAll_extends env client a imgID done _ tr1 hdone
  have hext2 := deploy_extends_calls env client a processName cmd imgID tr1
  have hcount2 := deploy_inspects_once env client a processName cmd imgID tr1
  rw [hfail] at hext2 hcount2
  obtain ⟨e1, rfl, h1⟩ := hext1
  obtain ⟨e2, rfl, h2⟩ := hext2
  rw [callsSince_append] at hcount1 hcount2
  refine ⟨?_, ?_, ?_⟩
  · unfold deployProcesses
    simp only [hdata, hprocs, hloop]
  · simp only [List.append_assoc, callsSince_append, List.filter_append, hcount1, hcount2,
      List.map_append]
    simp [Call.isInspectService]
  · simp only [List.append_assoc, callsSince_append, List.mem_append, List.mem_singleton]
    rintro (h | h | h)
    · simp at h
    · simpa [Call.isDeployCall] using h1 _ h
    · simpa [Call.isDeployCall] using h2 _ h

/-- C7: once the process table is read, `deployProcesses` appends the image
name to the image history exactly when the `deploy` of every process of the
table succeeded, and then as its last call, after all of them.  At the first
process whose `deploy` fails it returns that error and the trace ends there:
one inspection per process up to the failing one, none for the later
processes, no append; and in every case nothing is removed. -/
theorem deployProcesses_appends_after_all (env : Env) (client : docker.Client)
    (a : provision.App) (imgID : String) (tr : Trace) (imageData : image.ImageMetadata)
    (hdata : env.GetImageCustomData tr imgID = .ok imageData) :
    (∀ tr1, reconciledAll env client a imgID imageData.Processes
        (tr ++ [Call.GetImageCustomData imgID]) = some tr1 →
      deployProcesses env client a imgID tr =
        ((env.AppendAppImageName tr1 a.name imgID).map (fun e => Err.Wrap e ""),
          tr1 ++ [Call.AppendAppImageName a.name imgID])) ∧
    (∀ done processName cmd later tr1 tr2 e,
      imageData.Processes = done ++ (processName, cmd) :: later →
      reconciledAll env client a imgID done (tr ++ [Call.GetImageCustomData imgID])
        = some tr1 →
      deploy env client a processName cmd imgID tr1 = (some e, tr2) →
      deployProcesses env client a imgID tr = (some e, tr2) ∧
      (callsSince tr tr2).filter Call.isInspectService =
        (done ++ [(processName, cmd)]).map
          (fun p => Call.InspectService client (env.serviceNameForApp a p.1)) ∧
      Call.AppendAppImageName a.name imgID ∉ callsSince tr tr2) ∧
    (Call.AppendAppImageName a.name imgID ∈
        callsSince tr (deployProcesses env client a imgID tr).2 ↔
      ∃ tr1, reconciledAll env client a imgID imageData.Processes
        (tr ++ [Call.GetImageCustomData imgID]) = some tr1) ∧
    (callsSince tr (deployProcesses env client a imgID tr).2).filter Call.isRemoveService
      = [] := by
  refine ⟨?_, ?_, ?_, ?_⟩
  · intro tr1 hall
    exact deployProcesses_all_reconciled env client a imgID tr tr1 imageData hdata hall
  · intro done processName cmd later tr1 tr2 e hprocs hdone hfail
    exact deployProcesses_first_failure env client a imgID tr tr1 tr2 imageData done
      processName cmd later e hdata hprocs hdone hfail
  · cases hall : reconciledAll env client a imgID imageData.Processes
        (tr ++ [Call.GetImageCustomData imgID]) with
    | some tr1 =>
      rw [deployProcesses_all_reconciled env client a imgID tr tr1 imageData hdata hall]
      obtain ⟨⟨e1, rfl, _⟩, _⟩ := reconciledAll_extends env client a imgID _ _ tr1 hall
      simp [callsSince]
    | none =>
      obtain ⟨done, processName, cmd, later, tr1, tr2, e, hprocs, hdone, hfail⟩ :=
        first_failure_of_not_reconciledAll env client a imgID _ _ hall
      obtain ⟨heq, _, hnot⟩ := deployProcesses_first_failure env client a imgID tr tr1 tr2
        imageData done processName cmd later e hdata hprocs hdone hfail
      rw [heq]
      simp [hnot]
  · exact (deployProcesses_extends env client a imgID tr).filter_eq_nil (by
      intro x hx
      cases x <;> simp_all [Call.isReconcile, Call.isRemoveService])

theorem deployProcesses_appends_after_all_witness :
    deployProcesses workerFailsEnv sampleClient sampleApp "tsuru/app-myapp:v2" [] =
      (some (.Wrap (.failure "connection refused") ""),
        [Call.GetImageCustomData "tsuru/app-myapp:v2",
         Call.InspectService sampleClient "myapp-web",
         Call.CreateService sampleClient
           { Name := "myapp-web",
             Labels := [("tsuru.app.process", "web"), ("tsuru.build.image", "")],
             Image := "tsuru/app-myapp:v2", Command := [],
             RestartCondition := swarm.RestartPolicyCondition.Any, Replicas := 1 },
         Call.InspectService sampleClient "myapp-worker"]) :=
  ((deployProcesses_appends_after_all workerFailsEnv sampleClient sampleApp
    "tsuru/app-myapp:v2" []
    { Name := "tsuru/app-myapp:v2", CustomData := [],
      Processes := [("web", "python app.py"), ("worker", "python w.py")] } rfl).2.1
    [("web", "python app.py")] "worker" "python w.py" [] _ _ _ rfl rfl rfl).1

/-! ## Removing a node -/

theorem ListNodes_extends (env : Env) (addressFilter : List String) (tr : Trace) :
    Extends (fun c => !c.isMutating) tr (ListNodes env addressFilter tr).2 := by
  unfold ListNodes
  dsimp only
  repeat' split
  all_goals repeat (first | exact Extends.refl _ _ | refine Extends.snoc ?_ rfl)

theorem GetNode_extends (env : Env) (address : String) (tr : Trace) :
    Extends (fun c => !c.isMutating) tr (GetNode env address tr).2 := by
  have h := ListNodes_extends env [address] tr
  unfold GetNode
  split
  all_goals
    rename_i heq
    rw [heq] at h
    exact h

theorem Extends.filter_append {P Q : Call → Bool} {tr tr1 : Trace} (h : Extends P tr tr1)
    (hPQ : ∀ x, P x = true → Q x = false) (l : List Call) :
    (callsSince tr (tr1 ++ l)).filter Q = l.filter Q := by
  obtain ⟨e, rfl, ha⟩ := h
  rw [List.append_assoc, callsSince_append, List.filter_append]
  have hnil : e.filter Q = [] := by
    rw [List.filter_eq_nil_iff]
    intro x hx
    rw [hPQ x (ha x hx)]
    exact Bool.false_ne_true
  rw [hnil, List.nil_append]

/-- C8: for a node resolved by `GetNode` and a client then chosen, `RemoveNode`
with `rebalance` makes as mutating calls one `UpdateNode` that sets the
availability to `Drain` and carries the version index of the node, followed by
one forced `RemoveNode` of the node id; when that update fails the update is
the only mutating call and its error is returned.  Without `rebalance` the
forced `RemoveNode` is the only mutating call. -/
theorem RemoveNode_drains_before_removal (env : Env) (opts : provision.RemoveNodeOptions)
    (tr tr1 : Trace) (node : swarmNodeWrapper) (client : docker.Client)
    (hnode : GetNode env opts.Address tr = (.ok node, tr1))
    (hclient : env.chooseDBSwarmNode tr1 = .ok client) :
    (opts.Rebalance = true →
      (env.UpdateNode (tr1 ++ [Call.chooseDBSwarmNode]) client node.Node.ID node.Node.Version
          { node.Node.Spec with Availability := swarm.NodeAvailability.Drain } = none →
        (callsSince tr (RemoveNode env opts tr).2).filter Call.isMutating =
          [Call.UpdateNode client node.Node.ID node.Node.Version
             { node.Node.Spec with Availability := swarm.NodeAvailability.Drain },
           Call.RemoveNode client node.Node.ID true]) ∧
      (∀ e, env.UpdateNode (tr1 ++ [Call.chooseDBSwarmNode]) client node.Node.ID
          node.Node.Version
          { node.Node.Spec with Availability := swarm.NodeAvailability.Drain } = some e →
        (RemoveNode env opts tr).1 = some (.Wrap e "") ∧
        (callsSince tr (RemoveNode env opts tr).2).filter Call.isMutating =
          [Call.UpdateNode client node.Node.ID node.Node.Version
             { node.Node.Spec with Availability := swarm.NodeAvailability.Drain }])) ∧
    (opts.Rebalance = false →
      (callsSince tr (RemoveNode env opts tr).2).filter Call.isMutating =
        [Call.RemoveNode client node.Node.ID true]) := by
  have hext := GetNode_extends env opts.Address tr
  rw [hnode] at hext
  have hmut : ∀ x : Call, (fun c : Call => !c.isMutating) x = true → x.isMutating = false := by
    intro x hx
    simpa using hx
  unfold RemoveNode
  simp only [hnode, hclient]
  refine ⟨fun hreb => ⟨?_, ?_⟩, fun hreb => ?_⟩
  · intro hupd
    simp only [hreb, if_true, hupd]
    split
    all_goals
      simp only [List.append_assoc]
      rw [hext.filter_append hmut]
      rfl
  · intro e hupd
    simp only [hreb, if_true, hupd]
    refine ⟨trivial, ?_⟩
    simp only [List.append_assoc]
    rw [hext.filter_append hmut]
    rfl
  · simp only [hreb, Bool.false_eq_true, if_false]
    split
    all_goals
      simp only [List.append_assoc]
      rw [hext.filter_append hmut]
      rfl

theorem RemoveNode_drains_before_removal_witness :
    (callsSince [] (RemoveNode sampleEnv { Address := "10.0.0.2", Rebalance := true } []).2).filter
        Call.isMutating =
      [Call.UpdateNode sampleClient "n2" 7
         { Labels := [(labelDockerAddr, "10.0.0.2")],
           Availability := swarm.NodeAvailability.Drain },
       Call.RemoveNode sampleClient "n2" true] :=
  ((RemoveNode_drains_before_removal sampleEnv { Address := "10.0.0.2", Rebalance := true } []
    [Call.chooseDBSwarmNode, Call.ListNodes sampleClient]
    { Node := sampleNode "n2" "10.0.0.2" } sampleClient (by decide) rfl).1 rfl).1 rfl

/-! ## Adding a node -/

theorem StrMap.get_set (m : StrMap) (k v k0 : String) :
    (m.set k v).get k0 = if k = k0 then v else m.get k0 := by
  unfold StrMap.set StrMap.get
  by_cases h : k = k0
  · subst h
    simp [List.lookup]
  · have hne : (k0 == k) = false := by
      rw [beq_eq_false_iff_ne]
      exact fun hc => h hc.symm
    simp only [List.lookup, hne, if_neg h]
    congr 1
    induction m with
    | nil => rfl
    | cons e rest ih =>
      obtain ⟨ek, ev⟩ := e
      rw [List.filter_cons]
      by_cases hk : ek = k
      · subst hk
        have hb : ((ek, ev).1 != ek) = false := by simp
        rw [if_neg (by rw [hb]; exact Bool.false_ne_true), ih]
        simp [List.lookup, hne]
      · have hb : ((ek, ev).1 != k) = true := by simpa using hk
        rw [if_pos hb]
        by_cases hk0 : k0 = ek
        · subst hk0
          simp [List.lookup]
        · have hne2 : (k0 == ek) = false := by
            rw [beq_eq_false_iff_ne]
            exact hk0
          simp only [List.lookup, hne2]
          exact ih

theorem foldl_set_get (metadata : StrMap) (m : StrMap) (k0 : String)
    (hfree : ∀ kv ∈ metadata, kv.1 ≠ k0) :
    (metadata.foldl (fun m kv => m.set kv.1 kv.2) m).get k0 = m.get k0 := by
  induction metadata generalizing m with
  | nil => rfl
  | cons kv rest ih =>
    rw [List.foldl_cons, ih _ (fun x hx => hfree x (List.mem_cons_of_mem _ hx)),
      StrMap.get_set, if_neg (hfree kv (List.mem_cons_self _ _))]

theorem AddNode_labels_address (opts : provision.AddNodeOptions)
    (hfree : ∀ kv ∈ opts.Metadata, kv.1 ≠ labelDockerAddr) :
    (AddNode.labels opts).get labelDockerAddr = opts.Address := by
  unfold AddNode.labels
  rw [foldl_set_get _ _ _ hfree]
  simp [StrMap.get, List.lookup]

/-- C9, at a failing input: with caller metadata that uses the key
`tsuru-internal-docker-addr`, `AddNode` succeeds, both when it joins a cluster
and when it bootstraps one, and the labels it submits in the node update map
that key to the value of the metadata, not to the address of the node. -/
theorem AddNode_metadata_overrides_address :
    (AddNode newNodeEnv overridingOpts []).1 = none ∧
    (AddNode emptyClusterEnv overridingOpts []).1 = none ∧
    Call.joinSwarm sampleClient { endpoint := "http://10.0.0.3:2375" } "http://10.0.0.3:2375" ∈
      (AddNode newNodeEnv overridingOpts []).2 ∧
    Call.initSwarm { endpoint := "http://10.0.0.3:2375" } "http://10.0.0.3:2375" ∈
      (AddNode emptyClusterEnv overridingOpts []).2 ∧
    (∀ c id version spec,
      (Call.UpdateNode c id version spec ∈ (AddNode newNodeEnv overridingOpts []).2 ∨
        Call.UpdateNode c id version spec ∈ (AddNode emptyClusterEnv overridingOpts []).2) →
      spec.Labels.get labelDockerAddr = "http://10.9.9.9:2375" ∧
        spec.Labels.get labelDockerAddr ≠ overridingOpts.Address) := by
  refine ⟨by decide, by decide, by decide, by decide, ?_⟩
  have h1 : AddNode newNodeEnv overridingOpts [] =
      (none,
       [Call.chooseDBSwarmNode, Call.newClient "http://10.0.0.3:2375",
        Call.joinSwarm sampleClient { endpoint := "http://10.0.0.3:2375" } "http://10.0.0.3:2375",
        Call.Info { endpoint := "http://10.0.0.3:2375" },
        Call.InspectNode { endpoint := "http://10.0.0.3:2375" } "n3",
        Call.UpdateNode { endpoint := "http://10.0.0.3:2375" } "n3" 7
          { Labels := [("tsuru-internal-docker-addr", "http://10.9.9.9:2375"), ("pool", "dev")],
            Availability := swarm.NodeAvailability.Active },
        Call.updateDBSwarmNodes { endpoint := "http://10.0.0.3:2375" }]) := by decide
  have h2 : AddNode emptyClusterEnv overridingOpts [] =
      (none,
       [Call.chooseDBSwarmNode, Call.newClient "http://10.0.0.3:2375",
        Call.initSwarm { endpoint := "http://10.0.0.3:2375" } "http://10.0.0.3:2375",
        Call.Info { endpoint := "http://10.0.0.3:2375" },
        Call.InspectNode { endpoint := "http://10.0.0.3:2375" } "n3",
        Call.UpdateNode { endpoint := "http://10.0.0.3:2375" } "n3" 7
          { Labels := [("tsuru-internal-docker-addr", "http://10.9.9.9:2375"), ("pool", "dev")],
            Availability := swarm.NodeAvailability.Active },
        Call.updateDBSwarmNodes { endpoint := "http://10.0.0.3:2375" }]) := by decide
  intro c id version spec hmem
  rw [h1, h2] at hmem
  simp only [List.mem_cons, List.mem_singleton, List.not_mem_nil, or_false, or_self,
    Call.UpdateNode.injEq, reduceCtorEq, false_or] at hmem
  obtain ⟨_, _, _, rfl⟩ := hmem
  exact ⟨by decide, by decide⟩

/-! ## Listing nodes -/

theorem filterMap_foldl_contains (env : Env) (addressFilter : List String) (init : List String)
    (host : String) :
    (addressFilter.foldl (fun m addr => env.URLToHost addr :: m) init).contains host =
      (init.contains host || addressFilter.any (fun entry => env.URLToHost entry == host)) := by
  induction addressFilter generalizing init with
  | nil => simp
  | cons entry rest ih =>
    rw [List.foldl_cons, ih]
    simp only [List.contains_cons, List.any_cons]
    have hsym : (host == env.URLToHost entry) = (env.URLToHost entry == host) := by
      rw [Bool.eq_iff_iff, beq_iff_eq, beq_iff_eq]
      exact eq_comm
    rw [hsym, Bool.or_left_comm, Bool.or_assoc]

theorem ListNodes_loop_all (env : Env) (nodes : List swarm.Node)
    (nodeList : List swarmNodeWrapper) :
    ListNodes.loop env none nodes nodeList =
      nodeList ++ nodes.map (fun n => { Node := n }) := by
  induction nodes generalizing nodeList with
  | nil => simp [ListNodes.loop]
  | cons node rest ih =>
    unfold ListNodes.loop
    simp [ih]

theorem ListNodes_loop_some (env : Env) (m : List String) (nodes : List swarm.Node)
    (nodeList : List swarmNodeWrapper) :
    ListNodes.loop env (some m) nodes nodeList =
      nodeList ++ (nodes.filter (fun n =>
        m.contains (env.URLToHost (swarmNodeWrapper.Address { Node := n })))).map
          (fun n => { Node := n }) := by
  induction nodes generalizing nodeList with
  | nil => simp [ListNodes.loop]
  | cons node rest ih =>
    unfold ListNodes.loop
    dsimp only
    rw [List.filter_cons]
    by_cases hadd : m.contains (env.URLToHost (swarmNodeWrapper.Address { Node := node })) = true
    · rw [if_pos hadd, if_pos hadd, ih]
      simp
    · rw [if_neg hadd, if_neg hadd, ih]

theorem ListNodes_loop_spec (env : Env) (addressFilter : List String)
    (nodes : List swarm.Node) :
    ListNodes.loop env (ListNodes.filterMap env addressFilter) nodes [] =
      nodesForFilter env addressFilter nodes := by
  unfold ListNodes.filterMap nodesForFilter
  cases addressFilter with
  | nil =>
    simp only [List.length_nil, gt_iff_lt, Nat.lt_irrefl, if_false, if_true]
    rw [ListNodes_loop_all, List.nil_append]
  | cons entry rest =>
    rw [if_pos (by simp), if_neg (List.cons_ne_nil _ _), ListNodes_loop_some, List.nil_append]
    congr 1
    apply List.filter_congr
    intro n _
    rw [filterMap_foldl_contains]
    simp [hostMatches]

/-- C10: when a client is chosen and the control plane lists `nodes`,
`ListNodes` returns all of them, in listing order, for an empty filter, and
for a non-empty filter exactly those, in listing order, whose reachable
address reduced to its host is the host of some filter entry; when no swarm
node is known it returns the empty list and no error. -/
theorem ListNodes_filters_by_host (env : Env) (addressFilter : List String) (tr : Trace) :
    (∀ client nodes,
      env.chooseDBSwarmNode tr = .ok client →
      env.ListNodes (tr ++ [Call.chooseDBSwarmNode]) client = .ok nodes →
      (ListNodes env addressFilter tr).1 = .ok (nodesForFilter env addressFilter nodes) ∧
      (addressFilter = [] →
        (ListNodes env addressFilter tr).1 = .ok (nodes.map (fun n => { Node := n }))) ∧
      (addressFilter ≠ [] →
        (ListNodes env addressFilter tr).1 =
          .ok ((nodes.filter (hostMatches env addressFilter)).map (fun n => { Node := n })))) ∧
    (∀ e, env.chooseDBSwarmNode tr = .error e → e.Cause = Err.errNoSwarmNode →
      (ListNodes env addressFilter tr).1 = .ok []) := by
  constructor
  · intro client nodes hclient hnodes
    have hmain : (ListNodes env addressFilter tr).1 =
        .ok (nodesForFilter env addressFilter nodes) := by
      unfold ListNodes
      simp only [hclient, hnodes, ListNodes_loop_spec]
    refine ⟨hmain, ?_, ?_⟩
    · intro hempty
      rw [hmain, nodesForFilter, if_pos hempty]
    · intro hne
      rw [hmain, nodesForFilter, if_neg hne]
  · intro e hchoose hcause
    unfold ListNodes
    simp only [hchoose, hcause, if_true]

theorem ListNodes_filters_by_host_witness :
    (ListNodes sampleEnv ["10.0.0.2", "10.0.0.9"] []).1 =
      .ok [{ Node := sampleNode "n2" "10.0.0.2" }] :=
  ((ListNodes_filters_by_host sampleEnv ["10.0.0.2", "10.0.0.9"] []).1 sampleClient
    [sampleNode "n1" "10.0.0.1", sampleNode "n2" "10.0.0.2"] rfl rfl).2.2 (by decide)

/-! ## Looking up one node -/

theorem ListNodes_listed (env : Env) (addressFilter : List String) (tr : Trace)
    (client : docker.Client) (nodes : List swarm.Node)
    (hclient : env.chooseDBSwarmNode tr = .ok client)
    (hnodes : env.ListNodes (tr ++ [Call.chooseDBSwarmNode]) client = .ok nodes) :
    ListNodes env addressFilter tr =
      (.ok (nodesForFilter env addressFilter nodes),
        tr ++ [Call.chooseDBSwarmNode] ++ [Call.ListNodes client]) := by
  unfold ListNodes
  simp only [hclient, hnodes, ListNodes_loop_spec]

theorem filter_of_find_none {α : Type} (p : α → Bool) (l : List α)
    (h : l.find? p = none) : l.filter p = [] := by
  rw [List.filter_eq_nil_iff]
  exact List.find?_eq_none.1 h

theorem filter_of_find_some {α : Type} (p : α → Bool) (l : List α) (a : α)
    (h : l.find? p = some a) : ∃ rest, l.filter p = a :: rest := by
  induction l with
  | nil => simp at h
  | cons x xs ih =>
    rw [List.find?_cons] at h
    rw [List.filter_cons]
    cases hp : p x with
    | true =>
      rw [hp] at h
      simp only [Option.some.injEq] at h
      subst h
      exact ⟨xs.filter p, by simp⟩
    | false =>
      rw [hp] at h
      obtain ⟨rest, hrest⟩ := ih h
      exact ⟨rest, by simpa using hrest⟩

theorem GetNode_listed (env : Env) (address : String) (tr : Trace)
    (client : docker.Client) (nodes : List swarm.Node)
    (hclient : env.chooseDBSwarmNode tr = .ok client)
    (hnodes : env.ListNodes (tr ++ [Call.chooseDBSwarmNode]) client = .ok nodes) :
    (GetNode env address tr).1 =
      match nodes.find? (hostMatches env [address]) with
      | none => .error Err.ErrNodeNotFound
      | some n => .ok { Node := n } := by
  unfold GetNode
  rw [ListNodes_listed env [address] tr client nodes hclient hnodes, nodesForFilter,
    if_neg (List.cons_ne_nil _ _)]
  cases hfind : nodes.find? (hostMatches env [address]) with
  | none => rw [filter_of_find_none _ _ hfind]; rfl
  | some n =>
    obtain ⟨rest, hrest⟩ := filter_of_find_some _ _ _ hfind
    rw [hrest]
    rfl

/-- C11: when a client is chosen and the control plane lists `nodes`,
`GetNode` fails with `ErrNodeNotFound` exactly when no listed node has a
reachable address whose host is the host of `address`, and otherwise returns,
without error, the first such node in listing order; when no swarm node is
known it fails with `ErrNodeNotFound`.  An error of the listing, from the
choice of the client or from the control plane, is returned as it is. -/
theorem GetNode_first_match_or_not_found (env : Env) (address : String) (tr : Trace) :
    (∀ client nodes,
      env.chooseDBSwarmNode tr = .ok client →
      env.ListNodes (tr ++ [Call.chooseDBSwarmNode]) client = .ok nodes →
      ((GetNode env address tr).1 = .error Err.ErrNodeNotFound ↔
        ∀ n ∈ nodes, hostMatches env [address] n = false) ∧
      (∀ n, nodes.find? (hostMatches env [address]) = some n →
        (GetNode env address tr).1 = .ok { Node := n })) ∧
    (∀ e, env.chooseDBSwarmNode tr = .error e → e.Cause = Err.errNoSwarmNode →
      (GetNode env address tr).1 = .error Err.ErrNodeNotFound) ∧
    (∀ e, env.chooseDBSwarmNode tr = .error e → e.Cause ≠ Err.errNoSwarmNode →
      (GetNode env address tr).1 = .error e) ∧
    (∀ client e,
      env.chooseDBSwarmNode tr = .ok client →
      env.ListNodes (tr ++ [Call.chooseDBSwarmNode]) client = .error e →
      (GetNode env address tr).1 = .error e) := by
  refine ⟨?_, ?_, ?_, ?_⟩
  · intro client nodes hclient hnodes
    have hget := GetNode_listed env address tr client nodes hclient hnodes
    constructor
    · rw [hget]
      cases hfind : nodes.find? (hostMatches env [address]) with
      | none =>
        simp only [true_iff]
        intro n hn
        have := List.find?_eq_none.1 hfind n hn
        simpa using this
      | some n =>
        simp only [reduceCtorEq, false_iff]
        intro hall
        have hp := List.find?_some hfind
        rw [hall n (List.mem_of_find?_eq_some hfind)] at hp
        exact Bool.false_ne_true hp
    · intro n hfind
      rw [hget, hfind]
  · intro e hchoose hcause
    unfold GetNode ListNodes
    simp only [hchoose, hcause, if_true]
  · intro e hchoose hcause
    unfold GetNode ListNodes
    simp only [hchoose, hcause, if_false]
  · intro client e hclient hnodes
    unfold GetNode ListNodes
    simp only [hclient, hnodes]

theorem GetNode_first_match_or_not_found_witness :
    (GetNode sampleEnv "10.0.0.2" []).1 = .ok { Node := sampleNode "n2" "10.0.0.2" } :=
  ((GetNode_first_match_or_not_found sampleEnv "10.0.0.2" []).1 sampleClient
    [sampleNode "n1" "10.0.0.1", sampleNode "n2" "10.0.0.2"] rfl rfl).2
    (sampleNode "n2" "10.0.0.2") (by decide)

/-! ## Projecting tasks to units -/

theorem lookup_cons_consistent {α : Type} (f : String → α) (cache : Cache α) (key : String)
    (hc : ∀ id a, cache.lookup id = some a → a = f id) :
    ∀ id a, List.lookup id ((key, f key) :: cache) = some a → a = f id := by
  intro id a h
  rw [List.lookup_cons] at h
  cases hk : (id == key) with
  | true =>
    rw [hk] at h
    simp only [Option.some.injEq] at h
    rw [← h, eq_of_beq hk]
  | false =>
    rw [hk] at h
    exact hc id a h

theorem unitsLoop_ok (env : Env) (client : docker.Client) (app : provision.App)
    (nodeOf : String → swarm.Node) (serviceOf : String → swarm.Service)
    (tasks : List swarm.Task) (nodeMap : Cache swarm.Node) (serviceMap : Cache swarm.Service)
    (units : List provision.Unit) (tr : Trace)
    (hnode : ∀ tr1, ∀ t ∈ tasks, env.InspectNode tr1 client t.NodeID = .ok (nodeOf t.NodeID))
    (hservice : ∀ tr1, ∀ t ∈ tasks,
      env.InspectService tr1 client t.ServiceID = .ok (serviceOf t.ServiceID))
    (hcn : ∀ id n, nodeMap.lookup id = some n → n = nodeOf id)
    (hcs : ∀ id s, serviceMap.lookup id = some s → s = serviceOf id) :
    (unitsLoop env client app tasks nodeMap serviceMap units tr).1 =
      .ok (units ++ tasks.map
        (fun t => unitOfTask env app (nodeOf t.NodeID) (serviceOf t.ServiceID) t)) := by
  induction tasks generalizing nodeMap serviceMap units tr with
  | nil => simp [unitsLoop]
  | cons t rest ih =>
    have hn := fun tr1 => hnode tr1 t (List.mem_cons_self _ _)
    have hs := fun tr1 => hservice tr1 t (List.mem_cons_self _ _)
    have hnode1 : ∀ tr1, ∀ t ∈ rest,
        env.InspectNode tr1 client t.NodeID = .ok (nodeOf t.NodeID) :=
      fun tr1 x hx => hnode tr1 x (List.mem_cons_of_mem _ hx)
    have hservice1 : ∀ tr1, ∀ t ∈ rest,
        env.InspectService tr1 client t.ServiceID = .ok (serviceOf t.ServiceID) :=
      fun tr1 x hx => hservice tr1 x (List.mem_cons_of_mem _ hx)
    have hport : ∀ ports : List Nat,
        (match ports with
          | [] => 0
          | p :: _ => p) = ports.headD 0 := by
      intro ports
      cases ports <;> rfl
    unfold unitsLoop
    cases hln : nodeMap.lookup t.NodeID with
    | some node =>
      have hnodeEq := hcn _ _ hln
      subst hnodeEq
      cases hls : serviceMap.lookup t.ServiceID with
      | some service =>
        have hsEq := hcs _ _ hls
        subst hsEq
        simp only [hport]
        rw [ih _ _ _ _ hnode1 hservice1 hcn hcs]
        simp [unitOfTask]
      | none =>
        simp only [hs, hport]
        rw [ih _ _ _ _ hnode1 hservice1 hcn (lookup_cons_consistent serviceOf _ _ hcs)]
        simp [unitOfTask]
    | none =>
      cases hls : serviceMap.lookup t.ServiceID with
      | some service =>
        have hsEq := hcs _ _ hls
        subst hsEq
        simp only [hn, hport]
        rw [ih _ _ _ _ hnode1 hservice1 (lookup_cons_consistent nodeOf _ _ hcn) hcs]
        simp [unitOfTask]
      | none =>
        simp only [hn, hs, hport]
        rw [ih _ _ _ _ hnode1 hservice1 (lookup_cons_consistent nodeOf _ _ hcn)
          (lookup_cons_consistent serviceOf _ _ hcs)]
        simp [unitOfTask]

/-- C12: when a client is chosen, the control plane lists `tasks` for the app
and every inspection of a node or a service of these tasks succeeds (with
`nodeOf` and `serviceOf` the inspected objects), `Units` produces exactly one
unit per task, in task order, and unit `i` is the projection of task `i`, its
node and its service. -/
theorem Units_one_unit_per_task (env : Env) (app : provision.App) (tr : Trace)
    (client : docker.Client) (tasks : List swarm.Task)
    (nodeOf : String → swarm.Node) (serviceOf : String → swarm.Service)
    (hclient : env.chooseDBSwarmNode tr = .ok client)
    (htasks : env.ListTasks (tr ++ [Call.chooseDBSwarmNode]) client
      (env.labelAppName ++ "=" ++ app.name) = .ok tasks)
    (hnode : ∀ tr1, ∀ t ∈ tasks, env.InspectNode tr1 client t.NodeID = .ok (nodeOf t.NodeID))
    (hservice : ∀ tr1, ∀ t ∈ tasks,
      env.InspectService tr1 client t.ServiceID = .ok (serviceOf t.ServiceID)) :
    (Units env app tr).1 =
      .ok (tasks.map
        (fun t => unitOfTask env app (nodeOf t.NodeID) (serviceOf t.ServiceID) t)) ∧
    ∀ units, (Units env app tr).1 = .ok units →
      units.length = tasks.length ∧
      ∀ i (hi : i < tasks.length) (hu : i < units.length),
        units.get ⟨i, hu⟩ =
          unitOfTask env app (nodeOf (tasks.get ⟨i, hi⟩).NodeID)
            (serviceOf (tasks.get ⟨i, hi⟩).ServiceID) (tasks.get ⟨i, hi⟩) := by
  have hmain : (Units env app tr).1 =
      .ok (tasks.map
        (fun t => unitOfTask env app (nodeOf t.NodeID) (serviceOf t.ServiceID) t)) := by
    unfold Units
    simp only [hclient, htasks]
    rw [unitsLoop_ok env client app nodeOf serviceOf tasks [] [] [] _ hnode hservice
      (by intro id n h; simp at h) (by intro id s h; simp at h)]
    simp
  refine ⟨hmain, ?_⟩
  intro units hunits
  rw [hmain] at hunits
  simp only [Except.ok.injEq] at hunits
  subst hunits
  refine ⟨by simp, ?_⟩
  intro i hi hu
  simp

theorem Units_one_unit_per_task_witness :
    (Units sampleEnv sampleApp []).1 = .ok sampleUnits :=
  (Units_one_unit_per_task sampleEnv sampleApp [] sampleClient sampleTasks
    (fun id => if id = "n1" then sampleNode "n1" "10.0.0.1" else sampleNode "n2" "10.0.0.2")
    (fun id =>
      if id = "s-web" then sampleService "s-web" "web" [30001, 30002]
      else sampleService "s-worker" "worker" [])
    rfl rfl
    (fun _ t ht => by
      simp only [sampleTasks, List.mem_cons, List.mem_singleton, List.not_mem_nil,
        or_false] at ht
      rcases ht with rfl | rfl | rfl | rfl <;> rfl)
    (fun _ t ht => by
      simp only [sampleTasks, List.mem_cons, List.mem_singleton, List.not_mem_nil,
        or_false] at ht
      rcases ht with rfl | rfl | rfl | rfl <;> rfl)).1

/-! ## Registering a unit -/

theorem RegisterUnit_no_match (env : Env) (unit : provision.Unit) (data : CustomData)
    (tr : Trace) (client : docker.Client) (tasks : List swarm.Task)
    (hclient : env.chooseDBSwarmNode tr = .ok client)
    (htasks : env.ListTasks (tr ++ [Call.chooseDBSwarmNode]) client
      (env.labelServiceDeploy ++ "=true") = .ok tasks)
    (hfind : tasks.find? (fun t => t.ContainerID == unit.ID) = none) :
    RegisterUnit env unit (some data) tr =
      (none, tr ++ [Call.chooseDBSwarmNode] ++
        [Call.ListTasks client (env.labelServiceDeploy ++ "=true")]) := by
  unfold RegisterUnit
  simp only [hclient, htasks, hfind]

theorem RegisterUnit_match (env : Env) (unit : provision.Unit) (data : CustomData)
    (tr : Trace) (client : docker.Client) (tasks : List swarm.Task) (found : swarm.Task)
    (hclient : env.chooseDBSwarmNode tr = .ok client)
    (htasks : env.ListTasks (tr ++ [Call.chooseDBSwarmNode]) client
      (env.labelServiceDeploy ++ "=true") = .ok tasks)
    (hfind : tasks.find? (fun t => t.ContainerID == unit.ID) = some found) :
    RegisterUnit env unit (some data) tr =
      match env.InspectService
          (tr ++ [Call.chooseDBSwarmNode] ++
            [Call.ListTasks client (env.labelServiceDeploy ++ "=true")])
          client found.ServiceID with
      | .error err =>
        (some (.Wrap err ""),
          tr ++ [Call.chooseDBSwarmNode] ++
            [Call.ListTasks client (env.labelServiceDeploy ++ "=true")] ++
            [Call.InspectService client found.ServiceID])
      | .ok srv =>
        if srv.Spec.Labels.get env.labelServiceBuildImage = "" then
          (some errInvalidBuildImage,
            tr ++ [Call.chooseDBSwarmNode] ++
              [Call.ListTasks client (env.labelServiceDeploy ++ "=true")] ++
              [Call.InspectService client found.ServiceID])
        else
          (env.SaveImageCustomData
              (tr ++ [Call.chooseDBSwarmNode] ++
                [Call.ListTasks client (env.labelServiceDeploy ++ "=true")] ++
                [Call.InspectService client found.ServiceID])
              (srv.Spec.Labels.get env.labelServiceBuildImage) data,
            tr ++ [Call.chooseDBSwarmNode] ++
              [Call.ListTasks client (env.labelServiceDeploy ++ "=true")] ++
              [Call.InspectService client found.ServiceID] ++
              [Call.SaveImageCustomData (srv.Spec.Labels.get env.labelServiceBuildImage)
                data]) := by
  unfold RegisterUnit
  simp only [hclient, htasks, hfind]

theorem RegisterUnit_match_not_noop (env : Env) (unit : provision.Unit) (data : CustomData)
    (tr : Trace) (client : docker.Client) (tasks : List swarm.Task) (found : swarm.Task)
    (hclient : env.chooseDBSwarmNode tr = .ok client)
    (htasks : env.ListTasks (tr ++ [Call.chooseDBSwarmNode]) client
      (env.labelServiceDeploy ++ "=true") = .ok tasks)
    (hfind : tasks.find? (fun t => t.ContainerID == unit.ID) = some found) :
    ¬ ((RegisterUnit env unit (some data) tr).1 = none ∧
      (callsSince tr (RegisterUnit env unit (some data) tr).2).filter
        Call.isSaveImageCustomData = []) := by
  rw [RegisterUnit_match env unit data tr client tasks found hclient htasks hfind]
  split
  · simp
  · split
    · simp
    · simp [callsSince, Call.isSaveImageCustomData]

/-- C13: without custom data `RegisterUnit` returns no error and makes no
call at all.  With custom data, a client chosen and the tasks labeled
service-deploy listed, it returns no error and saves nothing exactly when no
listed task has the container id of the unit.  When some task has it, the
first such task in listing order is used: once its service is inspected, an
empty build-image label makes `RegisterUnit` fail, and otherwise the custom
data is saved under that label and the answer of the save is returned. -/
theorem RegisterUnit_noop_cases (env : Env) (unit : provision.Unit) (tr : Trace) :
    RegisterUnit env unit none tr = (none, tr) ∧
    (∀ (data : CustomData) (client : docker.Client) (tasks : List swarm.Task),
      env.chooseDBSwarmNode tr = .ok client →
      env.ListTasks (tr ++ [Call.chooseDBSwarmNode]) client
        (env.labelServiceDeploy ++ "=true") = .ok tasks →
      (((RegisterUnit env unit (some data) tr).1 = none ∧
          (callsSince tr (RegisterUnit env unit (some data) tr).2).filter
            Call.isSaveImageCustomData = []) ↔
        ∀ t ∈ tasks, t.ContainerID ≠ unit.ID) ∧
      (∀ (before : List swarm.Task) (found : swarm.Task) (after : List swarm.Task)
          (srv : swarm.Service),
        tasks = before ++ found :: after →
        (∀ t ∈ before, t.ContainerID ≠ unit.ID) →
        found.ContainerID = unit.ID →
        env.InspectService
          (tr ++ [Call.chooseDBSwarmNode] ++
            [Call.ListTasks client (env.labelServiceDeploy ++ "=true")])
          client found.ServiceID = .ok srv →
        (srv.Spec.Labels.get env.labelServiceBuildImage = "" →
          (RegisterUnit env unit (some data) tr).1 = some errInvalidBuildImage ∧
          (callsSince tr (RegisterUnit env unit (some data) tr).2).filter
            Call.isSaveImageCustomData = []) ∧
        (srv.Spec.Labels.get env.labelServiceBuildImage ≠ "" →
          (RegisterUnit env unit (some data) tr).1 =
            env.SaveImageCustomData
              (tr ++ [Call.chooseDBSwarmNode] ++
                [Call.ListTasks client (env.labelServiceDeploy ++ "=true")] ++
                [Call.InspectService client found.ServiceID])
              (srv.Spec.Labels.get env.labelServiceBuildImage) data ∧
          (callsSince tr (RegisterUnit env unit (some data) tr).2).filter
            Call.isSaveImageCustomData =
            [Call.SaveImageCustomData (srv.Spec.Labels.get env.labelServiceBuildImage)
              data]))) := by
  refine ⟨rfl, ?_⟩
  intro data client tasks hclient htasks
  constructor
  · cases hfind : tasks.find? (fun t => t.ContainerID == unit.ID) with
    | none =>
      rw [RegisterUnit_no_match env unit data tr client tasks hclient htasks hfind]
      have hnone := List.find?_eq_none.1 hfind
      constructor
      · intro _ t ht
        have := hnone t ht
        simpa using this
      · intro _
        simp [callsSince, Call.isSaveImageCustomData]
    | some found =>
      have hnot := RegisterUnit_match_not_noop env unit data tr client tasks found
        hclient htasks hfind
      constructor
      · intro h
        exact absurd h hnot
      · intro hall
        have hp := List.find?_some hfind
        have hmem := List.mem_of_find?_eq_some hfind
        simp only [beq_iff_eq] at hp
        exact absurd hp (hall found hmem)
  · intro before found after srv hsplit hbefore hfound hinspect
    have hfind : tasks.find? (fun t => t.ContainerID == unit.ID) = some found := by
      rw [List.find?_eq_some]
      refine ⟨by simpa using hfound, before, after, hsplit, ?_⟩
      intro a ha
      simpa using hbefore a ha
    rw [RegisterUnit_match env unit data tr client tasks found hclient htasks hfind, hinspect]
    constructor
    · intro hlabel
      simp only [hlabel, if_true]
      simp [callsSince, Call.isSaveImageCustomData]
    · intro hlabel
      simp only [hlabel, if_false]
      simp [callsSince, Call.isSaveImageCustomData]

theorem RegisterUnit_noop_cases_witness :
    (RegisterUnit buildServiceEnv (sampleUnit "c3" "" "" "") (some [("k", CustomValue.str "v")])
        []).1 = none ∧
    (callsSince []
      (RegisterUnit buildServiceEnv (sampleUnit "c3" "" "" "") (some [("k", CustomValue.str "v")])
        []).2).filter Call.isSaveImageCustomData =
      [Call.SaveImageCustomData "tsuru/app-myapp:v2" [("k", CustomValue.str "v")]] :=
  (((RegisterUnit_noop_cases buildServiceEnv (sampleUnit "c3" "" "" "") []).2
    [("k", CustomValue.str "v")] sampleClient sampleTasks rfl rfl).2
    [{ ID := "t1", ServiceID := "s-web", NodeID := "n1", ContainerID := "c1" },
     { ID := "t2", ServiceID := "s-worker", NodeID := "n1", ContainerID := "c2" }]
    { ID := "t3", ServiceID := "s-worker", NodeID := "n2", ContainerID := "c3" }
    [{ ID := "t4", ServiceID := "s-web", NodeID := "n2", ContainerID := "c4" }]
    _ rfl (by decide) rfl rfl).2 (by decide)

/-! ## Splitting the new image name -/

theorem splitOn_pieces (c : Char) (xs : List Char) : ∀ p ∈ xs.splitOn c, c ∉ p := by
  induction xs with
  | nil => simp [List.splitOn, List.splitOnP_nil]
  | cons x rest ih =>
    simp only [List.splitOn] at ih ⊢
    rw [List.splitOnP_cons]
    split
    · rename_i hx
      intro p hp
      rcases List.mem_cons.1 hp with rfl | hp
      · simp
      · exact ih p hp
    · rename_i hx
      cases hrest : List.splitOnP (fun y => y == c) rest with
      | nil => exact absurd hrest (List.splitOnP_ne_nil _ _)
      | cons hd tl =>
        rw [hrest] at ih
        intro p hp
        simp only [List.modifyHead_cons, List.mem_cons] at hp
        rcases hp with rfl | hp
        · intro hmem
          rcases List.mem_cons.1 hmem with h | h
          · exact hx (by simp [h])
          · exact ih hd (List.mem_cons_self _ _) h
        · exact ih p (List.mem_cons_of_mem _ hp)

theorem intercalate_cons_flatMap (sep a : List Char) (l : List (List Char)) :
    List.intercalate sep (a :: l) = a ++ l.flatMap (fun b => sep ++ b) := by
  induction l generalizing a with
  | nil => simp [List.intercalate]
  | cons b rest ih =>
    have := ih b
    simp only [List.intercalate, List.intersperse_cons_cons, List.flatten_cons,
      List.flatMap_cons] at this ⊢
    rw [this]
    simp

theorem go_data (sep : String) (ls : List String) (acc : String) :
    (String.intercalate.go acc sep ls).data =
      acc.data ++ ls.flatMap (fun b => sep.data ++ b.data) := by
  induction ls generalizing acc with
  | nil => simp [String.intercalate.go]
  | cons a rest ih =>
    rw [String.intercalate.go, ih]
    simp

theorem intercalate_data (init : List (List Char)) :
    (String.intercalate ":" (init.map String.mk)).data = List.intercalate [':'] init := by
  cases init with
  | nil => rfl
  | cons a rest =>
    rw [intercalate_cons_flatMap]
    simp only [List.map_cons, String.intercalate, go_data]
    congr 1
    induction rest with
    | nil => rfl
    | cons b more ih =>
      simp only [List.map_cons, List.flatMap_cons, ih]

theorem splitOn_concat (c : Char) (xs : List Char) :
    ∃ init last, xs.splitOn c = init ++ [last] ∧ c ∉ last ∧
      (c ∈ xs → init ≠ [] ∧ List.intercalate [c] init ++ c :: last = xs) ∧
      (c ∉ xs → init = [] ∧ last = xs) := by
  have hne : xs.splitOn c ≠ [] := List.splitOnP_ne_nil _ _
  have hpieces := splitOn_pieces c xs
  have hjoin : [c].intercalate (xs.splitOn c) = xs := List.intercalate_splitOn xs c
  obtain ⟨init, last, hL⟩ : ∃ init last, xs.splitOn c = init ++ [last] :=
    ⟨(xs.splitOn c).dropLast, (xs.splitOn c).getLast hne,
      (List.dropLast_append_getLast hne).symm⟩
  rw [hL] at hpieces hjoin
  have hlast : c ∉ last := hpieces last (by simp)
  refine ⟨init, last, hL, hlast, ?_, ?_⟩
  · intro hmem
    cases init with
    | nil =>
      simp [List.intercalate] at hjoin
      rw [hjoin] at hlast
      exact absurd hmem hlast
    | cons a rest =>
      refine ⟨List.cons_ne_nil _ _, ?_⟩
      rw [← hjoin]
      simp only [List.cons_append, intercalate_cons_flatMap, List.flatMap_append,
        List.flatMap_cons, List.flatMap_nil, List.append_nil, List.append_assoc,
        List.singleton_append, List.nil_append]
  · intro hnot
    have hsingle : xs.splitOn c = [xs] := by
      simp only [List.splitOn]
      exact List.splitOnP_eq_single _ _ (by
        intro x hx hc
        simp only [beq_iff_eq] at hc
        exact hnot (hc ▸ hx))
    rw [hsingle] at hL
    cases init with
    | nil =>
      simp only [List.nil_append, List.cons.injEq, and_true] at hL
      exact ⟨rfl, hL.symm⟩
    | cons a rest =>
      have := congrArg List.length hL
      simp at this

theorem repoTag_of_concat (s : String) (init : List (List Char)) (last : List Char)
    (hL : s.toList.splitOn ':' = init ++ [last]) :
    ImageDeploy.repoTag s = (String.intercalate ":" (init.map String.mk), String.mk last) := by
  unfold ImageDeploy.repoTag stringsSplit stringsJoin
  simp only [hL, List.map_append, List.map_cons, List.map_nil, List.length_append,
    List.length_map, List.length_singleton, Nat.add_sub_cancel]
  have htake : List.take init.length (init.map String.mk ++ [String.mk last]) =
      init.map String.mk := by
    rw [List.take_append_of_le_length (by simp)]
    simp
  have hget : (init.map String.mk ++ [String.mk last]).getD init.length "" = String.mk last := by
    simp [List.getD_eq_getElem?_getD, List.getElem?_append_right]
  rw [htake, hget]

theorem repoTag_split (newImage : String) :
    (stringsContains newImage ':' = true →
      (ImageDeploy.repoTag newImage).1 ++ ":" ++ (ImageDeploy.repoTag newImage).2 = newImage ∧
      (ImageDeploy.repoTag newImage).1.toList.count ':' + 1 = newImage.toList.count ':') ∧
    (stringsContains newImage ':' = false → ImageDeploy.repoTag newImage = ("", newImage)) ∧
    stringsContains (ImageDeploy.repoTag newImage).2 ':' = false := by
  obtain ⟨init, last, hL, hlast, hin, hnotin⟩ := splitOn_concat ':' newImage.toList
  rw [repoTag_of_concat newImage init last hL]
  refine ⟨?_, ?_, ?_⟩
  · intro hc
    have hmem : ':' ∈ newImage.toList := by
      simpa [stringsContains] using hc
    obtain ⟨_, hjoin⟩ := hin hmem
    have hdata : (String.intercalate ":" (init.map String.mk) ++ ":" ++ String.mk last).data =
        newImage.toList := by
      simp only [String.data_append, intercalate_data]
      rw [← hjoin]
      simp
    constructor
    · exact String.ext hdata
    · dsimp only
      rw [← hjoin]
      simp only [String.toList, intercalate_data, List.count_append, List.count_cons_self,
        List.count_eq_zero_of_not_mem hlast]
  · intro hc
    have hmem : ':' ∉ newImage.toList := by
      simpa [stringsContains] using hc
    obtain ⟨hnil, hlastEq⟩ := hnotin hmem
    subst hnil
    rw [hlastEq]
    rfl
  · simpa [stringsContains] using hlast

theorem deployProcesses_keeps {P : Call → Bool} {env : Env} {client : docker.Client}
    {a : provision.App} {imgID : String} {tr0 tr tr1 : Trace} {r : Option Err}
    (hP : ∀ x : Call, x.isReconcile = true → P x = true)
    (h : Extends P tr0 tr)
    (heq : deployProcesses env client a imgID tr = (r, tr1)) :
    Extends P tr0 tr1 := by
  have h1 := (deployProcesses_extends env client a imgID tr).mono hP
  rw [heq] at h1
  exact h.trans h1

theorem afterBuild_repo_tag (env : Env) (a : provision.App) (imgID newImage : String)
    (client0 : docker.Client) (task : swarm.Task) (procfileData : String) (tr : Trace) :
    Extends (Call.carriesRepoTag newImage) tr
      (ImageDeploy.afterBuild env a imgID newImage client0 task procfileData tr).2 := by
  unfold ImageDeploy.afterBuild
  dsimp only
  split
  · exact (Extends.refl _ _).snoc rfl
  rename_i client _
  split
  · exact ((Extends.refl _ _).snoc rfl).snoc rfl
  rename_i imageInspect _
  have h2 : Extends (Call.carriesRepoTag newImage) tr
      (tr ++ [Call.clientForNode client0 task.NodeID] ++ [Call.InspectImage client imgID]) :=
    ((Extends.refl _ _).snoc rfl).snoc rfl
  have h3 := procfileOrEntrypoint_extends env (env.GetProcessesFromProcfile procfileData)
    imageInspect.Entrypoint
    (tr ++ [Call.clientForNode client0 task.NodeID] ++ [Call.InspectImage client imgID])
    (Call.carriesRepoTag newImage) (fun _ => rfl)
  split
  · rename_i err tr3 heq
    rw [heq] at h3
    exact h2.trans h3
  rename_i procfile tr3 heq
  rw [heq] at h3
  have h4 : Extends (Call.carriesRepoTag newImage) tr
      (tr3 ++ procfile.map (fun kv =>
        Call.Fprint ("  ---> Process " ++ kv.1 ++ " found with command: " ++ kv.2 ++ "\n"))) := by
    refine (h2.trans h3).append ?_
    intro x hx
    obtain ⟨kv, _, rfl⟩ := List.mem_map.1 hx
    rfl
  have hrec : ∀ x : Call, x.isReconcile = true → Call.carriesRepoTag newImage x = true := by
    intro x hx
    cases x <;> simp_all [Call.isReconcile, Call.carriesRepoTag]
  split
  · repeat (first | exact h4 | refine Extends.snoc ?_ (decide_eq_true ⟨rfl, rfl⟩))
  split
  · repeat (first | exact h4 | refine Extends.snoc ?_ rfl
                  | refine Extends.snoc ?_ (decide_eq_true ⟨rfl, rfl⟩))
  split
  · repeat (first | exact h4 | refine Extends.snoc ?_ rfl
                  | refine Extends.snoc ?_ (decide_eq_true ⟨rfl, rfl⟩))
  split
  · repeat (first | exact h4 | refine Extends.snoc ?_ rfl
                  | refine Extends.snoc ?_ (decide_eq_true ⟨rfl, rfl⟩))
  split
  · rename_i err tr10 heq2
    refine deployProcesses_keeps hrec ?_ heq2
    repeat (first | exact h4 | refine Extends.snoc ?_ rfl
                  | refine Extends.snoc ?_ (decide_eq_true ⟨rfl, rfl⟩))
  · rename_i tr10 heq2
    refine deployProcesses_keeps hrec ?_ heq2
    repeat (first | exact h4 | refine Extends.snoc ?_ rfl
                  | refine Extends.snoc ?_ (decide_eq_true ⟨rfl, rfl⟩))

/-- C14: the repository and the tag that `ImageDeploy` splits from the new
image name.  For a name with a colon, repository, colon and tag put together
give the name back and the repository keeps every colon but the last one; for
a name without colon the repository is empty and the tag is the whole name;
the tag never contains a colon.  They are the repository and the tag of every
tag and push of the image made after the build. -/
theorem image_name_split_lossless (newImage : String) :
    (stringsContains newImage ':' = true →
      (ImageDeploy.repoTag newImage).1 ++ ":" ++ (ImageDeploy.repoTag newImage).2 = newImage ∧
      (ImageDeploy.repoTag newImage).1.toList.count ':' + 1 = newImage.toList.count ':') ∧
    (stringsContains newImage ':' = false → ImageDeploy.repoTag newImage = ("", newImage)) ∧
    stringsContains (ImageDeploy.repoTag newImage).2 ':' = false ∧
    (∀ (env : Env) (a : provision.App) (imgID : String) (client0 : docker.Client)
        (task : swarm.Task) (procfileData : String) (tr : Trace) (c : docker.Client)
        (img repo tag : String) (force : Bool),
      (Call.TagImage c img repo tag force ∈
          callsSince tr
            (ImageDeploy.afterBuild env a imgID newImage client0 task procfileData tr).2 →
        repo = (ImageDeploy.repoTag newImage).1 ∧ tag = (ImageDeploy.repoTag newImage).2) ∧
      (Call.pushImage c repo tag ∈
          callsSince tr
            (ImageDeploy.afterBuild env a imgID newImage client0 task procfileData tr).2 →
        repo = (ImageDeploy.repoTag newImage).1 ∧ tag = (ImageDeploy.repoTag newImage).2)) := by
  obtain ⟨h1, h2, h3⟩ := repoTag_split newImage
  refine ⟨h1, h2, h3, ?_⟩
  intro env a imgID client0 task procfileData tr c img repo tag force
  have hext := afterBuild_repo_tag env a imgID newImage client0 task procfileData tr
  constructor
  · intro hmem
    have := hext.mem _ hmem
    simpa [Call.carriesRepoTag] using this
  · intro hmem
    have := hext.mem _ hmem
    simpa [Call.carriesRepoTag] using this

theorem image_name_split_lossless_witness :
    ImageDeploy.repoTag "registry.example.com:5000/tsuru/app-myapp:v2" =
      ("registry.example.com:5000/tsuru/app-myapp", "v2") ∧
    (ImageDeploy.repoTag "registry.example.com:5000/tsuru/app-myapp:v2").1 ++ ":" ++
      (ImageDeploy.repoTag "registry.example.com:5000/tsuru/app-myapp:v2").2 =
        "registry.example.com:5000/tsuru/app-myapp:v2" :=
  ⟨by decide,
   ((image_name_split_lossless "registry.example.com:5000/tsuru/app-myapp:v2").1
     (by decide)).1⟩

end Tsuru
